import Mathlib

/-!
# Task steps, the two backends and the command-interception harness of `pkg/acc`

A shallow embedding of the Go package `pkg/acc`:

* `values.go`, `builder.go`: `Ref`, `Values`, `TaskBuilder`;
* `run.go`: `RunTask`, the execution engine;
* `write_script.go`: `WriteBashScript`, the script compiler;
* `acc.go`: `Runtime.findExpected`, `Runtime.Execute`, `Runtime.Start`, `mapInputs`;
* `runexeccmd.go`: `RunExecCmd`, the process runner.

Go maps are association lists read with `List.lookup`; a Go `[]string` keeps the
difference between the nil slice and an empty non-nil slice, which
`reflect.DeepEqual` observes; a `panic` is an `Except.error` (or an `err` field)
carrying a `Fault`. Goroutines are run under a schedule that is part of the input: a
`CopyOutcome` says how a stream copy of `RunTask` ends and whether its panic is stored
before `wg.Wait()` returns, a `Started` process how much of each pipe `RunExecCmd` has
read when `cmd.Wait()` closes it.
-/

namespace Acc

/-! ## Standard-library tables taken as parameters -/

/-- Go standard-library functions whose data tables live outside the repository:
`strconv.IsPrint` and `unicode.ToUpper` on runes above the ASCII / Latin-1 range
where they are table driven, and `filepath.Join`. -/
structure GoLib where
  unicodeIsPrint : Char → Bool
  unicodeToUpper : Char → Char
  filepathJoin : String → String → String

/-! ## Data model (`values.go`, `acc.go`) -/

/-- The struct `Ref` of `values.go`: an empty `Job` names an external input. -/
structure Ref where
  Job : String
  Key : String
deriving DecidableEq, Repr

/-- One element of `Command.Args`, a Go `interface{}`: a `string`, a `Ref`, or a value
of any other dynamic type, of which only its renderings under the verbs `%s` and `%q`
are ever observed. -/
inductive Arg where
  | str (s : String)
  | ref (r : Ref)
  | other (asS asQ : String)
deriving DecidableEq, Repr

/-- The struct `Command` of `acc.go`. -/
structure Command where
  Path : String
  Args : List Arg
deriving DecidableEq, Repr

/-- A Go `[]string`: `nil` is the nil slice, `mk []` the empty non-nil slice. -/
inductive StrSlice where
  | nil
  | mk (elems : List String)
deriving DecidableEq, Repr

/-- The elements of a slice, what `range` and `strings.Join` see. -/
def StrSlice.toList : StrSlice → List String
  | .nil => []
  | .mk l => l

/-- Go `append(s, v)`: appending to the nil slice allocates. -/
def StrSlice.append : StrSlice → String → StrSlice
  | .nil, v => .mk [v]
  | .mk l, v => .mk (l ++ [v])

/-- Go `s[n:]` for `n ≤ len(s)`: slicing the nil slice gives the nil slice, slicing a
non-nil slice never gives nil. -/
def StrSlice.drop : StrSlice → Nat → StrSlice
  | .nil, _ => .nil
  | .mk l, n => .mk (l.drop n)

/-- `reflect.DeepEqual` on two `[]string`: both nil, or both non-nil with equal
elements. -/
def StrSlice.DeepEqual : StrSlice → StrSlice → Bool
  | .nil, .nil => true
  | .mk a, .mk b => decide (a = b)
  | _, _ => false

/-- The struct `ExecResult`: the two readers are given by the text they yield. -/
structure ExecResult where
  Stdout : String
  Stderr : String
  Err : Option String
deriving DecidableEq, Repr

/-- A Go map with string keys, in the iteration order of the run at hand. -/
abbrev GoMap (β : Type) := List (String × β)

/-- Go `m[k] = v`. -/
def GoMap.set {β : Type} (m : GoMap β) (k : String) (v : β) : GoMap β :=
  (k, v) :: m.filter (fun e => !(e.1 == k))

/-- The struct `mapInputs`. -/
structure mapInputs where
  m : GoMap String

/-- The struct `UnexpectedCommandError`; the printer is the `Sprint` method of the
`CommandPrinter` it carries. -/
structure UnexpectedCommandError where
  Command : Command
  CommandPrinter : Acc.Command → String
  Args : StrSlice

/-- The error a process runner returns: a `WrappedExitErr` (text of the exit error,
exit code, combined output) or any other error, by its message. -/
inductive ExecErr where
  | wrappedExit (exitErr : String) (exitCode : Int) (combined : String)
  | plain (msg : String)
deriving DecidableEq, Repr

/-- The struct `ValueNotDefinedError`. -/
structure ValueNotDefinedError where
  TargetJob : String
  Key : String
deriving DecidableEq, Repr

/-- Values handed to `panic`, or returned as `error`, somewhere in the package. -/
inductive Fault : Type where
  /-- `instruction %q: no input provided for key %q` -/
  | noInput (instruction key : String)
  /-- `instruction %q: depends on %q but it is not yet executed` -/
  | notYetExecuted (instruction job : String)
  /-- `instruction %q does not have output named %q`; the script compiler
  prefixes the instruction being compiled. -/
  | noOutput (compiling : Option String) (job key : String)
  /-- `unexpected type of arg: %T: %+v` -/
  | badArg (a : Arg)
  /-- `unsupported type of instruction: %T` -/
  | unsupportedInstruction
  /-- `unsupported type of task: %T: %v` -/
  | unsupportedTask
  /-- an error of one of the two stream copies -/
  | copy (msg : String)
  /-- `stdout: %w` or `stderr: %w`, around the panic recovered in a stream copy -/
  | recovered (stream : String) (e : Fault)
  /-- `unhandled error in func: %v` -/
  | unhandledInFunc (e : Fault)
  /-- `unhandled error: %v`, from `stepContext.Exec` -/
  | unhandled (e : Fault)
  /-- the panic of `Runtime.Execute` on an invocation nobody expects -/
  | unexpectedCommand (e : UnexpectedCommandError)
  /-- `%q executed by %q is not found in $PATH - ...` -/
  | notFoundVia (matched path : String)
  /-- `executable file %q is not found in $PATH - ...` -/
  | executableNotFound (path : String)
  /-- the error of the process runner, re-raised as it is -/
  | exec (e : ExecErr)
  /-- a run-time panic: an index or a slice bound out of range -/
  | indexOutOfRange
  /-- the panic of `TaskBuilder.Get` and of `TaskStep.Get` -/
  | valueNotDefined (e : ValueNotDefinedError)
  /-- any other error or panic value, by its message -/
  | other (msg : String)

/-- The closure `Func.F`, as the tree of its calls on the `TaskStepContext` that it is
given: each node is one call, its children the continuations on the call's
result. A panic raised by a context method ends the body (bodies do not `recover`). -/
inductive FuncBody : Type where
  /-- `return err` -/
  | ret (err : Option Fault)
  /-- `panic(...)` in the body itself -/
  | fault (e : Fault)
  /-- `ctx.Set(key, val)` -/
  | set (key val : String) (next : FuncBody)
  /-- `ctx.Get(key)` -/
  | get (key : String) (next : String → FuncBody)
  /-- `ctx.Exec(cmd)`, also `ctx.Cmd(path, args...).Exec()` -/
  | exec (cmd : Command) (next : Except Fault ExecResult → FuncBody)

/-- The struct `Func`. -/
structure Func where
  Name : String
  F : FuncBody
  Outputs : List String

/-- The interface `TaskStepRun`, which is empty: a `Command`, a `Func`, or a value of
any other type. -/
inductive TaskStepRun where
  | command (c : Command)
  | func (f : Func)
  | other

/-- The struct `Values`: `exprs` is `none` for the nil map; the `*Expr` payload is
never read. -/
structure Values where
  Job : String
  exprs : Option (GoMap Unit)

/-- The struct `TaskStep` (its `Streams`, never read, left out). -/
structure TaskStep where
  Name : String
  Run : TaskStepRun
  Outputs : Values

/-- The struct `Task`. -/
structure Task where
  Steps : List TaskStep
  Cleanup : List TaskStep

/-- The method `mapInputs.get`. -/
def mapInputs.get (m : mapInputs) (key : String) : Option String :=
  m.m.lookup key

/-! ## The reference model and the builder (`values.go`, `builder.go`) -/

/-- The method `Values.Get`. -/
def Values.Get (v : Values) (key : String) : Except ValueNotDefinedError Ref :=
  match (v.exprs.getD []).lookup key with
  | none => .error { TargetJob := v.Job, Key := key }
  | some _ => .ok { Job := v.Job, Key := key }

/-- The method `Values.Def`. -/
def Values.Def (v : Values) (key : String) : Values :=
  { v with exprs := some (GoMap.set (v.exprs.getD []) key ()) }

/-- The struct `TaskBuilder`. -/
structure TaskBuilder where
  jobs : List TaskStep
  cleanupJobs : List TaskStep
  Inputs : Values

/-- The method `TaskBuilder.Cmd`. -/
def TaskBuilder.Cmd (path : String) (args : List Arg) : Command :=
  { Path := path, Args := args }

/-- The method `TaskBuilder.Defer`. -/
def TaskBuilder.Defer (p : TaskBuilder) (name : String) (task : TaskStepRun) : TaskBuilder :=
  { p with cleanupJobs := p.cleanupJobs ++ [{ Name := name, Run := task, Outputs := { Job := "", exprs := none } }] }

/-- The method `TaskBuilder.Get`; the panic carries the `ValueNotDefinedError`. -/
def TaskBuilder.Get (p : TaskBuilder) (key : String) : Except ValueNotDefinedError Ref :=
  p.Inputs.Get key

/-- The method `TaskStep.Get`; the panic carries the `ValueNotDefinedError`. -/
def TaskStep.Get (j : TaskStep) (key : String) : Except ValueNotDefinedError Ref :=
  j.Outputs.Get key

/-- The output registry that `TaskBuilder.Do` fills in for a runnable, `none` for the
`default` branch that panics. -/
def doValues (name : String) : TaskStepRun → Option Values
  | .command _ => some (((Values.mk name none).Def "stdout").Def "stderr")
  | .func impl => some (impl.Outputs.foldl (fun vals key => vals.Def key) (Values.mk name none))
  | .other => none

/-- The method `TaskBuilder.Do`: the returned step (or the panic) and the builder
afterwards. -/
def TaskBuilder.Do (p : TaskBuilder) (name : String) (task : TaskStepRun) :
    Except Fault TaskStep × TaskBuilder :=
  match doValues name task with
  | none => (.error .unsupportedTask, p)
  | some vals =>
    let job : TaskStep := { Name := name, Run := task, Outputs := vals }
    (.ok job, { p with jobs := p.jobs ++ [job] })

/-- The method `TaskBuilder.Build`. -/
def TaskBuilder.Build (p : TaskBuilder) : Task :=
  { Steps := p.jobs, Cleanup := p.cleanupJobs }

/-- The method `Values.Get` with its pointer receiver made explicit: the two results and
the registry that the receiver points to when the method returns. -/
def Values.GetRecv (v : Values) (key : String) : Except ValueNotDefinedError Ref × Values :=
  match (v.exprs.getD []).lookup key with
  | none => (.error { TargetJob := v.Job, Key := key }, v)
  | some _ => (.ok { Job := v.Job, Key := key }, v)

/-! ## The execution engine (`run.go`) -/

/-- How one of the two copy goroutines of `RunTask` ends, for a stream of a given text. -/
inductive CopyOutcome : Type where
  /-- `io.Copy` returns nil: the sink has received the whole text, which the buffer of
  the tee holds too -/
  | complete
  /-- `io.Copy` returns the error `e`, the sink having received `written` and the tee
  having read `captured`; the goroutine stores the error before it is done -/
  | failed (e : Fault) (written captured : String)
  /-- the copy panics with `e`, the sink having received `written` and the tee having
  read `captured`. The deferred `wg.Done()` runs before the deferred closure that
  recovers the panic and stores the error, so `wg.Wait()` can return before `err` is
  set: `lost` says that it does, and the panic goes unseen -/
  | panicked (e : Fault) (written captured : String) (lost : Bool)

/-- What the sink has received when the copy of `text` has ended. -/
def CopyOutcome.written : CopyOutcome → String → String
  | .complete, text => text
  | .failed _ written _, _ => written
  | .panicked _ written _ _, _ => written

/-- What the buffer of the tee holds when the copy of `text` has ended. -/
def CopyOutcome.captured : CopyOutcome → String → String
  | .complete, text => text
  | .failed _ _ captured, _ => captured
  | .panicked _ _ captured _, _ => captured

/-- The error that the copy of the stream named `stream` has stored in `err` by the time
`wg.Wait()` returns. -/
def CopyOutcome.err (stream : String) : CopyOutcome → Option Fault
  | .complete => none
  | .failed e _ _ => some e
  | .panicked e _ _ lost => if lost then none else some (.recovered stream e)

/-- The interface `Target`, over the state `σ` of the system it acts on. `Execute`
returns its `ExecResult` or panics. `CopyOut` and `CopyErr` say how the copy of a step's
stream into the sink of `GetStdout()` / `GetStderr()` ends, and `StderrFirst` whether,
when both copies have an error to store, the one of standard error reaches `once.Do`
first. The text that the sinks have received is kept in the `RunState`. -/
structure Target (σ : Type) where
  Execute : σ → Command → StrSlice → Except Fault ExecResult × σ
  CopyOut : σ → String → CopyOutcome
  CopyErr : σ → String → CopyOutcome
  StderrFirst : σ → Bool

/-- One call of `Target.Execute` during a run: the position of the step that made it,
whether it came from a `Func` body (through `stepContext.Exec`), the two
arguments, and what the call gave. -/
structure Call where
  step : Nat
  nested : Bool
  cmd : Command
  args : StrSlice
  res : Except Fault ExecResult

/-- The variable `state` of `RunTask` and of `WriteBashScript`. -/
abbrev StepState := GoMap (GoMap String)

/-- What a run has done so far: the variable `state`, the calls of `Execute` in order,
the text the two sinks have received, and the state of the target. -/
structure RunState (σ : Type) where
  state : StepState
  calls : List Call
  stdout : String
  stderr : String
  tgt : σ

/-- A `RunState` together with the panic that ended the run, if one did. -/
structure RunResult (σ : Type) where
  st : RunState σ
  err : Option Fault

/-- One turn of the loop over `impl.Args` (the same text in `RunTask` and in
`WriteBashScript`; `compiling` is set by the latter, which words one message
differently): the string to append, or the panic. -/
def resolveArg (inputs : mapInputs) (state : StepState) (compiling : Bool)
    (instruction : String) : Arg → Except Fault String
  | .str typed => .ok typed
  | .ref typed =>
    if typed.Job = "" then
      match inputs.get typed.Key with
      | none => .error (.noInput instruction typed.Key)
      | some v => .ok v
    else
      match state.lookup typed.Job with
      | none => .error (.notYetExecuted instruction typed.Job)
      | some j =>
        match j.lookup typed.Key with
        | none => .error (.noOutput (if compiling then some instruction else none) typed.Job typed.Key)
        | some v => .ok v
  | .other asS asQ => .error (.badArg (.other asS asQ))

/-- The loop `for _, a := range impl.Args`, from the slice `args` built so far. -/
def resolveLoop (inputs : mapInputs) (state : StepState) (compiling : Bool)
    (instruction : String) : List Arg → StrSlice → Except Fault StrSlice
  | [], args => .ok args
  | a :: rest, args =>
    match resolveArg inputs state compiling instruction a with
    | .error e => .error e
    | .ok v => resolveLoop inputs state compiling instruction rest (args.append v)

/-- The loop over `impl.Args` from `var args []string`. -/
def resolveArgs (inputs : mapInputs) (state : StepState) (compiling : Bool)
    (instruction : String) (as : List Arg) : Except Fault StrSlice :=
  resolveLoop inputs state compiling instruction as .nil

/-- The verb `%s` of `fmt.Sprintf` on one argument: a string as it is, a `Ref` as the
struct `{Job Key}`. -/
def sprintS : Arg → String
  | .str s => s
  | .ref r => "\x7b" ++ r.Job ++ " " ++ r.Key ++ "\x7d"
  | .other asS _ => asS

/-- The loop of `stepContext.Exec` and of `findExpected` that renders arguments with
`%s` into a slice declared by `var`. -/
def sprintArgs (as : List Arg) : StrSlice :=
  as.foldl (fun acc a => acc.append (sprintS a)) .nil

/-- What running a `Func` body leaves behind. -/
structure BodyRun (σ : Type) where
  outputs : GoMap String
  calls : List Call
  tgt : σ
  err : Option Fault

/-- The call `impl.F(&stepContext...)` of `RunTask` under its `recover`: `Set` writes
`outputs`, `Get` reads the inputs and panics on a missing key, `Exec` renders the
arguments with `%s` and calls the target, turning its panic into an error for the
body. The `err` of the result is what `RunTask` then panics with. -/
def runBody {σ : Type} (t : Target σ) (inputs : mapInputs) (instruction : String) (i : Nat) :
    FuncBody → GoMap String → List Call → σ → BodyRun σ
  | .ret err, outputs, calls, tgt => ⟨outputs, calls, tgt, err⟩
  | .fault e, outputs, calls, tgt => ⟨outputs, calls, tgt, some (.unhandledInFunc e)⟩
  | .set key val next, outputs, calls, tgt =>
    runBody t inputs instruction i next (GoMap.set outputs key val) calls tgt
  | .get key next, outputs, calls, tgt =>
    match inputs.get key with
    | none => ⟨outputs, calls, tgt, some (.unhandledInFunc (.noInput instruction key))⟩
    | some v => runBody t inputs instruction i (next v) outputs calls tgt
  | .exec cmd next, outputs, calls, tgt =>
    let args := sprintArgs cmd.Args
    let r := t.Execute tgt cmd args
    let res : Except Fault ExecResult :=
      match r.1 with
      | .error e => .error (.unhandled e)
      | .ok v => .ok v
    runBody t inputs instruction i (next res) outputs (calls ++ [⟨i, true, cmd, args, r.1⟩]) r.2

/-- The body of the loop of `RunTask` for the step at position `i`. -/
def runStep {σ : Type} (t : Target σ) (inputs : mapInputs) (i : Nat) (instruction : TaskStep)
    (s : RunState σ) : RunResult σ :=
  match instruction.Run with
  | .command impl =>
    match resolveArgs inputs s.state false instruction.Name impl.Args with
    | .error e => ⟨s, some e⟩
    | .ok args =>
      let r := t.Execute s.tgt impl args
      let calls := s.calls ++ [⟨i, false, impl, args, r.1⟩]
      match r.1 with
      | .error e => ⟨{ s with calls := calls, tgt := r.2 }, some e⟩
      | .ok res =>
        let out := t.CopyOut r.2 res.Stdout
        let err := t.CopyErr r.2 res.Stderr
        let copied : RunState σ :=
          { s with calls := calls,
                   stdout := s.stdout ++ out.written res.Stdout,
                   stderr := s.stderr ++ err.written res.Stderr,
                   tgt := r.2 }
        match out.err "stdout", err.err "stderr" with
        | some a, some b => ⟨copied, some (if t.StderrFirst r.2 then b else a)⟩
        | some a, none => ⟨copied, some a⟩
        | none, some b => ⟨copied, some b⟩
        | none, none =>
          ⟨{ copied with
              state := GoMap.set s.state instruction.Name [("stdout", out.captured res.Stdout)] },
            none⟩
  | .func impl =>
    let b := runBody t inputs instruction.Name i impl.F [] s.calls s.tgt
    match b.err with
    | some e => ⟨{ s with calls := b.calls, tgt := b.tgt }, some e⟩
    | none => ⟨{ s with state := GoMap.set s.state instruction.Name b.outputs,
                        calls := b.calls, tgt := b.tgt }, none⟩
  | .other => ⟨s, some .unsupportedInstruction⟩

/-- The loop `for _, instruction := range p.Steps` of `RunTask`, from position `i`:
a panic ends it. -/
def runSteps {σ : Type} (t : Target σ) (inputs : mapInputs) :
    Nat → List TaskStep → RunState σ → RunResult σ
  | _, [], s => ⟨s, none⟩
  | i, instruction :: rest, s =>
    match runStep t inputs i instruction s with
    | ⟨s1, some e⟩ => ⟨s1, some e⟩
    | ⟨s1, none⟩ => runSteps t inputs (i + 1) rest s1

/-- The state a run starts from. -/
def RunState.init {σ : Type} (tgt : σ) : RunState σ :=
  { state := [], calls := [], stdout := "", stderr := "", tgt := tgt }

/-- The function `RunTask`, from the state `tgt` of the target. -/
def RunTask {σ : Type} (p : Task) (t : Target σ) (inputs : mapInputs) (tgt : σ) : RunResult σ :=
  runSteps t inputs 0 p.Steps (RunState.init tgt)

/-! ## Go library functions used by the script compiler and the harness -/

/-- The digit `lowerhex[n]` of `strconv`. -/
def lowerhex (n : Nat) : Char :=
  ['0', '1', '2', '3', '4', '5', '6', '7', '8', '9', 'a', 'b', 'c', 'd', 'e', 'f'].getD (n % 16) '0'

/-- The function `strconv.IsPrint`: its Latin-1 fast path, the tables above it. -/
def IsPrint (lib : GoLib) (r : Char) : Bool :=
  if r.toNat ≤ 0xFF then
    if 0x20 ≤ r.toNat ∧ r.toNat ≤ 0x7E then true
    else if 0xA1 ≤ r.toNat ∧ r.toNat ≤ 0xFF then r.toNat != 0xAD
    else false
  else lib.unicodeIsPrint r

/-- The function `appendEscapedRune` of `strconv`, as `Quote` calls it (quote
character `"`, neither ASCII-only nor graphic-only). -/
def quoteRune (lib : GoLib) (r : Char) : List Char :=
  if r.toNat = 34 ∨ r.toNat = 92 then [Char.ofNat 92, r]
  else if IsPrint lib r then [r]
  else if r.toNat = 7 then [Char.ofNat 92, 'a']
  else if r.toNat = 8 then [Char.ofNat 92, 'b']
  else if r.toNat = 12 then [Char.ofNat 92, 'f']
  else if r.toNat = 10 then [Char.ofNat 92, 'n']
  else if r.toNat = 13 then [Char.ofNat 92, 'r']
  else if r.toNat = 9 then [Char.ofNat 92, 't']
  else if r.toNat = 11 then [Char.ofNat 92, 'v']
  else if r.toNat < 32 ∨ r.toNat = 127 then
    [Char.ofNat 92, 'x', lowerhex (r.toNat / 16), lowerhex r.toNat]
  else if r.toNat < 0x10000 then
    [Char.ofNat 92, 'u', lowerhex (r.toNat / 4096), lowerhex (r.toNat / 256),
      lowerhex (r.toNat / 16), lowerhex r.toNat]
  else
    [Char.ofNat 92, 'U', lowerhex (r.toNat / 268435456), lowerhex (r.toNat / 16777216),
      lowerhex (r.toNat / 1048576), lowerhex (r.toNat / 65536), lowerhex (r.toNat / 4096),
      lowerhex (r.toNat / 256), lowerhex (r.toNat / 16), lowerhex r.toNat]

/-- The function `strconv.Quote`, which is the verb `%q` of `fmt` on a string (that is
valid UTF-8). -/
def Quote (lib : GoLib) (s : String) : String :=
  String.mk ([Char.ofNat 34] ++ (s.data.map (quoteRune lib)).flatten ++ [Char.ofNat 34])

/-- The function `unicode.ToUpper`. -/
def toUpperRune (lib : GoLib) (r : Char) : Char :=
  if r.toNat ≤ 0x7F then
    if 97 ≤ r.toNat ∧ r.toNat ≤ 122 then Char.ofNat (r.toNat - 32) else r
  else lib.unicodeToUpper r

/-- The function `strings.ToUpper`. -/
def ToUpper (lib : GoLib) (s : String) : String :=
  String.mk (s.data.map (toUpperRune lib))

/-- The function `strings.Join`. -/
def Join (elems : List String) (sep : String) : String :=
  sep.intercalate elems

/-- The function `strings.Contains`, on the characters. -/
def containsChars (substr : List Char) : List Char → Bool
  | [] => substr.isEmpty
  | c :: cs => substr.isPrefixOf (c :: cs) || containsChars substr cs

/-- The function `strings.Contains`. -/
def Contains (s substr : String) : Bool :=
  containsChars substr.data s.data

/-- The scan of `strings.Split` for a separator that is not empty: `skip` is what is
left of a separator just found, `cur` the piece being read, backwards. -/
def splitChars (sep : List Char) : List Char → Nat → List Char → List (List Char)
  | [], _, cur => [cur.reverse]
  | _ :: cs, skip + 1, cur => splitChars sep cs skip cur
  | c :: cs, 0, cur =>
    if sep.isPrefixOf (c :: cs) then cur.reverse :: splitChars sep cs (sep.length - 1) []
    else splitChars sep cs 0 (c :: cur)

/-- The function `strings.Split`, for a separator that is not empty. -/
def Split (s sep : String) : List String :=
  (splitChars sep.data s.data 0 []).map String.mk

/-- The function `strings.TrimLeft` with the cutset `"`. -/
def TrimLeftQuote (s : String) : String :=
  String.mk (s.data.dropWhile (fun c => c.toNat == 34))

/-- The function `strings.TrimRight` with the cutset `"`. -/
def TrimRightQuote (s : String) : String :=
  String.mk (s.data.reverse.dropWhile (fun c => c.toNat == 34)).reverse

/-- The function `filepath.Base` (Unix: the separator is `/`, no volume names). -/
def Base (path : String) : String :=
  if path = "" then "."
  else
    let stripped := path.data.reverse.dropWhile (fun c => c == '/')
    let last := (stripped.takeWhile (fun c => !(c == '/'))).reverse
    if last = [] then "/" else String.mk last

/-! ## The script compiler (`write_script.go`) -/

/-- What `WriteBashScript` has done so far: the calls of its `printf` in order, each
without the newline that `printf` adds, and the variable `state`. -/
structure ScriptState where
  lines : List String
  state : StepState

/-- A `ScriptState` together with the panic that ended the compilation, if one did. -/
structure ScriptResult where
  st : ScriptState
  err : Option Fault

/-- The guard line printed for one element of `inputs.m`. -/
def guardLine (v : String) : String :=
  "if [ -z \"" ++ v ++ "\" ]; then echo \"\\" ++ v ++ " is empty.; exit 1; fi\""

/-- The placeholder that the `Func` branch stores for the output `o`. -/
def placeholder (lib : GoLib) (name o : String) : String :=
  "$\x7b" ++ ToUpper lib name ++ "_" ++ ToUpper lib o ++ "\x7d"

/-- The body of the loop of `WriteBashScript` for one step; `self` is `os.Args[0]`. -/
def scriptStep (lib : GoLib) (self : String) (inputs : mapInputs) (instruction : TaskStep)
    (s : ScriptState) : ScriptResult :=
  match instruction.Run with
  | .command impl =>
    match resolveArgs inputs s.state true instruction.Name impl.Args with
    | .error e => ⟨s, some e⟩
    | .ok args =>
      ⟨{ lines := s.lines ++ [impl.Path ++ " " ++ Join args.toList " "],
         state := GoMap.set s.state instruction.Name
           [("stdout", "example stdout of " ++ instruction.Name)] }, none⟩
  | .func impl =>
    let outputs : GoMap String :=
      impl.Outputs.foldl (fun outputs o => GoMap.set outputs o (placeholder lib impl.Name o)) []
    ⟨{ lines := s.lines ++ [self ++ " run-task-step " ++ Quote lib instruction.Name],
       state := GoMap.set s.state instruction.Name outputs }, none⟩
  | .other => ⟨s, some .unsupportedInstruction⟩

/-- The loop `for _, instruction := range p.Steps` of `WriteBashScript`. -/
def scriptSteps (lib : GoLib) (self : String) (inputs : mapInputs) :
    List TaskStep → ScriptState → ScriptResult
  | [], s => ⟨s, none⟩
  | instruction :: rest, s =>
    match scriptStep lib self inputs instruction s with
    | ⟨s1, some e⟩ => ⟨s1, some e⟩
    | ⟨s1, none⟩ => scriptSteps lib self inputs rest s1

/-- The lines that `WriteBashScript` prints before it turns to the steps. -/
def scriptHeader (inputs : mapInputs) : List String :=
  ["#!/usr/bin/env bash", "set -e"] ++ inputs.m.map (fun e => guardLine e.2)

/-- The function `WriteBashScript`; `self` is `os.Args[0]`. -/
def WriteBashScript (lib : GoLib) (self : String) (p : Task) (inputs : mapInputs) : ScriptResult :=
  scriptSteps lib self inputs p.Steps { lines := scriptHeader inputs, state := [] }

/-- The bytes the writer has received: every `printf` ends its line. -/
def ScriptResult.text (r : ScriptResult) : String :=
  String.join (r.st.lines.map (fun l => l ++ "\n"))

/-! ## The harness (`acc.go`) -/

/-- What a stub handler `Run` does with its `RunContext`: the text it writes to
`ctx.Stdout` and the code it hands to `ctx.Exit`, if it calls it. -/
structure HandlerRun where
  writes : String
  exit : Option Int
deriving DecidableEq, Repr

/-- The struct `ExecutionStub`. -/
structure ExecutionStub where
  Command : Command
  Run : HandlerRun
deriving DecidableEq, Repr

/-- The struct `Runtime`; each of the writers `Stdout` and `Stderr` is given by the way
in which the copy of a text into it ends. -/
structure Runtime where
  ExecutionStubs : List ExecutionStub
  binDir : String
  GoTestName : String
  AllowByDefault : Bool
  Allowed : Option (GoMap Bool)
  CommandPrinter : Option (Command → String)
  Stdout : String → CopyOutcome
  Stderr : String → CopyOutcome

/-- The constant `InvocationEnv`. -/
def InvocationEnv : String := "ACCTEST_INVOCATION"

/-- The constant `LogPrefix`. -/
def LogPrefix : String := "AcctestInvocation"

/-- The value `exec.Command(path, args...)` with its `Env` set: what is handed to the
process runner. -/
structure ExecCmd where
  Path : String
  Args : List String
  Env : List String
deriving DecidableEq, Repr

/-- The method `WrappedExitErr.Error`, and `Error` of any other error. -/
def ExecErr.Error : ExecErr → String
  | .wrappedExit exitErr exitCode combined =>
    exitErr ++ "\n" ++ (LogPrefix ++ " exit code: " ++ toString exitCode ++ "\n") ++ "\n"
      ++ (LogPrefix ++ " combined output: " ++ combined ++ "\n")
  | .plain msg => msg

/-- The verb `%q` of `fmt.Sprintf` on one argument. -/
def sprintQ (lib : GoLib) : Arg → String
  | .str s => Quote lib s
  | .ref r => "\x7b" ++ Quote lib r.Job ++ " " ++ Quote lib r.Key ++ "\x7d"
  | .other _ asQ => asQ

/-- The method `goCommandPrinter.Sprint`. -/
def goCommandPrinter (lib : GoLib) (cmd : Command) : String :=
  "Command\x7b\n  Path: " ++ Quote lib cmd.Path ++ ",\n  Args: []interface\x7b\x7d\x7b\n    "
    ++ Join (cmd.Args.map (sprintQ lib)) ", \n    " ++ ",\n  \x7d,\n\x7d"

/-- The method `UnexpectedCommandError.Error`. -/
def UnexpectedCommandError.Error (e : UnexpectedCommandError) : String :=
  "command " ++ (e.Command.Path ++ " " ++ Join e.Args.toList " ")
    ++ " is not expected for execution. Add the below as expectation:\n"
    ++ e.CommandPrinter e.Command ++ "\n"

/-- The method `Runtime.findExpected`: the first stub with this path whose arguments,
rendered with `%s`, are `reflect.DeepEqual` to `args`. -/
def Runtime.findExpected (t : Runtime) (path : String) (args : StrSlice) : Option ExecutionStub :=
  t.ExecutionStubs.find? (fun ex =>
    if path ≠ ex.Command.Path then false
    else if !(StrSlice.DeepEqual args (sprintArgs ex.Command.Args)) then false
    else true)

/-- The lookup `t.Allowed != nil && t.Allowed[name]`. -/
def Runtime.isAllowed (t : Runtime) (name : String) : Bool :=
  match t.Allowed with
  | none => false
  | some m => (m.lookup name).getD false

/-- The first half of `Runtime.Execute`: the process to start and the `path` used in
later messages, or the panic with an `UnexpectedCommandError`. -/
def Runtime.command (lib : GoLib) (t : Runtime) (cmd : Command) (args : StrSlice) :
    Except Fault ExecCmd :=
  match t.findExpected cmd.Path args with
  | none =>
    if t.AllowByDefault || t.isAllowed (Base cmd.Path) then
      .ok { Path := cmd.Path, Args := args.toList, Env := ["PATH=" ++ t.binDir] }
    else
      let commandPrinter := match t.CommandPrinter with
        | none => goCommandPrinter lib
        | some pr => pr
      .error (.unexpectedCommand { CommandPrinter := commandPrinter, Command := cmd, Args := args })
  | some ex =>
    .ok { Path := lib.filepathJoin t.binDir (Base ex.Command.Path),
          Args := args.toList,
          Env := ["PATH=" ++ t.binDir, InvocationEnv ++ "=" ++ ex.Command.Path] }

/-- One turn of the loop over the lines of the error message in `Runtime.Execute`:
`matched` afterwards and whether the loop breaks, or the index panic. -/
def matchLine (line : String) (matched : String) : Except Fault (String × Bool) :=
  if !(Contains line LogPrefix) then .ok (matched, false)
  else
    let tokens := Split line ": "
    let lastToken := tokens.getLastD ""
    if lastToken = "command not found" then
      match tokens.reverse.get? 1 with
      | none => .error .indexOutOfRange
      | some tok => .ok (tok, true)
    else if lastToken = "executable file not found in $PATH" then
      match tokens.reverse.get? 1 with
      | none => .error .indexOutOfRange
      | some tok => .ok (TrimLeftQuote (TrimRightQuote tok), false)
    else .ok (matched, false)

/-- The loop over the lines of the error message in `Runtime.Execute`. -/
def matchLines : List String → String → Except Fault String
  | [], matched => .ok matched
  | line :: rest, matched =>
    match matchLine line matched with
    | .error e => .error e
    | .ok (m, true) => .ok m
    | .ok (m, false) => matchLines rest m

/-- The second half of `Runtime.Execute`: the panic raised for an error `err` that the
process runner returned for the process started at `path`. -/
def translate (path : String) (err : ExecErr) : Fault :=
  let errMsg := err.Error
  if Contains errMsg LogPrefix then
    match matchLines (Split err.Error "\n") "" with
    | .error e => e
    | .ok matched => if matched = "" then .exec err else .notFoundVia matched path
  else if Contains err.Error "executable file not found" then .executableNotFound path
  else .exec err

/-- The method `Runtime.Execute`, over a process runner `run` (the function
`RunExecCmd` on the process it is given, in the world `σ`). -/
def Runtime.Execute {σ : Type} (lib : GoLib) (run : σ → ExecCmd → Except ExecErr ExecResult × σ)
    (t : Runtime) (w : σ) (cmd : Command) (args : StrSlice) : Except Fault ExecResult × σ :=
  match Runtime.command lib t cmd args with
  | .error e => (.error e, w)
  | .ok c =>
    match run w c with
    | (.error err, w1) => (.error (translate c.Path err), w1)
    | (.ok res, w1) => (.ok res, w1)

/-- What the operating system reports when a started process is waited for: a clean
exit, an `*exec.ExitError` with its text and exit code, or another error. -/
inductive WaitResult where
  | ok
  | exit (text : String) (code : Int)
  | failed (msg : String)
deriving DecidableEq, Repr

/-- A process that has been started, and the schedule of the goroutines around it: what
the process writes to its two pipes, how `cmd.Wait()` ends, how many characters of each
stream the copy goroutine has moved into `stdoutBuf` / `stderrBuf` when the buffer is
read, and what `combinedBuf` holds when the error is printed. Both goroutines call
`wg.Done()` before `io.Copy`, so `wg.Wait()` waits for neither copy, and `cmd.Wait()`
closes the pipes once the process has exited. -/
structure Started where
  stdout : String
  stderr : String
  wait : WaitResult
  outRead : Nat
  errRead : Nat
  combined : String
deriving DecidableEq, Repr

/-- What the operating system makes of a process handed to it: a pipe or `cmd.Start()`
fails, or the process is started. -/
inductive Spawn where
  | refused (msg : String)
  | started (p : Started)
deriving DecidableEq, Repr

/-- The function `RunExecCmd` (`runexeccmd.go`), over an operating system `os` in the
world `σ`. -/
def RunExecCmd {σ : Type} (os : σ → ExecCmd → Spawn × σ) (w : σ) (cmd : ExecCmd) :
    Except ExecErr ExecResult × σ :=
  match os w cmd with
  | (.refused msg, w1) => (.error (.plain msg), w1)
  | (.started p, w1) =>
    match p.wait with
    | .exit text code => (.error (.wrappedExit text code p.combined), w1)
    | .failed msg => (.error (.plain msg), w1)
    | .ok =>
      (.ok { Stdout := String.mk (p.stdout.data.take p.outRead),
             Stderr := String.mk (p.stderr.data.take p.errRead),
             Err := none }, w1)

/-- A `Runtime` as a `Target`; `stderrFirst` is the schedule of the two copies of
`RunTask` when both have an error to store. -/
def Runtime.toTarget {σ : Type} (lib : GoLib) (run : σ → ExecCmd → Except ExecErr ExecResult × σ)
    (stderrFirst : σ → Bool) (t : Runtime) : Target σ :=
  { Execute := Runtime.Execute lib run t
    CopyOut := fun _ text => t.Stdout text
    CopyErr := fun _ text => t.Stderr text
    StderrFirst := stderrFirst }

/-- A wrapper script that `Runtime.Start` writes, by the values that fill its format
string: the path of `bash`, the path of the stub's command, `os.Args[0]` and the test
name (empty when `GoTestName` is not set). -/
structure WrapperFile where
  bashPath : String
  path : String
  self : String
  goTestName : String
deriving DecidableEq, Repr

/-- The bytes of a wrapper script, as `Runtime.Start` formats them. -/
def WrapperFile.text (f : WrapperFile) : String :=
  "#!" ++ f.bashPath ++ " -e\n" ++ InvocationEnv ++ "=" ++ f.path ++ " " ++ f.self ++ " "
    ++ (if f.goTestName ≠ "" then "-test.run ^" ++ f.goTestName ++ "$ " else "")
    ++ "-- \"$@\"\n"

/-- The process that `bash` starts for a wrapper script called with the arguments `args`,
when the command path, the program name and the test name are single shell words: the
value it gives to the variable `ACCTEST_INVOCATION`, and the argument vector, which is
the program, the optional pair `-test.run ^<name>$`, `--`, and the arguments. -/
def WrapperFile.spawn (f : WrapperFile) (args : List String) : String × List String :=
  (f.path,
    [f.self] ++ (if f.goTestName ≠ "" then ["-test.run", "^" ++ f.goTestName ++ "$"] else [])
      ++ ["--"] ++ args)

/-- The loop of `Runtime.Start` in setup mode over the stubs that are left: the files of
the scratch directory afterwards (a write replaces the file of the same path), and the
panic, if any. `bash` is what `exec.LookPath("bash")` finds. -/
def setupLoop (lib : GoLib) (bash : Option String) (osArgs : List String) (t : Runtime) :
    List ExecutionStub → GoMap WrapperFile → GoMap WrapperFile × Option Fault
  | [], files => (files, none)
  | ex :: rest, files =>
    if ex.Command.Path = "" then (files, some (.other "bug: empty command path in command"))
    else
      match bash with
      | none => (files, some (.other "bash not found"))
      | some bashPath =>
        match osArgs.head? with
        | none => (files, some .indexOutOfRange)
        | some self =>
          setupLoop lib bash osArgs t rest
            (GoMap.set files (lib.filepathJoin t.binDir (Base ex.Command.Path))
              { bashPath := bashPath, path := ex.Command.Path, self := self,
                goTestName := t.GoTestName })

/-- The argument vector that `Runtime.Start` rebuilds from `os.Args` in wrapper mode, or
the run-time panic of an index or a slice bound out of range. -/
def wrapperArgs (osArgs : List String) : Except Fault StrSlice :=
  match osArgs.get? 1 with
  | none => .error .indexOutOfRange
  | some first =>
    let sliced : Except Fault (List String) :=
      if first = "-test.run" then
        (if 3 ≤ osArgs.length then .ok (osArgs.drop 3) else .error .indexOutOfRange)
      else .ok (osArgs.drop 1)
    match sliced with
    | .error e => .error e
    | .ok args =>
      match args.head? with
      | none => .error .indexOutOfRange
      | some a0 => if a0 = "--" then .ok (.mk (args.drop 1)) else .ok (.mk args)

/-- How `Runtime.Start` ends in wrapper mode: the handler of a stub is run and the process
exits with the handler's code or with 0; or the diagnostic `Path ... args ... is not
expected` is printed and the process exits with 1; or a run-time panic. -/
inductive WrapperOutcome where
  | ran (ex : ExecutionStub)
  | notExpected (path : String) (args : StrSlice)
  | panicked (e : Fault)

/-- How `Runtime.Start` ends: in wrapper mode, or in setup mode with the files of the
scratch directory and the panic, if any. -/
inductive StartOutcome where
  | wrapper (o : WrapperOutcome)
  | setup (files : GoMap WrapperFile) (err : Option Fault)

/-- The branch of `Runtime.Start` for a process whose `ACCTEST_INVOCATION` is `cmdName`. -/
def Runtime.StartWrapper (t : Runtime) (cmdName : String) (osArgs : List String) : WrapperOutcome :=
  match wrapperArgs osArgs with
  | .error e => .panicked e
  | .ok args =>
    match t.findExpected cmdName args with
    | none => .notExpected cmdName args
    | some ex => .ran ex

/-- The method `Runtime.Start`, for a process with the arguments `osArgs`, the value
`invocation` of the variable `ACCTEST_INVOCATION` (empty when it is not set) and the
scratch directory holding `files`. -/
def Runtime.Start (lib : GoLib) (bash : Option String) (invocation : String)
    (osArgs : List String) (files : GoMap WrapperFile) (t : Runtime) : StartOutcome :=
  if invocation ≠ "" then .wrapper (t.StartWrapper invocation osArgs)
  else
    let r := setupLoop lib bash osArgs t t.ExecutionStubs files
    .setup r.1 r.2

/-- What follows when `Execute` is called with `cmd` and `args` on a harness that `Start`
has set up from an empty scratch directory: if a stub matches, the wrapper file of its
base name is started with `args`, `bash` starts the process again as the script says, and
that process, built around the same stubs, ends `Start` in wrapper mode. `none` when no
stub matches, the setup panics or the wrapper file is not there. -/
def wrapperRoundTrip (lib : GoLib) (bash : Option String) (osArgs : List String) (t : Runtime)
    (cmd : Command) (args : StrSlice) : Option WrapperOutcome :=
  match t.findExpected cmd.Path args with
  | none => none
  | some ex =>
    match Runtime.Start lib bash "" osArgs [] t with
    | .wrapper _ => none
    | .setup _ (some _) => none
    | .setup files none =>
      match List.lookup (lib.filepathJoin t.binDir (Base ex.Command.Path)) files with
      | none => none
      | some f => some (t.StartWrapper (f.spawn args.toList).1 (f.spawn args.toList).2)

/-! ## The example pipeline (`my_script.go`) -/

/-- The closure of the step `generate workflow` of `MyScript`. -/
def genWorkflowBody : FuncBody :=
  .get "seed" (fun seed =>
    .exec (TaskBuilder.Cmd "bash" [.str "-c", .str "echo test"]) (fun r =>
      match r with
      | .error err => .ret (some err)
      | .ok res =>
        .set "yamlPath" (".github/workflows/" ++ seed ++ ".yaml")
          (.set "echoTest" res.Stdout (.ret none))))

/-- The function `MyScript` on a `TaskBuilder`: the builder it leaves, or the panic
of the `Get` or `Do` that failed. -/
def MyScript (s : TaskBuilder) : Except Fault TaskBuilder :=
  match s.Get "seed" with
  | .error e => .error (.valueNotDefined e)
  | .ok seed =>
  let s := s.Defer "stop cluster"
    (.command (TaskBuilder.Cmd "kind" [.str "delete", .str "cluster", .str "--name", .ref seed]))
  match s.Do "start cluster"
    (.command (TaskBuilder.Cmd "kind" [.str "create", .str "cluster", .str "--name", .ref seed])) with
  | (.error e, _) => .error e
  | (.ok _, s) =>
  match s.Do "deploy controller"
    (.command (TaskBuilder.Cmd "helm" [.str "upgrade", .str "--install",
      .str "../charts/actions-runner-controller", .ref seed])) with
  | (.error e, _) => .error e
  | (.ok _, s) =>
  match s.Do "deploy runners"
    (.command (TaskBuilder.Cmd "kubectl" [.str "apply", .str "-f", .str "testdata/"])) with
  | (.error e, _) => .error e
  | (.ok _, s) =>
  match s.Do "wait for runners"
    (.command (TaskBuilder.Cmd "kubectl" [.str "wait", .str "-n", .str "actions-runner-system",
      .str "deploy/controller-manager"])) with
  | (.error e, _) => .error e
  | (.ok _, s) =>
  match s.Do "trigger workflow run"
    (.command (TaskBuilder.Cmd "ghcp" [.str "empty-commit", .str "-u", .str "mumoshu", .str "-r",
      .str "actions-test", .str "-m", .str "empty commit 1", .str "-b", .str "main"])) with
  | (.error e, _) => .error e
  | (.ok _, s) =>
  match s.Do "generate workflow"
    (.func { Name := "gen", Outputs := ["yamlPath"], F := genWorkflowBody }) with
  | (.error e, _) => .error e
  | (.ok genWorkflow, s) =>
  match genWorkflow.Get "yamlPath" with
  | .error e => .error (.valueNotDefined e)
  | .ok yamlPath =>
  match s.Do "setup workflow"
    (.command (TaskBuilder.Cmd "ghcp" [.str "commit", .str "-u", .str "mumoshu", .str "-r",
      .str "actions-test", .str "-m", .str "mpty commit 1", .str "-b", .str "main",
      .ref yamlPath])) with
  | (.error e, _) => .error e
  | (.ok _, s) => .ok s

/-- The builder of `TestGoRuntime` before it calls `MyScript`: a zero `TaskBuilder`
on which every key of the inputs has been declared. -/
def testBuilder (inputs : mapInputs) : TaskBuilder :=
  { jobs := [], cleanupJobs := [],
    Inputs := inputs.m.foldl (fun vals e => vals.Def e.1) { Job := "", exprs := none } }

/-! ## Concrete inputs -/

/-- A library for concrete evaluations: every rune above Latin-1 counts as printable
and has no upper case of its own, and two names are joined with one separator. -/
def GoLib.ascii : GoLib :=
  ⟨fun _ => true, fun c => c, fun a b => a ++ "/" ++ b⟩

/-- A harness in the manner of `TestGoRuntime`: one stub for `kubectl apply -f testdata/`,
and `bash` on the allow-list. -/
def kubectlRuntime : Runtime :=
  { ExecutionStubs :=
      [⟨⟨"kubectl", [.str "apply", .str "-f", .str "testdata/"]⟩, ⟨"kubectl-apply succeeded.\n", some 0⟩⟩],
    binDir := "/tmp/bin", GoTestName := "TestGoRuntime", AllowByDefault := false,
    Allowed := some [("bash", true)], CommandPrinter := none,
    Stdout := fun _ => .complete, Stderr := fun _ => .complete }

/-- A harness whose only stub is `kubectl` declared with no arguments. -/
def bareKubectlRuntime : Runtime :=
  { ExecutionStubs := [⟨⟨"kubectl", []⟩, ⟨"", some 0⟩⟩],
    binDir := "/tmp/bin", GoTestName := "TestGoRuntime", AllowByDefault := false,
    Allowed := none, CommandPrinter := none,
    Stdout := fun _ => .complete, Stderr := fun _ => .complete }

/-- A process runner that starts nothing and reports two empty streams. -/
def idleRunner : Unit → ExecCmd → Except ExecErr ExecResult × Unit :=
  fun w _ => (.ok ⟨"", "", none⟩, w)

/-- A target that answers every command with its path and arguments on standard output
and counts the calls. -/
def echoTarget : Target Nat :=
  { Execute := fun n cmd args =>
      (.ok ⟨cmd.Path ++ " " ++ Join args.toList " " ++ "\n", "", none⟩, n + 1)
    CopyOut := fun _ _ => .complete
    CopyErr := fun _ _ => .complete
    StderrFirst := fun _ => false }

/-- Two commands, the second of which is given the standard output of the first and the
input `seed`. -/
def chainTask : Task :=
  { Steps :=
      [⟨"first", .command ⟨"echo", [.str "hello"]⟩, ⟨"first", none⟩⟩,
       ⟨"second", .command ⟨"cat", [.str "-n", .ref ⟨"first", "stdout"⟩, .ref ⟨"", "seed"⟩]⟩,
         ⟨"second", none⟩⟩],
    Cleanup := [] }

/-- The inputs of `TestGoRuntime`. -/
def seedInputs : mapInputs := ⟨[("seed", "someseed")]⟩

/-- Three commands, the second of which asks for the output of the third. -/
def forwardRefTask : Task :=
  { Steps :=
      [⟨"first", .command ⟨"echo", [.str "hello"]⟩, ⟨"first", none⟩⟩,
       ⟨"second", .command ⟨"cat", [.ref ⟨"third", "stdout"⟩]⟩, ⟨"second", none⟩⟩,
       ⟨"third", .command ⟨"echo", [.str "late"]⟩, ⟨"third", none⟩⟩],
    Cleanup := [] }

/-- The harness of `RunTaskTest`: everything allowed, nothing stubbed, two buffers as
sinks. -/
def allowAllRuntime : Runtime :=
  { ExecutionStubs := [], binDir := "", GoTestName := "", AllowByDefault := true,
    Allowed := none, CommandPrinter := none,
    Stdout := fun _ => .complete, Stderr := fun _ => .complete }

/-- An operating system on which `bash -c "echo hello"` is started, writes `hello` and a
newline to its standard output and exits cleanly, and nothing else can be started;
`outRead` is how many characters the copy of `RunExecCmd` has read when `cmd.Wait()`
closes the pipe. -/
def helloOS (outRead : Nat) : Unit → ExecCmd → Spawn × Unit :=
  fun w c =>
    if c.Path = "bash" ∧ c.Args = ["-c", "echo hello"] then
      (.started ⟨"hello\n", "", .ok, outRead, 0, String.mk ("hello\n".data.take outRead)⟩, w)
    else (.refused "exec: no such file or directory", w)

/-- A target whose `Execute` returns `hello` and a newline on standard output for every
command and whose standard-output sink panics on the first write, in the schedule in
which the deferred `wg.Done()` lets `wg.Wait()` return, and `err` be read, before the
deferred `recover` has stored the panic. -/
def lostPanicTarget : Target Unit :=
  { Execute := fun w _ _ => (.ok ⟨"hello\n", "", none⟩, w)
    CopyOut := fun _ _ => .panicked (.other "write on closed sink") "" "" true
    CopyErr := fun _ _ => .complete
    StderrFirst := fun _ => false }

/-- The task that `TestSimple` builds around the one command `bash -c <script>`. -/
def sayHelloTask (script : String) : Task :=
  (({ jobs := [], cleanupJobs := [], Inputs := ⟨"", none⟩ } : TaskBuilder).Do "say hello"
    (.command (TaskBuilder.Cmd "bash" [.str "-c", .str script]))).2.Build

/-- Specification side, not taken from the source: the resolved form of an argument that
is a string or a `Ref` to a supplied input, which is the string itself or the value
bound to the input. -/
def suppliedArg (inputs : mapInputs) : Arg → String
  | .str s => s
  | .ref r => (List.lookup r.Key inputs.m).getD ""
  | .other asS _ => asS

/-- The task of one step that creates the cluster named by the input `seed`. -/
def kindTask : Task :=
  { Steps :=
      [⟨"start cluster",
        .command ⟨"kind", [.str "create", .str "cluster", .str "--name", .ref ⟨"", "seed"⟩]⟩,
        ⟨"start cluster", none⟩⟩],
    Cleanup := [] }

/-- A task whose only step is a `Func` with a double quote in its name. -/
def quotedNameTask : Task :=
  { Steps := [⟨"say \"hi\"", .func ⟨"say", .ret none, []⟩, ⟨"say \"hi\"", none⟩⟩],
    Cleanup := [] }

/-- The task of `TestGoRuntime`: what `MyScript` builds on `testBuilder`. -/
def myScriptTask : Task :=
  match MyScript (testBuilder seedInputs) with
  | .ok s => s.Build
  | .error _ => { Steps := [], Cleanup := [] }

/-- A `Func` step with the empty name and the output `yamlPath`, then a command on the
`Ref` that `Get` returns for that output. -/
def unnamedFuncTask : Task :=
  { Steps :=
      [⟨"", .func ⟨"gen", .ret none, ["yamlPath"]⟩, (Values.mk "" none).Def "yamlPath"⟩,
       ⟨"use", .command ⟨"cat", [.ref ⟨"", "yamlPath"⟩]⟩, ⟨"use", none⟩⟩],
    Cleanup := [] }

/-- A `Func` step `gen` with the output `yamlPath`, a command that bears the same name,
then a command on the `Ref` that `Get` returned for that output. -/
def shadowedFuncTask : Task :=
  { Steps :=
      [⟨"gen", .func ⟨"gen", .ret none, ["yamlPath"]⟩, (Values.mk "gen" none).Def "yamlPath"⟩,
       ⟨"gen", .command ⟨"echo", []⟩, ⟨"gen", none⟩⟩,
       ⟨"use", .command ⟨"cat", [.ref ⟨"gen", "yamlPath"⟩]⟩, ⟨"use", none⟩⟩],
    Cleanup := [] }

/-- A command, then a `Func` whose body asks its context for `stdout`, the output of the
command, and stores what it gets. -/
def getStdoutTask : Task :=
  { Steps :=
      [⟨"first", .command ⟨"echo", [.str "hello"]⟩, ⟨"first", none⟩⟩,
       ⟨"second", .func ⟨"f", .get "stdout" (fun v => .set "out" v (.ret none)), ["out"]⟩,
         ⟨"second", none⟩⟩],
    Cleanup := [] }

/-- A `Func` that declares the output `yamlPath` and returns without setting it, then a
command on the `Ref` to that output. -/
def unsetOutputTask : Task :=
  { Steps :=
      [⟨"gen", .func ⟨"gen", .ret none, ["yamlPath"]⟩, (Values.mk "gen" none).Def "yamlPath"⟩,
       ⟨"use", .command ⟨"cat", [.ref ⟨"gen", "yamlPath"⟩]⟩, ⟨"use", none⟩⟩],
    Cleanup := [] }

/-- The failure of a process whose wrapper printed a notice before the shell reported the
missing command on the second line of the combined output. -/
def lateNotFoundErr : ExecErr :=
  .wrappedExit "exit status 127" 127 "starting\nbash: line 1: foo: command not found\n"

/-- The failure of a process whose combined output is the one line with which the shell
reports a missing command. -/
def notFoundErr : ExecErr :=
  .wrappedExit "exit status 127" 127 "bash: line 1: foo: command not found\n"

/-- The failure of a process that exits with status 1 and whose combined output is the
one line with which a Go program reports that `os/exec` has not found `foo`. -/
def notInPathErr : ExecErr :=
  .wrappedExit "exit status 1" 1 "exec: \"foo\": executable file not found in $PATH\n"

/-- A harness with two stubs whose paths differ and share the base name `kubectl`. -/
def twoKubectlRuntime : Runtime :=
  { ExecutionStubs :=
      [⟨⟨"/usr/bin/kubectl", [.str "get"]⟩, ⟨"", some 0⟩⟩,
       ⟨⟨"/usr/local/bin/kubectl", [.str "apply"]⟩, ⟨"", some 0⟩⟩],
    binDir := "/tmp/bin", GoTestName := "", AllowByDefault := false,
    Allowed := none, CommandPrinter := none,
    Stdout := fun _ => .complete, Stderr := fun _ => .complete }

/-- Specification side, not taken from `RunTask`: the calls of `ctx.Set` that a body
makes, in order, each as the pair of its key and its value, when the body's calls of
`ctx.Get` are answered with the supplied inputs (a call for a key that is not supplied
ends the body) and its calls of `ctx.Exec` with what the target gives. -/
def setCalls {σ : Type} (t : Target σ) (inputs : mapInputs) :
    FuncBody → σ → List (String × String)
  | .ret _, _ => []
  | .fault _, _ => []
  | .set key val next, tgt => (key, val) :: setCalls t inputs next tgt
  | .get key next, tgt =>
    match List.lookup key inputs.m with
    | none => []
    | some v => setCalls t inputs (next v) tgt
  | .exec cmd next, tgt =>
    match t.Execute tgt cmd (sprintArgs cmd.Args) with
    | (.error e, tgt1) => setCalls t inputs (next (.error (.unhandled e))) tgt1
    | (.ok v, tgt1) => setCalls t inputs (next (.ok v)) tgt1

/-- Specification side, not taken from `RunTask`: the first key that a body asks of
`ctx.Get` and for which no input is supplied, if the body comes to ask for one; every
earlier call of `ctx.Get` is answered with the supplied input and every call of
`ctx.Exec` with what the target gives. -/
def firstMissingGet {σ : Type} (t : Target σ) (inputs : mapInputs) :
    FuncBody → σ → Option String
  | .ret _, _ => none
  | .fault _, _ => none
  | .set _ _ next, tgt => firstMissingGet t inputs next tgt
  | .get key next, tgt =>
    match List.lookup key inputs.m with
    | none => some key
    | some v => firstMissingGet t inputs (next v) tgt
  | .exec cmd next, tgt =>
    match t.Execute tgt cmd (sprintArgs cmd.Args) with
    | (.error e, tgt1) => firstMissingGet t inputs (next (.error (.unhandled e))) tgt1
    | (.ok v, tgt1) => firstMissingGet t inputs (next (.ok v)) tgt1

/-- Specification side, in the words of the specification: a `Func` body run on a
step-scoped context that binds `get` to the resolution `resolve` of a key, `set` to
populate the output map, and the nested command execution to the target. -/
def specBody {σ : Type} (t : Target σ) (resolve : String → Except Fault String) (i : Nat) :
    FuncBody → GoMap String → List Call → σ → BodyRun σ
  | .ret err, outputs, calls, tgt => ⟨outputs, calls, tgt, err⟩
  | .fault e, outputs, calls, tgt => ⟨outputs, calls, tgt, some (.unhandledInFunc e)⟩
  | .set key val next, outputs, calls, tgt =>
    specBody t resolve i next (GoMap.set outputs key val) calls tgt
  | .get key next, outputs, calls, tgt =>
    match resolve key with
    | .error e => ⟨outputs, calls, tgt, some (.unhandledInFunc e)⟩
    | .ok v => specBody t resolve i (next v) outputs calls tgt
  | .exec cmd next, outputs, calls, tgt =>
    match t.Execute tgt cmd (sprintArgs cmd.Args) with
    | (.error e, tgt1) =>
      specBody t resolve i (next (.error (.unhandled e))) outputs
        (calls ++ [⟨i, true, cmd, sprintArgs cmd.Args, .error e⟩]) tgt1
    | (.ok v, tgt1) =>
      specBody t resolve i (next (.ok v)) outputs
        (calls ++ [⟨i, true, cmd, sprintArgs cmd.Args, .ok v⟩]) tgt1

/-- A task whose only step is a `Func` that reads the input `seed` and sets `yamlPath`,
the one output that it declares. -/
def seedPathTask : Task :=
  { Steps :=
      [⟨"gen", .func ⟨"gen", .get "seed" (fun v => .set "yamlPath" (v ++ ".yaml") (.ret none)),
          ["yamlPath"]⟩,
        (Values.mk "gen" none).Def "yamlPath"⟩],
    Cleanup := [] }

/-- A command, then a `Func` whose body sets an output, reads the input `seed`, runs a
command, and then asks its context for `stdout`, the output of the first step. -/
def lateGetTask : Task :=
  { Steps :=
      [⟨"first", .command ⟨"echo", [.str "hello"]⟩, ⟨"first", none⟩⟩,
       ⟨"second",
         .func ⟨"f",
           .set "out" "x" (.get "seed" (fun v =>
             .exec ⟨"echo", [.str v]⟩ (fun _ =>
               .get "stdout" (fun w => .set "copy" w (.ret none))))),
           ["out"]⟩,
         ⟨"second", none⟩⟩],
    Cleanup := [] }

/-- The text with which `bash` reports a command that it does not find. -/
def fooNotFound : String := "bash: line 1: foo: command not found\n"

/-- The text with which a Go program reports that `os/exec` has not found `foo`. -/
def fooNotInPath : String := "exec: \"foo\": executable file not found in $PATH\n"

/-- An operating system with `bash` and the three scripts `foo`, `echo starting; foo`
and `./tool`, each run with every character of its two streams read before
`cmd.Wait()` returns: no command `foo` exists, `./tool` is a Go program that fails to
start `foo` and prints the error of `os/exec`; no other program exists, and `cmd.Start()`
says so, with the error of `exec.LookPath` for a name without a slash. -/
def shellOS : Unit → ExecCmd → Spawn × Unit :=
  fun w c =>
    if c.Path = "bash" ∧ c.Args = ["-c", "foo"] then
      (.started ⟨"", fooNotFound, .exit "exit status 127" 127, 0, fooNotFound.length,
        fooNotFound⟩, w)
    else if c.Path = "bash" ∧ c.Args = ["-c", "echo starting; foo"] then
      (.started ⟨"starting\n", fooNotFound, .exit "exit status 127" 127, 9, fooNotFound.length,
        "starting\n" ++ fooNotFound⟩, w)
    else if c.Path = "bash" ∧ c.Args = ["-c", "./tool"] then
      (.started ⟨"", fooNotInPath, .exit "exit status 1" 1, 0, fooNotInPath.length,
        fooNotInPath⟩, w)
    else if Contains c.Path "/" then
      (.refused ("fork/exec " ++ c.Path ++ ": no such file or directory"), w)
    else (.refused ("exec: \"" ++ c.Path ++ "\": executable file not found in $PATH"), w)

/-! ## Auxiliary lemmas -/

theorem lookup_cons_ite {β : Type} (a k : String) (b : β) (es : List (String × β)) :
    List.lookup a ((k, b) :: es) = if a = k then some b else List.lookup a es := by
  rw [List.lookup_cons]
  by_cases h : a = k
  · subst h; simp
  · have hb : (a == k) = false := by simpa using h
    simp [hb, h]

theorem lookup_filter_ne {β : Type} (m : GoMap β) (k a : String) :
    List.lookup a (m.filter (fun e => !(e.1 == k))) = if a = k then none else List.lookup a m := by
  induction m with
  | nil => simp
  | cons e es ih =>
    obtain ⟨x, y⟩ := e
    by_cases hx : x = k
    · have hf : (!((x, y).1 == k)) = false := by simp [hx]
      rw [List.filter_cons_of_neg (by simp [hx]), ih, lookup_cons_ite]
      by_cases ha : a = k
      · simp [ha]
      · have : ¬ a = x := by rw [hx]; exact ha
        simp [ha, this]
    · rw [List.filter_cons_of_pos (by simp [hx]), lookup_cons_ite, ih, lookup_cons_ite]
      by_cases ha : a = k
      · subst ha
        have : ¬ a = x := fun h => hx h.symm
        simp [this]
      · simp [ha]

theorem lookup_set {β : Type} (m : GoMap β) (k a : String) (v : β) :
    List.lookup a (GoMap.set m k v) = if a = k then some v else List.lookup a m := by
  unfold GoMap.set
  rw [lookup_cons_ite, lookup_filter_ne]
  by_cases ha : a = k <;> simp [ha]

theorem declares_iff (v : Values) (key : String) :
    (∃ ref, v.Get key = .ok ref) ↔ List.lookup key (v.exprs.getD []) ≠ none := by
  unfold Values.Get
  cases h : List.lookup key (v.exprs.getD []) <;> simp

theorem declares_Def (v : Values) (k key : String) :
    (∃ ref, (v.Def k).Get key = .ok ref) ↔ key = k ∨ ∃ ref, v.Get key = .ok ref := by
  rw [declares_iff, declares_iff]
  simp only [Values.Def, Option.getD_some, lookup_set]
  by_cases h : key = k <;> simp [h]

theorem declares_foldl (outs : List String) (v : Values) (key : String) :
    (∃ ref, (outs.foldl (fun vals k => vals.Def k) v).Get key = .ok ref)
      ↔ key ∈ outs ∨ ∃ ref, v.Get key = .ok ref := by
  induction outs generalizing v with
  | nil => simp
  | cons o os ih =>
    rw [List.foldl_cons, ih, declares_Def]
    simp only [List.mem_cons]
    tauto

/-- C10: on any builder, `Do` with a `Command` appends one step of the given name at the
end of the step list and returns it, and `Get` on it succeeds exactly for `stdout` and
`stderr`; `Do` with a `Func` does the same with `Get` succeeding exactly for the keys of
`f.Outputs`; `Do` with a runnable of another type panics and leaves the builder as it
was. -/
theorem Do_appends_and_declares (p : TaskBuilder) (name : String) :
    (∀ c : Command, ∃ job : TaskStep,
        p.Do name (.command c) = (.ok job, { p with jobs := p.jobs ++ [job] })
        ∧ job.Name = name
        ∧ ∀ key, (∃ ref, job.Get key = .ok ref) ↔ (key = "stdout" ∨ key = "stderr"))
    ∧ (∀ f : Func, ∃ job : TaskStep,
        p.Do name (.func f) = (.ok job, { p with jobs := p.jobs ++ [job] })
        ∧ job.Name = name
        ∧ ∀ key, (∃ ref, job.Get key = .ok ref) ↔ key ∈ f.Outputs)
    ∧ (∃ e, p.Do name .other = (.error e, p)) := by
  refine ⟨fun c => ⟨_, rfl, rfl, fun key => ?_⟩, fun f => ⟨_, rfl, rfl, fun key => ?_⟩, ⟨_, rfl⟩⟩
  · show (∃ ref, (((Values.mk name none).Def "stdout").Def "stderr").Get key = .ok ref) ↔ _
    rw [declares_Def, declares_Def, declares_iff]
    simp
    tauto
  · show (∃ ref, (f.Outputs.foldl (fun vals k => vals.Def k) (Values.mk name none)).Get key = .ok ref) ↔ _
    rw [declares_foldl, declares_iff]
    simp

theorem isAllowed_iff (t : Runtime) (name : String) :
    t.isAllowed name = true ↔ ∃ m, t.Allowed = some m ∧ List.lookup name m = some true := by
  unfold Runtime.isAllowed
  cases hA : t.Allowed with
  | none => simp
  | some m =>
    cases hl : List.lookup name m with
    | none => simp [hl]
    | some b => cases b <;> simp [hl]

theorem translate_ne_unexpected (path : String) (err : ExecErr) (e : UnexpectedCommandError) :
    translate path err ≠ .unexpectedCommand e := by
  unfold translate
  have hl : ∀ (ls : List String) (m : String) (f : Fault),
      matchLines ls m = .error f → f = .indexOutOfRange := by
    intro ls
    induction ls with
    | nil => intro m f h; simp [matchLines] at h
    | cons l rest ih =>
      intro m f h
      unfold matchLines at h
      have hml : ∀ g, matchLine l m = .error g → g = .indexOutOfRange := by
        intro g hg
        unfold matchLine at hg
        split at hg
        · simp at hg
        · simp only at hg
          split at hg
          · split at hg
            · simp at hg; exact hg.symm
            · simp at hg
          · split at hg
            · split at hg
              · simp at hg; exact hg.symm
              · simp at hg
            · simp at hg
      split at h
      · rename_i e1 he1
        simp at h
        rw [← h]; exact hml _ he1
      · simp at h
      · exact ih _ _ h
  simp only
  split
  · split
    · rename_i f hf
      rw [hl _ _ _ hf]; simp
    · split <;> simp
  · split <;> simp

/-- C4: for an invocation that matches no stub, `Runtime.Execute` panics with an
`UnexpectedCommandError` exactly when `AllowByDefault` is false and the base name of the
command path is not set to true in `Allowed`; the error carries the command and the
argument list, and its message names `<path> <args joined by spaces>` and ends with the
rendering of the command printer. Otherwise the command itself is handed to the process
runner with the environment `PATH=<binDir>` alone. For an invocation that matches a stub
the wrapper of the stub is started, whatever `AllowByDefault` and `Allowed` are. -/
theorem Execute_unexpected_iff_not_allowed {σ : Type} (lib : GoLib) (run : σ → ExecCmd → Except ExecErr ExecResult × σ)
    (t : Runtime) (w : σ) (cmd : Command) (args : StrSlice) :
    (t.findExpected cmd.Path args = none →
      ((∃ e, (t.Execute lib run w cmd args).1 = .error (.unexpectedCommand e))
          ↔ (t.AllowByDefault = false
              ∧ ¬ ∃ m, t.Allowed = some m ∧ List.lookup (Base cmd.Path) m = some true))
      ∧ ((t.AllowByDefault = false
              ∧ ¬ ∃ m, t.Allowed = some m ∧ List.lookup (Base cmd.Path) m = some true) →
          ∃ e, t.Execute lib run w cmd args = (.error (.unexpectedCommand e), w)
            ∧ e.Command = cmd ∧ e.Args = args
            ∧ e.Error = "command " ++ (cmd.Path ++ " " ++ Join args.toList " ")
                ++ " is not expected for execution. Add the below as expectation:\n"
                ++ (t.CommandPrinter.getD (goCommandPrinter lib)) cmd ++ "\n")
      ∧ (¬ (t.AllowByDefault = false
              ∧ ¬ ∃ m, t.Allowed = some m ∧ List.lookup (Base cmd.Path) m = some true) →
          t.Execute lib run w cmd args =
            match run w { Path := cmd.Path, Args := args.toList, Env := ["PATH=" ++ t.binDir] } with
            | (.error err, w1) => (.error (translate cmd.Path err), w1)
            | (.ok res, w1) => (.ok res, w1)))
    ∧ (∀ ex, t.findExpected cmd.Path args = some ex →
          t.Execute lib run w cmd args =
            match run w { Path := lib.filepathJoin t.binDir (Base ex.Command.Path),
                          Args := args.toList,
                          Env := ["PATH=" ++ t.binDir, "ACCTEST_INVOCATION=" ++ ex.Command.Path] } with
            | (.error err, w1) =>
              (.error (translate (lib.filepathJoin t.binDir (Base ex.Command.Path)) err), w1)
            | (.ok res, w1) => (.ok res, w1)) := by
  have hallow : (t.AllowByDefault || t.isAllowed (Base cmd.Path)) = true ↔
      ¬ (t.AllowByDefault = false
          ∧ ¬ ∃ m, t.Allowed = some m ∧ List.lookup (Base cmd.Path) m = some true) := by
    rw [← isAllowed_iff]
    cases t.AllowByDefault <;> cases t.isAllowed (Base cmd.Path) <;> simp
  refine ⟨fun hno => ?_, fun ex hex => ?_⟩
  · by_cases hA : (t.AllowByDefault || t.isAllowed (Base cmd.Path)) = true
    · have hrun : t.Execute lib run w cmd args =
          match run w { Path := cmd.Path, Args := args.toList, Env := ["PATH=" ++ t.binDir] } with
          | (.error err, w1) => (.error (translate cmd.Path err), w1)
          | (.ok res, w1) => (.ok res, w1) := by
        simp only [Runtime.Execute, Runtime.command, hno, hA, if_true]
      refine ⟨⟨fun ⟨e, he⟩ => ?_, fun h => absurd h (hallow.mp hA)⟩,
        fun h => absurd h (hallow.mp hA), fun _ => hrun⟩
      rw [hrun] at he
      rcases hr : run w { Path := cmd.Path, Args := args.toList, Env := ["PATH=" ++ t.binDir] }
        with ⟨r, w1⟩
      rw [hr] at he
      cases r with
      | error err => simp at he; exact absurd he (translate_ne_unexpected _ _ _)
      | ok res => simp at he
    · have hn : ¬¬ (t.AllowByDefault = false
          ∧ ¬ ∃ m, t.Allowed = some m ∧ List.lookup (Base cmd.Path) m = some true) :=
        fun h => hA (hallow.mpr h)
      have hn := not_not.mp hn
      have hex : t.Execute lib run w cmd args =
          (.error (.unexpectedCommand
            { CommandPrinter := t.CommandPrinter.getD (goCommandPrinter lib),
              Command := cmd, Args := args }), w) := by
        simp only [Runtime.Execute, Runtime.command, hno, hA]
        cases t.CommandPrinter <;> rfl
      refine ⟨⟨fun _ => hn, fun _ => ⟨_, by rw [hex]⟩⟩, fun _ => ⟨_, hex, rfl, rfl, rfl⟩,
        fun h => absurd hn h⟩
  · simp only [Runtime.Execute, Runtime.command, hex]
    rfl

/-- C4, at `kubectl apply -f testdata` on a harness whose stub is for `testdata/`: no
stub matches, `kubectl` is not allowed, and `Execute` panics with the
`UnexpectedCommandError`. -/
theorem Execute_unexpected_witness :
    (∃ e, (kubectlRuntime.Execute GoLib.ascii idleRunner ()
        ⟨"kubectl", [.str "apply", .str "-f", .str "testdata"]⟩
        (.mk ["apply", "-f", "testdata"])).1 = .error (.unexpectedCommand e)) :=
  ((Execute_unexpected_iff_not_allowed GoLib.ascii idleRunner kubectlRuntime ()
      ⟨"kubectl", [.str "apply", .str "-f", .str "testdata"]⟩
      (.mk ["apply", "-f", "testdata"])).1 (by decide)).1.mpr
    ⟨rfl, by decide⟩

theorem sprintArgs_foldl (as : List Arg) (acc : StrSlice) :
    as.foldl (fun acc a => acc.append (sprintS a)) acc =
      if as = [] then acc else .mk (acc.toList ++ as.map sprintS) := by
  induction as generalizing acc with
  | nil => simp
  | cons a rest ih =>
    rw [List.foldl_cons, ih]
    cases acc <;> by_cases h : rest = [] <;> simp [h, StrSlice.append, StrSlice.toList]

theorem sprintArgs_eq (as : List Arg) :
    sprintArgs as = if as = [] then .nil else .mk (as.map sprintS) := by
  unfold sprintArgs
  rw [sprintArgs_foldl]
  simp [StrSlice.toList]

theorem findExpected_isSome_iff (t : Runtime) (path : String) (args : StrSlice) :
    (∃ ex, t.findExpected path args = some ex) ↔
      ∃ ex ∈ t.ExecutionStubs, ex.Command.Path = path
        ∧ StrSlice.DeepEqual args (sprintArgs ex.Command.Args) = true := by
  unfold Runtime.findExpected
  constructor
  · rintro ⟨ex, hex⟩
    have hm := List.mem_of_find?_eq_some hex
    have hp := List.find?_some hex
    refine ⟨ex, hm, ?_⟩
    by_cases h1 : path = ex.Command.Path
    · by_cases h2 : StrSlice.DeepEqual args (sprintArgs ex.Command.Args) = true
      · exact ⟨h1.symm, h2⟩
      · simp [h1, h2] at hp
    · simp [h1] at hp
  · rintro ⟨ex, hm, hp, hd⟩
    rw [← Option.isSome_iff_exists, List.find?_isSome]
    exact ⟨ex, hm, by simp [hp, hd]⟩

/-- Exact matching holds for every argument list but the empty non-nil slice: a stub is
found if and only if some stub has this path and its arguments, rendered with `%s`,
are the elements of `args`. -/
theorem findExpected_exact_of_ne_empty (t : Runtime) (path : String) (args : StrSlice)
    (hne : args ≠ .mk []) :
    (∃ ex, t.findExpected path args = some ex) ↔
      ∃ ex ∈ t.ExecutionStubs, ex.Command.Path = path
        ∧ ex.Command.Args.map sprintS = args.toList := by
  rw [findExpected_isSome_iff]
  have key : ∀ as : List Arg,
      StrSlice.DeepEqual args (sprintArgs as) = true ↔ as.map sprintS = args.toList := by
    intro as
    rw [sprintArgs_eq]
    cases args with
    | nil =>
      by_cases h : as = [] <;> simp [h, StrSlice.DeepEqual, StrSlice.toList]
    | mk l =>
      by_cases h : as = []
      · subst h
        have : l ≠ [] := fun hl => hne (by rw [hl])
        simp [StrSlice.DeepEqual, StrSlice.toList, this]
      · simp [h, StrSlice.DeepEqual, StrSlice.toList, eq_comm]
  constructor
  · rintro ⟨ex, hm, hp, hd⟩; exact ⟨ex, hm, hp, (key _).mp hd⟩
  · rintro ⟨ex, hm, hp, hd⟩; exact ⟨ex, hm, hp, (key _).mpr hd⟩

/-- C3: on a harness whose stub is `kubectl` with no arguments, `findExpected` on the
path `kubectl` and the empty non-nil argument slice (what wrapper mode is left with
after the `--` of a call without arguments) returns no stub, although the stub has that
path and its rendered arguments equal the argument list element for element; the same
lookup with the nil slice finds the stub, and the stub for `testdata/` of
`kubectlRuntime` does not match `testdata`. -/
theorem findExpected_misses_empty_slice :
    bareKubectlRuntime.findExpected "kubectl" (.mk []) = none
    ∧ (∃ ex ∈ bareKubectlRuntime.ExecutionStubs,
        ex.Command.Path = "kubectl" ∧ ex.Command.Args.map sprintS = (StrSlice.mk []).toList)
    ∧ bareKubectlRuntime.findExpected "kubectl" .nil = some ⟨⟨"kubectl", []⟩, ⟨"", some 0⟩⟩
    ∧ kubectlRuntime.findExpected "kubectl" (.mk ["apply", "-f", "testdata"]) = none
    ∧ (kubectlRuntime.findExpected "kubectl" (.mk ["apply", "-f", "testdata/"])).isSome = true := by
  refine ⟨by decide, ⟨_, List.mem_singleton.mpr rfl, rfl, rfl⟩, by decide, by decide, by decide⟩

theorem runSteps_append {σ : Type} (t : Target σ) (inputs : mapInputs) (pre post : List TaskStep)
    (i : Nat) (s : RunState σ) :
    runSteps t inputs i (pre ++ post) s =
      match runSteps t inputs i pre s with
      | ⟨s1, some e⟩ => ⟨s1, some e⟩
      | ⟨s1, none⟩ => runSteps t inputs (i + pre.length) post s1 := by
  induction pre generalizing i s with
  | nil => simp [runSteps]
  | cons q rest ih =>
    simp only [List.cons_append, runSteps, List.length_cons]
    rcases h : runStep t inputs i q s with ⟨s1, _ | e⟩
    · have e := ih (i + 1) s1
      have : i + 1 + rest.length = i + (rest.length + 1) := by omega
      rw [this] at e
      exact e
    · rfl

theorem runSteps_err_append {σ : Type} (t : Target σ) (inputs : mapInputs)
    (pre post : List TaskStep) (i : Nat) (s : RunState σ)
    (h : (runSteps t inputs i (pre ++ post) s).err = none) :
    (runSteps t inputs i pre s).err = none
      ∧ runSteps t inputs i (pre ++ post) s =
          runSteps t inputs (i + pre.length) post (runSteps t inputs i pre s).st := by
  rw [runSteps_append] at h ⊢
  rcases h1 : runSteps t inputs i pre s with ⟨s1, _ | e⟩
  · simp
  · rw [h1] at h; simp at h

theorem runSteps_cons_err {σ : Type} (t : Target σ) (inputs : mapInputs)
    (q : TaskStep) (rest : List TaskStep) (i : Nat) (s : RunState σ)
    (h : (runSteps t inputs i (q :: rest) s).err = none) :
    (runStep t inputs i q s).err = none
      ∧ runSteps t inputs i (q :: rest) s =
          runSteps t inputs (i + 1) rest (runStep t inputs i q s).st := by
  simp only [runSteps] at h ⊢
  rcases h1 : runStep t inputs i q s with ⟨s1, _ | e⟩
  · simp
  · rw [h1] at h; simp at h

theorem runBody_calls {σ : Type} (t : Target σ) (inputs : mapInputs) (name : String) (i : Nat)
    (body : FuncBody) (outputs : GoMap String) (calls : List Call) (tgt : σ) :
    ∃ extra, (runBody t inputs name i body outputs calls tgt).calls = calls ++ extra
      ∧ ∀ c ∈ extra, c.step = i ∧ c.nested = true := by
  induction body generalizing outputs calls tgt with
  | ret err => exact ⟨[], by simp [runBody]⟩
  | fault e => exact ⟨[], by simp [runBody]⟩
  | set key val next ih => simpa [runBody] using ih _ _ _
  | get key next ih =>
    simp only [runBody]
    cases inputs.get key with
    | none => exact ⟨[], by simp⟩
    | some v => exact ih v _ _ _
  | exec cmd next ih =>
    simp only [runBody]
    obtain ⟨extra, h1, h2⟩ := ih
      (match (t.Execute tgt cmd (sprintArgs cmd.Args)).1 with
        | .error e => .error (.unhandled e)
        | .ok v => .ok v) outputs
      (calls ++ [⟨i, true, cmd, sprintArgs cmd.Args, (t.Execute tgt cmd (sprintArgs cmd.Args)).1⟩])
      (t.Execute tgt cmd (sprintArgs cmd.Args)).2
    refine ⟨(⟨i, true, cmd, sprintArgs cmd.Args,
      (t.Execute tgt cmd (sprintArgs cmd.Args)).1⟩ : Call) :: extra, ?_, ?_⟩
    · rw [h1]; simp
    · intro c hc
      rcases List.mem_cons.mp hc with rfl | hc
      · exact ⟨rfl, rfl⟩
      · exact h2 c hc

theorem runStep_calls {σ : Type} (t : Target σ) (inputs : mapInputs) (i : Nat) (q : TaskStep)
    (s : RunState σ) :
    ∃ extra, (runStep t inputs i q s).st.calls = s.calls ++ extra ∧ ∀ c ∈ extra, c.step = i := by
  unfold runStep
  split
  · rename_i impl hq
    split
    · exact ⟨[], by simp⟩
    · rename_i args hargs
      refine ⟨[⟨i, false, impl, args, (t.Execute s.tgt impl args).1⟩], ?_, by simp⟩
      simp only
      split
      · rfl
      · split <;> rfl
  · rename_i impl hq
    obtain ⟨extra, h1, h2⟩ := runBody_calls t inputs q.Name i impl.F [] s.calls s.tgt
    refine ⟨extra, ?_, fun c hc => (h2 c hc).1⟩
    simp only
    split <;> exact h1
  · exact ⟨[], by simp⟩

theorem runSteps_calls {σ : Type} (t : Target σ) (inputs : mapInputs) (l : List TaskStep)
    (i : Nat) (s : RunState σ) :
    ∃ extra, (runSteps t inputs i l s).st.calls = s.calls ++ extra
      ∧ ∀ c ∈ extra, i ≤ c.step ∧ c.step < i + l.length := by
  induction l generalizing i s with
  | nil => exact ⟨[], by simp [runSteps]⟩
  | cons q rest ih =>
    obtain ⟨e1, h1, h2⟩ := runStep_calls t inputs i q s
    simp only [runSteps]
    rcases h : runStep t inputs i q s with ⟨s1, _ | e⟩
    · rw [h] at h1
      obtain ⟨e2, h3, h4⟩ := ih (i + 1) s1
      refine ⟨e1 ++ e2, ?_, ?_⟩
      · simp only at h1 ⊢
        rw [h3, h1, List.append_assoc]
      · intro c hc
        simp only [List.length_cons]
        rcases List.mem_append.mp hc with hc | hc
        · have := h2 c hc; omega
        · have := h4 c hc; omega
    · rw [h] at h1
      refine ⟨e1, h1, fun c hc => ?_⟩
      have := h2 c hc
      simp only [List.length_cons]; omega

theorem runStep_lookup {σ : Type} (t : Target σ) (inputs : mapInputs) (i : Nat) (q : TaskStep)
    (s : RunState σ) (n : String) (hn : n ≠ q.Name) :
    List.lookup n (runStep t inputs i q s).st.state = List.lookup n s.state := by
  unfold runStep
  split
  · split
    · rfl
    · simp only
      split
      · rfl
      · split
        · rfl
        · rfl
        · rfl
        · simp [lookup_set, hn]
  · simp only
    split
    · rfl
    · simp [lookup_set, hn]
  · rfl

theorem runSteps_lookup {σ : Type} (t : Target σ) (inputs : mapInputs) (l : List TaskStep)
    (i : Nat) (s : RunState σ) (n : String) (hn : ∀ q ∈ l, q.Name ≠ n) :
    List.lookup n (runSteps t inputs i l s).st.state = List.lookup n s.state := by
  induction l generalizing i s with
  | nil => simp [runSteps]
  | cons q rest ih =>
    simp only [runSteps]
    have hq := runStep_lookup t inputs i q s n (fun h => hn q (List.mem_cons_self _ _) h.symm)
    rcases h : runStep t inputs i q s with ⟨s1, _ | e⟩
    · rw [h] at hq
      simp only at hq ⊢
      rw [ih (i + 1) s1 (fun q hq => hn q (List.mem_cons_of_mem _ hq)), hq]
    · rw [h] at hq; exact hq

theorem resolveArg_sound (inputs : mapInputs) (state : StepState) (c : Bool) (name : String)
    (a : Arg) (v : String) (h : resolveArg inputs state c name a = .ok v) :
    (∀ s, a = .str s → v = s)
    ∧ (∀ key, a = .ref ⟨"", key⟩ → List.lookup key inputs.m = some v)
    ∧ (∀ job key, job ≠ "" → a = .ref ⟨job, key⟩ →
        ∃ outs, List.lookup job state = some outs ∧ List.lookup key outs = some v) := by
  cases a with
  | str s =>
    simp only [resolveArg, Except.ok.injEq] at h
    refine ⟨fun s1 h1 => ?_, fun key h1 => by simp at h1, fun job key _ h1 => by simp at h1⟩
    simp only [Arg.str.injEq] at h1
    rw [← h, h1]
  | ref r =>
    obtain ⟨job, key⟩ := r
    simp only [resolveArg] at h
    refine ⟨fun s1 h1 => by simp at h1, fun key1 h1 => ?_, fun job1 key1 hj h1 => ?_⟩
    · simp only [Arg.ref.injEq, Ref.mk.injEq] at h1
      obtain ⟨hj, hk⟩ := h1
      subst hj; subst hk
      simp only [if_true, mapInputs.get] at h
      cases hl : List.lookup key inputs.m with
      | none => rw [hl] at h; simp at h
      | some w => rw [hl] at h; simp at h; rw [h]
    · simp only [Arg.ref.injEq, Ref.mk.injEq] at h1
      obtain ⟨hj1, hk⟩ := h1
      subst hj1; subst hk
      simp only [hj, if_false] at h
      cases hl : List.lookup job state with
      | none => rw [hl] at h; simp at h
      | some outs =>
        rw [hl] at h
        simp only at h
        cases hk : List.lookup key outs with
        | none => rw [hk] at h; simp at h
        | some w => rw [hk] at h; simp at h; exact ⟨outs, rfl, by rw [hk, h]⟩
  | other asS asQ => simp [resolveArg] at h

theorem resolveLoop_ok (inputs : mapInputs) (state : StepState) (c : Bool) (name : String)
    (as : List Arg) (acc r : StrSlice) (h : resolveLoop inputs state c name as acc = .ok r) :
    ∃ vs, r.toList = acc.toList ++ vs
      ∧ List.Forall₂ (fun a v => resolveArg inputs state c name a = .ok v) as vs := by
  induction as generalizing acc with
  | nil =>
    simp only [resolveLoop, Except.ok.injEq] at h
    exact ⟨[], by simp [h], List.Forall₂.nil⟩
  | cons a rest ih =>
    simp only [resolveLoop] at h
    cases ha : resolveArg inputs state c name a with
    | error e => rw [ha] at h; simp at h
    | ok v =>
      rw [ha] at h
      obtain ⟨vs, h1, h2⟩ := ih _ h
      refine ⟨v :: vs, ?_, List.Forall₂.cons ha h2⟩
      rw [h1]
      cases acc <;> simp [StrSlice.append, StrSlice.toList]

theorem resolveLoop_error_of_mem (inputs : mapInputs) (state : StepState) (c : Bool)
    (name : String) (as : List Arg) (acc : StrSlice) (a : Arg) (ha : a ∈ as)
    (hbad : ∀ v, resolveArg inputs state c name a ≠ .ok v) :
    ∃ e, resolveLoop inputs state c name as acc = .error e := by
  induction as generalizing acc with
  | nil => simp at ha
  | cons b rest ih =>
    simp only [resolveLoop]
    cases hb : resolveArg inputs state c name b with
    | error e => exact ⟨e, rfl⟩
    | ok v =>
      rcases List.mem_cons.mp ha with rfl | hr
      · exact absurd hb (hbad v)
      · exact ih _ hr

theorem runStep_command_calls {σ : Type} (t : Target σ) (inputs : mapInputs) (i : Nat)
    (q : TaskStep) (s : RunState σ) (impl : Command) (hq : q.Run = .command impl) :
    (runStep t inputs i q s).st.calls =
      s.calls ++ (match resolveArgs inputs s.state false q.Name impl.Args with
        | .ok args => [⟨i, false, impl, args, (t.Execute s.tgt impl args).1⟩]
        | .error _ => []) := by
  unfold runStep
  rw [hq]
  simp only
  cases resolveArgs inputs s.state false q.Name impl.Args with
  | error e => simp
  | ok args =>
    simp only
    split
    · rfl
    · split <;> rfl

theorem runStep_command_err {σ : Type} (t : Target σ) (inputs : mapInputs) (i : Nat)
    (q : TaskStep) (s : RunState σ) (impl : Command) (hq : q.Run = .command impl) (e : Fault)
    (he : resolveArgs inputs s.state false q.Name impl.Args = .error e) :
    runStep t inputs i q s = ⟨s, some e⟩ := by
  unfold runStep
  rw [hq]
  simp only [he]

theorem runStep_command_ok {σ : Type} (t : Target σ) (inputs : mapInputs) (i : Nat)
    (q : TaskStep) (s : RunState σ) (impl : Command) (hq : q.Run = .command impl)
    (h : (runStep t inputs i q s).err = none) :
    ∃ args res, resolveArgs inputs s.state false q.Name impl.Args = .ok args
      ∧ (t.Execute s.tgt impl args).1 = .ok res
      ∧ (t.CopyOut (t.Execute s.tgt impl args).2 res.Stdout).err "stdout" = none
      ∧ (t.CopyErr (t.Execute s.tgt impl args).2 res.Stderr).err "stderr" = none
      ∧ (runStep t inputs i q s).st =
          { state := GoMap.set s.state q.Name
              [("stdout", (t.CopyOut (t.Execute s.tgt impl args).2 res.Stdout).captured res.Stdout)],
            calls := s.calls ++ [⟨i, false, impl, args, .ok res⟩],
            stdout := s.stdout
              ++ (t.CopyOut (t.Execute s.tgt impl args).2 res.Stdout).written res.Stdout,
            stderr := s.stderr
              ++ (t.CopyErr (t.Execute s.tgt impl args).2 res.Stderr).written res.Stderr,
            tgt := (t.Execute s.tgt impl args).2 } := by
  unfold runStep at h ⊢
  rw [hq] at h ⊢
  simp only at h ⊢
  cases hr : resolveArgs inputs s.state false q.Name impl.Args with
  | error e => rw [hr] at h; simp at h
  | ok args =>
    rw [hr] at h
    simp only at h ⊢
    cases hx : (t.Execute s.tgt impl args).1 with
    | error e => rw [hx] at h; simp at h
    | ok res =>
      rw [hx] at h
      simp only at h ⊢
      cases h1 : (t.CopyOut (t.Execute s.tgt impl args).2 res.Stdout).err "stdout" with
      | some e =>
        rw [h1] at h
        cases h2 : (t.CopyErr (t.Execute s.tgt impl args).2 res.Stderr).err "stderr" with
        | some e2 => rw [h2] at h; simp at h
        | none => rw [h2] at h; simp at h
      | none =>
        cases h2 : (t.CopyErr (t.Execute s.tgt impl args).2 res.Stderr).err "stderr" with
        | some e => rw [h1, h2] at h; simp at h
        | none => exact ⟨args, res, rfl, hx, h1, h2, rfl⟩

theorem run_calls_decomp {σ : Type} (t : Target σ) (inputs : mapInputs)
    (pre post : List TaskStep) (q : TaskStep) (i : Nat) (s0 : RunState σ)
    (hpre : (runSteps t inputs i pre s0).err = none) :
    ∃ later, (runSteps t inputs i (pre ++ q :: post) s0).st.calls =
        (runStep t inputs (i + pre.length) q (runSteps t inputs i pre s0).st).st.calls ++ later
      ∧ ∀ c ∈ later, i + pre.length + 1 ≤ c.step := by
  rw [runSteps_append]
  rcases h1 : runSteps t inputs i pre s0 with ⟨s1, _ | e⟩
  · simp only [runSteps]
    rcases h2 : runStep t inputs (i + pre.length) q s1 with ⟨s2, _ | e⟩
    · obtain ⟨later, h3, h4⟩ := runSteps_calls t inputs post (i + pre.length + 1) s2
      exact ⟨later, h3, fun c hc => (h4 c hc).1⟩
    · exact ⟨[], by simp⟩
  · rw [h1] at hpre; simp at hpre

/-- C1: let a `Command` step be reached by `RunTask` (the steps before it have run without
a panic). Then every call of `Target.Execute` that the step itself makes is on its
`Command`, with one argument per declared argument, in order: a string is passed as it
is, a `Ref` with empty `Job` as `inputs[key]`, a `Ref` with a `Job` as the value that
`state` holds for that job and key. The step makes that call as soon as its arguments
resolve. And what `state` holds for an earlier `Command` step (whose name no step in
between shares) is `stdout` bound to the text that the tee of its standard-output copy
has captured from the `Stdout` that `Execute` returned for it, as it is: the whole
`Stdout` whenever that copy has run to its end. -/
theorem RunTask_passes_resolved_args {σ : Type} (p : Task) (t : Target σ) (inputs : mapInputs)
    (tgt : σ) (pre post : List TaskStep) (step : TaskStep) (impl : Command)
    (hsteps : p.Steps = pre ++ step :: post) (hrun : step.Run = .command impl)
    (hpre : (runSteps t inputs 0 pre (RunState.init tgt)).err = none) :
    (∀ c ∈ (RunTask p t inputs tgt).st.calls, c.step = pre.length → c.nested = false →
      c.cmd = impl ∧ c.args.toList.length = impl.Args.length
      ∧ ∀ j (hj : j < impl.Args.length), ∃ v, c.args.toList[j]? = some v
          ∧ (∀ s, impl.Args[j] = .str s → v = s)
          ∧ (∀ key, impl.Args[j] = .ref ⟨"", key⟩ → List.lookup key inputs.m = some v)
          ∧ (∀ job key, job ≠ "" → impl.Args[j] = .ref ⟨job, key⟩ →
              ∃ outs, List.lookup job (runSteps t inputs 0 pre (RunState.init tgt)).st.state
                  = some outs ∧ List.lookup key outs = some v))
    ∧ (∀ args, resolveArgs inputs (runSteps t inputs 0 pre (RunState.init tgt)).st.state false
          step.Name impl.Args = .ok args →
        ∃ c ∈ (RunTask p t inputs tgt).st.calls,
          c.step = pre.length ∧ c.nested = false ∧ c.cmd = impl ∧ c.args = args)
    ∧ (∀ (pre1 mid : List TaskStep) (q : TaskStep) (impl1 : Command),
        pre = pre1 ++ q :: mid → q.Run = .command impl1 → (∀ x ∈ mid, x.Name ≠ q.Name) →
        ∃ args1 res,
          resolveArgs inputs (runSteps t inputs 0 pre1 (RunState.init tgt)).st.state false
            q.Name impl1.Args = .ok args1
          ∧ (t.Execute (runSteps t inputs 0 pre1 (RunState.init tgt)).st.tgt impl1 args1).1
              = .ok res
          ∧ List.lookup q.Name (runSteps t inputs 0 pre (RunState.init tgt)).st.state
              = some [("stdout",
                  (t.CopyOut
                    (t.Execute (runSteps t inputs 0 pre1 (RunState.init tgt)).st.tgt impl1 args1).2
                    res.Stdout).captured res.Stdout)]
          ∧ (t.CopyOut
                (t.Execute (runSteps t inputs 0 pre1 (RunState.init tgt)).st.tgt impl1 args1).2
                res.Stdout = .complete →
              List.lookup q.Name (runSteps t inputs 0 pre (RunState.init tgt)).st.state
                = some [("stdout", res.Stdout)])) := by
  obtain ⟨later, hl1, hl2⟩ := run_calls_decomp t inputs pre post step 0 (RunState.init tgt) hpre
  obtain ⟨before, hb1, hb2⟩ := runSteps_calls t inputs pre 0 (RunState.init tgt)
  have hcalls := runStep_command_calls t inputs (0 + pre.length) step
    (runSteps t inputs 0 pre (RunState.init tgt)).st impl hrun
  simp only [Nat.zero_add] at hl1 hl2 hb2 hcalls
  have hrunTask : (RunTask p t inputs tgt).st.calls =
      (runSteps t inputs 0 pre (RunState.init tgt)).st.calls ++
        (match resolveArgs inputs (runSteps t inputs 0 pre (RunState.init tgt)).st.state false
            step.Name impl.Args with
          | .ok args => [⟨pre.length, false, impl, args,
              (t.Execute (runSteps t inputs 0 pre (RunState.init tgt)).st.tgt impl args).1⟩]
          | .error _ => []) ++ later := by
    unfold RunTask
    rw [hsteps, hl1, hcalls]
  refine ⟨fun c hc hstep hnest => ?_, fun args hargs => ?_, ?_⟩
  · rw [hrunTask] at hc
    rcases List.mem_append.mp hc with hc | hc
    · rcases List.mem_append.mp hc with hc | hc
      · rw [hb1] at hc
        simp only [RunState.init, List.nil_append] at hc
        have := (hb2 c hc).2
        omega
      · cases hr : resolveArgs inputs (runSteps t inputs 0 pre (RunState.init tgt)).st.state false
            step.Name impl.Args with
        | error e => rw [hr] at hc; simp at hc
        | ok args =>
          rw [hr] at hc
          simp only [List.mem_singleton] at hc
          subst hc
          obtain ⟨vs, hv1, hv2⟩ := resolveLoop_ok _ _ _ _ _ _ _ hr
          have hnil : StrSlice.nil.toList = [] := rfl
          rw [hnil, List.nil_append] at hv1
          refine ⟨rfl, ?_, fun j hj => ?_⟩
          · rw [hv1]; exact hv2.length_eq.symm
          · have hjv : j < vs.length := by rw [← hv2.length_eq]; exact hj
            refine ⟨vs[j], ?_, ?_⟩
            · rw [hv1]; exact List.getElem?_eq_getElem hjv
            · have := hv2.get hj hjv
              simp only [List.get_eq_getElem] at this
              exact resolveArg_sound _ _ _ _ _ _ this
    · have := hl2 c hc
      omega
  · refine ⟨⟨pre.length, false, impl, args,
      (t.Execute (runSteps t inputs 0 pre (RunState.init tgt)).st.tgt impl args).1⟩,
      ?_, rfl, rfl, rfl, rfl⟩
    rw [hrunTask, hargs]
    simp
  · intro pre1 mid q impl1 hsplit hq hmid
    subst hsplit
    obtain ⟨h1, h2⟩ := runSteps_err_append t inputs pre1 (q :: mid) 0 (RunState.init tgt) hpre
    rw [h2] at hpre ⊢
    obtain ⟨h3, h4⟩ := runSteps_cons_err t inputs q mid (0 + pre1.length) _ hpre
    rw [h4]
    obtain ⟨args1, res, h5, h6, _, _, h7⟩ :=
      runStep_command_ok t inputs (0 + pre1.length) q _ impl1 hq h3
    have hlook : List.lookup q.Name (runSteps t inputs (0 + pre1.length + 1) mid
        (runStep t inputs (0 + pre1.length) q (runSteps t inputs 0 pre1 (RunState.init tgt)).st).st).st.state
        = some [("stdout",
            (t.CopyOut
              (t.Execute (runSteps t inputs 0 pre1 (RunState.init tgt)).st.tgt impl1 args1).2
              res.Stdout).captured res.Stdout)] := by
      rw [runSteps_lookup t inputs mid _ _ q.Name hmid, h7]
      simp [lookup_set]
    refine ⟨args1, res, h5, h6, hlook, fun hc => ?_⟩
    rw [hlook, hc]
    rfl

/-- C1, on `chainTask`: its second step is reached, and `Execute` is called for it with
`-n`, the standard output of the first step and the input `seed`. -/
theorem RunTask_passes_resolved_args_witness :
    ∃ c ∈ (RunTask chainTask echoTarget seedInputs 0).st.calls,
      c.step = 1 ∧ c.nested = false
        ∧ c.cmd = ⟨"cat", [.str "-n", .ref ⟨"first", "stdout"⟩, .ref ⟨"", "seed"⟩]⟩
        ∧ c.args = .mk ["-n", "echo hello\n", "someseed"] :=
  (RunTask_passes_resolved_args chainTask echoTarget seedInputs 0
    [⟨"first", .command ⟨"echo", [.str "hello"]⟩, ⟨"first", none⟩⟩] []
    ⟨"second", .command ⟨"cat", [.str "-n", .ref ⟨"first", "stdout"⟩, .ref ⟨"", "seed"⟩]⟩,
      ⟨"second", none⟩⟩
    ⟨"cat", [.str "-n", .ref ⟨"first", "stdout"⟩, .ref ⟨"", "seed"⟩]⟩ rfl rfl rfl).2.1
    (.mk ["-n", "echo hello\n", "someseed"]) rfl

/-- C2 as stated fails on `forwardRefTask`: its second step has a `Ref` to the third step,
which has not run when the second is reached; the run fails, and `Target.Execute` has
been called once by then, for the first step. -/
theorem RunTask_unresolved_ref_after_a_call :
    (∃ pre step post impl r, forwardRefTask.Steps = pre ++ step :: post
        ∧ step.Run = .command impl ∧ Arg.ref r ∈ impl.Args ∧ r.Job ≠ ""
        ∧ (∀ q ∈ pre, q.Name ≠ r.Job) ∧ ∃ q ∈ post, q.Name = r.Job)
    ∧ (RunTask forwardRefTask echoTarget seedInputs 0).err.isSome = true
    ∧ (RunTask forwardRefTask echoTarget seedInputs 0).st.calls.length = 1 := by
  refine ⟨⟨[⟨"first", .command ⟨"echo", [.str "hello"]⟩, ⟨"first", none⟩⟩],
    ⟨"second", .command ⟨"cat", [.ref ⟨"third", "stdout"⟩]⟩, ⟨"second", none⟩⟩,
    [⟨"third", .command ⟨"echo", [.str "late"]⟩, ⟨"third", none⟩⟩],
    ⟨"cat", [.ref ⟨"third", "stdout"⟩]⟩, ⟨"third", "stdout"⟩,
    rfl, rfl, by simp, by decide, ?_, ⟨_, List.mem_singleton.mpr rfl, rfl⟩⟩, rfl, rfl⟩
  intro q hq
  rw [List.mem_singleton.mp hq]
  decide

/-- C2, amended: if a `Command` step has an argument that is a `Ref` to an input key that
was not supplied, or a `Ref` to a producer that no earlier step is named after, then
`RunTask` fails, and every call of `Target.Execute` made during the run was made by an
earlier step: none is made for the step itself or for a later one. -/
theorem RunTask_fails_on_unresolved_ref {σ : Type} (p : Task) (t : Target σ)
    (inputs : mapInputs) (tgt : σ) (pre post : List TaskStep) (step : TaskStep)
    (impl : Command) (r : Ref)
    (hsteps : p.Steps = pre ++ step :: post) (hrun : step.Run = .command impl)
    (hmem : Arg.ref r ∈ impl.Args)
    (hbad : (r.Job = "" ∧ List.lookup r.Key inputs.m = none)
        ∨ (r.Job ≠ "" ∧ ∀ q ∈ pre, q.Name ≠ r.Job)) :
    (RunTask p t inputs tgt).err ≠ none
      ∧ ∀ c ∈ (RunTask p t inputs tgt).st.calls, c.step < pre.length := by
  obtain ⟨before, hb1, hb2⟩ := runSteps_calls t inputs pre 0 (RunState.init tgt)
  have hbefore : ∀ c ∈ (runSteps t inputs 0 pre (RunState.init tgt)).st.calls,
      c.step < pre.length := by
    intro c hc
    rw [hb1] at hc
    simp only [RunState.init, List.nil_append] at hc
    have := (hb2 c hc).2
    omega
  unfold RunTask
  rw [hsteps, runSteps_append]
  rcases h1 : runSteps t inputs 0 pre (RunState.init tgt) with ⟨s1, _ | e⟩
  · rw [h1] at hbefore
    have hfail : ∀ v, resolveArg inputs s1.state false step.Name (.ref r) ≠ .ok v := by
      intro v hv
      rcases hbad with ⟨hj, hk⟩ | ⟨hj, hk⟩
      · simp [resolveArg, hj, mapInputs.get, hk] at hv
      · have hlook := runSteps_lookup t inputs pre 0 (RunState.init tgt) r.Job hk
        rw [h1] at hlook
        simp only [RunState.init, List.lookup_nil] at hlook
        simp [resolveArg, hj, hlook] at hv
    obtain ⟨e, he⟩ := resolveLoop_error_of_mem inputs s1.state false step.Name impl.Args .nil
      (.ref r) hmem hfail
    have hstep := runStep_command_err t inputs (0 + pre.length) step s1 impl hrun e he
    simp only [runSteps, hstep]
    exact ⟨by simp, hbefore⟩
  · rw [h1] at hbefore
    exact ⟨by simp, hbefore⟩

/-- C2, amended, on `forwardRefTask`: the run fails and its only call of `Execute`
belongs to the first step. -/
theorem RunTask_fails_on_unresolved_ref_witness :
    (RunTask forwardRefTask echoTarget seedInputs 0).err ≠ none
      ∧ ∀ c ∈ (RunTask forwardRefTask echoTarget seedInputs 0).st.calls, c.step < 1 :=
  RunTask_fails_on_unresolved_ref forwardRefTask echoTarget seedInputs 0
    [⟨"first", .command ⟨"echo", [.str "hello"]⟩, ⟨"first", none⟩⟩]
    [⟨"third", .command ⟨"echo", [.str "late"]⟩, ⟨"third", none⟩⟩]
    ⟨"second", .command ⟨"cat", [.ref ⟨"third", "stdout"⟩]⟩, ⟨"second", none⟩⟩
    ⟨"cat", [.ref ⟨"third", "stdout"⟩]⟩ ⟨"third", "stdout"⟩ rfl rfl
    (List.mem_singleton.mpr rfl)
    (Or.inr ⟨by decide, fun q hq => by
      rw [List.mem_singleton.mp hq]; decide⟩)

theorem foldl_append_eq (l : List String) (a : String) :
    l.foldl (fun r s => r ++ s) a = a ++ l.foldl (fun r s => r ++ s) "" := by
  induction l generalizing a with
  | nil => simp
  | cons x xs ih =>
    simp only [List.foldl_cons]
    rw [ih (a ++ x), ih ("" ++ x), String.append_assoc]
    simp

theorem join_cons (x : String) (xs : List String) :
    String.join (x :: xs) = x ++ String.join xs := by
  unfold String.join
  rw [List.foldl_cons, foldl_append_eq]
  simp

theorem runSteps_commands {σ : Type} (t : Target σ) (inputs : mapInputs) (l : List TaskStep)
    (i : Nat) (s : RunState σ) (hcmd : ∀ q ∈ l, ∃ impl, q.Run = .command impl)
    (hcopy : ∀ w text, t.CopyOut w text = .complete ∧ t.CopyErr w text = .complete)
    (hok : (runSteps t inputs i l s).err = none) :
    ∃ (cs : List Call) (results : List ExecResult),
      (runSteps t inputs i l s).st.calls = s.calls ++ cs
      ∧ cs.map (fun c => c.res) = results.map Except.ok
      ∧ l.map (fun q => q.Run) = cs.map (fun c => TaskStepRun.command c.cmd)
      ∧ cs.map (fun c => c.step) = List.range' i l.length
      ∧ (∀ c ∈ cs, c.nested = false)
      ∧ (runSteps t inputs i l s).st.stdout = s.stdout ++ String.join (results.map fun r => r.Stdout)
      ∧ (runSteps t inputs i l s).st.stderr = s.stderr ++ String.join (results.map fun r => r.Stderr) := by
  induction l generalizing i s with
  | nil => exact ⟨[], [], by simp [runSteps, String.join]⟩
  | cons q rest ih =>
    obtain ⟨h1, h2⟩ := runSteps_cons_err t inputs q rest i s hok
    obtain ⟨impl, hq⟩ := hcmd q (List.mem_cons_self _ _)
    obtain ⟨args, res, _, _, _, _, h5⟩ := runStep_command_ok t inputs i q s impl hq h1
    rw [(hcopy _ _).1, (hcopy _ _).2] at h5
    simp only [CopyOutcome.written] at h5
    rw [h2] at hok ⊢
    obtain ⟨cs, results, k1, k2, k3, k4, k5, k6, k7⟩ :=
      ih (i + 1) _ (fun x hx => hcmd x (List.mem_cons_of_mem _ hx)) hok
    refine ⟨⟨i, false, impl, args, .ok res⟩ :: cs, res :: results, ?_, ?_, ?_, ?_, ?_, ?_, ?_⟩
    · rw [k1, h5]; simp
    · simp [k2]
    · simp [k3, hq]
    · simp [k4, List.range'_succ]
    · intro c hc
      rcases List.mem_cons.mp hc with rfl | hc
      · rfl
      · exact k5 c hc
    · rw [k6, h5]; simp [join_cons, String.append_assoc]
    · rw [k7, h5]; simp [join_cons, String.append_assoc]

/-- On a target both of whose copies always run to their end: if every step of a task is
a `Command` and `RunTask` runs it to the end, then `Execute` has been called once per
step, in the order of the steps, each call has returned a result, and the standard-output
sink has received the `Stdout` texts of these results one after another, the
standard-error sink their `Stderr` texts. -/
theorem RunTask_sinks_of_complete_copies {σ : Type} (p : Task) (t : Target σ)
    (inputs : mapInputs) (tgt : σ) (hcmd : ∀ q ∈ p.Steps, ∃ impl, q.Run = .command impl)
    (hcopy : ∀ w text, t.CopyOut w text = .complete ∧ t.CopyErr w text = .complete)
    (hok : (RunTask p t inputs tgt).err = none) :
    (∃ results : List ExecResult,
      (RunTask p t inputs tgt).st.calls.map (fun c => c.res) = results.map Except.ok
      ∧ p.Steps.map (fun q => q.Run)
          = (RunTask p t inputs tgt).st.calls.map (fun c => TaskStepRun.command c.cmd)
      ∧ (RunTask p t inputs tgt).st.calls.map (fun c => c.step) = List.range p.Steps.length
      ∧ (RunTask p t inputs tgt).st.stdout = String.join (results.map fun r => r.Stdout)
      ∧ (RunTask p t inputs tgt).st.stderr = String.join (results.map fun r => r.Stderr))
    ∧ (∀ res, (RunTask p t inputs tgt).st.calls.map (fun c => c.res) = [.ok res] →
        (RunTask p t inputs tgt).st.stdout = res.Stdout
        ∧ (RunTask p t inputs tgt).st.stderr = res.Stderr) := by
  obtain ⟨cs, results, k1, k2, k3, k4, _, k6, k7⟩ :=
    runSteps_commands t inputs p.Steps 0 (RunState.init tgt) hcmd hcopy hok
  have hc : (RunTask p t inputs tgt).st.calls = cs := by
    unfold RunTask; rw [k1]; simp [RunState.init]
  have ho : (RunTask p t inputs tgt).st.stdout = String.join (results.map fun r => r.Stdout) := by
    unfold RunTask; rw [k6]; simp [RunState.init]
  have he : (RunTask p t inputs tgt).st.stderr = String.join (results.map fun r => r.Stderr) := by
    unfold RunTask; rw [k7]; simp [RunState.init]
  refine ⟨⟨results, by rw [hc, k2], by rw [hc, k3], ?_, ho, he⟩, fun res hres => ?_⟩
  · rw [hc, k4, List.range_eq_range']
  · rw [hc, k2] at hres
    have : results = [res] := by
      cases results with
      | nil => simp at hres
      | cons r rs =>
        cases rs with
        | nil => simpa using hres
        | cons r2 rs2 => simp at hres
    rw [ho, he, this]
    simp [String.join]

/-- C9, on the first task of `TestSimple`, `bash -c "echo hello"`, against the harness
that allows every command. The process writes `hello` and a newline to standard output
and exits cleanly. When `cmd.Wait()` has closed the pipe before the copy of
`RunExecCmd` has read from it, `Execute` returns two empty streams, `RunTask` runs to
the end and the standard-output sink is empty; when the copy has read the six characters
first, the sink holds them. And on a target whose `Execute` returns `hello` and a
newline and whose standard-output sink panics, in the schedule where `wg.Wait()` returns
before the panic is stored, `RunTask` runs to the end with nothing in the sink. -/
theorem RunTask_completes_without_output :
    ((RunTask (sayHelloTask "echo hello")
          (allowAllRuntime.toTarget GoLib.ascii (RunExecCmd (helloOS 0)) (fun _ => false))
          ⟨[]⟩ ()).err = none
      ∧ (RunTask (sayHelloTask "echo hello")
          (allowAllRuntime.toTarget GoLib.ascii (RunExecCmd (helloOS 0)) (fun _ => false))
          ⟨[]⟩ ()).st.calls.map (fun c => c.res) = [.ok ⟨"", "", none⟩]
      ∧ (RunTask (sayHelloTask "echo hello")
          (allowAllRuntime.toTarget GoLib.ascii (RunExecCmd (helloOS 0)) (fun _ => false))
          ⟨[]⟩ ()).st.stdout = "")
    ∧ ((RunTask (sayHelloTask "echo hello")
          (allowAllRuntime.toTarget GoLib.ascii (RunExecCmd (helloOS 6)) (fun _ => false))
          ⟨[]⟩ ()).err = none
      ∧ (RunTask (sayHelloTask "echo hello")
          (allowAllRuntime.toTarget GoLib.ascii (RunExecCmd (helloOS 6)) (fun _ => false))
          ⟨[]⟩ ()).st.stdout = "hello\n"
      ∧ (RunTask (sayHelloTask "echo hello")
          (allowAllRuntime.toTarget GoLib.ascii (RunExecCmd (helloOS 6)) (fun _ => false))
          ⟨[]⟩ ()).st.stderr = "")
    ∧ ((RunTask (sayHelloTask "echo hello") lostPanicTarget ⟨[]⟩ ()).err = none
      ∧ (RunTask (sayHelloTask "echo hello") lostPanicTarget ⟨[]⟩ ()).st.calls.map
          (fun c => c.res) = [.ok ⟨"hello\n", "", none⟩]
      ∧ (RunTask (sayHelloTask "echo hello") lostPanicTarget ⟨[]⟩ ()).st.stdout = "") :=
  ⟨⟨rfl, rfl, by decide⟩, ⟨rfl, by decide, by decide⟩, ⟨rfl, rfl, by decide⟩⟩

theorem scriptSteps_append (lib : GoLib) (self : String) (inputs : mapInputs)
    (pre post : List TaskStep) (s : ScriptState) :
    scriptSteps lib self inputs (pre ++ post) s =
      match scriptSteps lib self inputs pre s with
      | ⟨s1, some e⟩ => ⟨s1, some e⟩
      | ⟨s1, none⟩ => scriptSteps lib self inputs post s1 := by
  induction pre generalizing s with
  | nil => simp [scriptSteps]
  | cons q rest ih =>
    simp only [List.cons_append, scriptSteps]
    rcases h : scriptStep lib self inputs q s with ⟨s1, _ | e⟩
    · exact ih s1
    · rfl

theorem scriptSteps_err_append (lib : GoLib) (self : String) (inputs : mapInputs)
    (pre post : List TaskStep) (s : ScriptState)
    (h : (scriptSteps lib self inputs (pre ++ post) s).err = none) :
    (scriptSteps lib self inputs pre s).err = none
      ∧ scriptSteps lib self inputs (pre ++ post) s =
          scriptSteps lib self inputs post (scriptSteps lib self inputs pre s).st := by
  rw [scriptSteps_append] at h ⊢
  rcases h1 : scriptSteps lib self inputs pre s with ⟨s1, _ | e⟩
  · simp
  · rw [h1] at h; simp at h

theorem scriptSteps_cons_err (lib : GoLib) (self : String) (inputs : mapInputs)
    (q : TaskStep) (rest : List TaskStep) (s : ScriptState)
    (h : (scriptSteps lib self inputs (q :: rest) s).err = none) :
    (scriptStep lib self inputs q s).err = none
      ∧ scriptSteps lib self inputs (q :: rest) s =
          scriptSteps lib self inputs rest (scriptStep lib self inputs q s).st := by
  simp only [scriptSteps] at h ⊢
  rcases h1 : scriptStep lib self inputs q s with ⟨s1, _ | e⟩
  · simp
  · rw [h1] at h; simp at h

theorem scriptStep_lines (lib : GoLib) (self : String) (inputs : mapInputs) (q : TaskStep)
    (s : ScriptState) :
    ∃ extra, (scriptStep lib self inputs q s).st.lines = s.lines ++ extra
      ∧ ((scriptStep lib self inputs q s).err = none → extra.length = 1) := by
  unfold scriptStep
  split
  · split
    · exact ⟨[], by simp⟩
    · exact ⟨[_], rfl, fun _ => rfl⟩
  · exact ⟨[_], rfl, fun _ => rfl⟩
  · exact ⟨[], by simp⟩

theorem scriptSteps_lines (lib : GoLib) (self : String) (inputs : mapInputs)
    (l : List TaskStep) (s : ScriptState) :
    ∃ extra, (scriptSteps lib self inputs l s).st.lines = s.lines ++ extra
      ∧ ((scriptSteps lib self inputs l s).err = none → extra.length = l.length) := by
  induction l generalizing s with
  | nil => exact ⟨[], by simp [scriptSteps]⟩
  | cons q rest ih =>
    obtain ⟨e1, h1, h2⟩ := scriptStep_lines lib self inputs q s
    simp only [scriptSteps]
    rcases h : scriptStep lib self inputs q s with ⟨s1, _ | e⟩
    · rw [h] at h1 h2
      obtain ⟨e2, h3, h4⟩ := ih s1
      refine ⟨e1 ++ e2, ?_, fun hok => ?_⟩
      · simp only at h1 ⊢
        rw [h3, h1, List.append_assoc]
      · have := h2 rfl
        have := h4 hok
        simp only [List.length_append, List.length_cons]; omega
    · rw [h] at h1
      exact ⟨e1, h1, fun hok => by simp at hok⟩

theorem scriptStep_command_ok (lib : GoLib) (self : String) (inputs : mapInputs) (q : TaskStep)
    (s : ScriptState) (impl : Command) (hq : q.Run = .command impl)
    (h : (scriptStep lib self inputs q s).err = none) :
    ∃ args, resolveArgs inputs s.state true q.Name impl.Args = .ok args
      ∧ (scriptStep lib self inputs q s).st =
          { lines := s.lines ++ [impl.Path ++ " " ++ Join args.toList " "],
            state := GoMap.set s.state q.Name [("stdout", "example stdout of " ++ q.Name)] } := by
  unfold scriptStep at h ⊢
  rw [hq] at h ⊢
  simp only at h ⊢
  cases hr : resolveArgs inputs s.state true q.Name impl.Args with
  | error e => rw [hr] at h; simp at h
  | ok args => exact ⟨args, rfl, rfl⟩

theorem scriptStep_lookup (lib : GoLib) (self : String) (inputs : mapInputs) (q : TaskStep)
    (s : ScriptState) (n : String) (hn : n ≠ q.Name) :
    List.lookup n (scriptStep lib self inputs q s).st.state = List.lookup n s.state := by
  unfold scriptStep
  split
  · split
    · rfl
    · simp [lookup_set, hn]
  · simp [lookup_set, hn]
  · rfl

theorem scriptSteps_lookup (lib : GoLib) (self : String) (inputs : mapInputs)
    (l : List TaskStep) (s : ScriptState) (n : String) (hn : ∀ q ∈ l, q.Name ≠ n) :
    List.lookup n (scriptSteps lib self inputs l s).st.state = List.lookup n s.state := by
  induction l generalizing s with
  | nil => simp [scriptSteps]
  | cons q rest ih =>
    simp only [scriptSteps]
    have hq := scriptStep_lookup lib self inputs q s n
      (fun h => hn q (List.mem_cons_self _ _) h.symm)
    rcases h : scriptStep lib self inputs q s with ⟨s1, _ | e⟩
    · rw [h] at hq
      simp only at hq ⊢
      rw [ih s1 (fun q hq => hn q (List.mem_cons_of_mem _ hq)), hq]
    · rw [h] at hq; exact hq

theorem resolveArg_of_input (inputs : mapInputs) (st1 st2 : StepState) (c1 c2 : Bool)
    (name : String) (a : Arg) (ha : ∀ r, a = .ref r → r.Job = "") :
    resolveArg inputs st1 c1 name a = resolveArg inputs st2 c2 name a := by
  cases a with
  | str s => rfl
  | ref r => simp [resolveArg, ha r rfl]
  | other asS asQ => rfl

theorem resolveLoop_of_inputs (inputs : mapInputs) (st1 st2 : StepState) (c1 c2 : Bool)
    (name : String) (as : List Arg) (acc : StrSlice)
    (has : ∀ r, Arg.ref r ∈ as → r.Job = "") :
    resolveLoop inputs st1 c1 name as acc = resolveLoop inputs st2 c2 name as acc := by
  induction as generalizing acc with
  | nil => rfl
  | cons a rest ih =>
    simp only [resolveLoop]
    rw [resolveArg_of_input inputs st1 st2 c1 c2 name a
      (fun r hr => has r (by rw [hr]; exact List.mem_cons_self _ _))]
    cases resolveArg inputs st2 c2 name a with
    | error e => rfl
    | ok v => exact ih _ (fun r hr => has r (List.mem_cons_of_mem _ hr))

theorem script_line_of_step (lib : GoLib) (self : String) (p : Task) (inputs : mapInputs)
    (pre post : List TaskStep) (step : TaskStep)
    (hsteps : p.Steps = pre ++ step :: post)
    (hscript : (WriteBashScript lib self p inputs).err = none) :
    (scriptSteps lib self inputs pre ⟨scriptHeader inputs, []⟩).err = none
    ∧ (scriptStep lib self inputs step
        (scriptSteps lib self inputs pre ⟨scriptHeader inputs, []⟩).st).err = none
    ∧ ∃ line, (scriptStep lib self inputs step
          (scriptSteps lib self inputs pre ⟨scriptHeader inputs, []⟩).st).st.lines =
        (scriptSteps lib self inputs pre ⟨scriptHeader inputs, []⟩).st.lines ++ [line]
      ∧ (WriteBashScript lib self p inputs).st.lines[2 + inputs.m.length + pre.length]? = some line := by
  unfold WriteBashScript at hscript ⊢
  rw [hsteps] at hscript ⊢
  obtain ⟨h1, h2⟩ := scriptSteps_err_append lib self inputs pre (step :: post) _ hscript
  rw [h2] at hscript ⊢
  obtain ⟨h3, h4⟩ := scriptSteps_cons_err lib self inputs step post _ hscript
  rw [h4]
  obtain ⟨e1, k1, k2⟩ := scriptSteps_lines lib self inputs pre ⟨scriptHeader inputs, []⟩
  obtain ⟨e2, k3, k4⟩ := scriptStep_lines lib self inputs step
    (scriptSteps lib self inputs pre ⟨scriptHeader inputs, []⟩).st
  obtain ⟨e3, k5, _⟩ := scriptSteps_lines lib self inputs post
    (scriptStep lib self inputs step (scriptSteps lib self inputs pre ⟨scriptHeader inputs, []⟩).st).st
  have hlen1 := k2 h1
  have hlen2 := k4 h3
  obtain ⟨line, rfl⟩ : ∃ line, e2 = [line] := by
    cases e2 with
    | nil => simp at hlen2
    | cons x xs =>
      cases xs with
      | nil => exact ⟨x, rfl⟩
      | cons y ys => simp at hlen2
  refine ⟨h1, h3, line, k3, ?_⟩
  rw [k5, k3, k1]
  have hidx : 2 + inputs.m.length + pre.length = (scriptHeader inputs ++ e1).length := by
    simp [scriptHeader, hlen1]; omega
  rw [hidx]
  show ((scriptHeader inputs ++ e1) ++ [line] ++ e3)[(scriptHeader inputs ++ e1).length]? = some line
  rw [List.append_assoc (scriptHeader inputs ++ e1), List.getElem?_append_right (le_refl _)]
  simp

theorem RunTask_step_call {σ : Type} (p : Task) (t : Target σ) (inputs : mapInputs) (tgt : σ)
    (pre post : List TaskStep) (step : TaskStep) (impl : Command)
    (hsteps : p.Steps = pre ++ step :: post) (hrun : step.Run = .command impl)
    (hok : (RunTask p t inputs tgt).err = none) :
    ∃ args res,
      resolveArgs inputs (runSteps t inputs 0 pre (RunState.init tgt)).st.state false
        step.Name impl.Args = .ok args
      ∧ (⟨pre.length, false, impl, args, .ok res⟩ : Call) ∈ (RunTask p t inputs tgt).st.calls
      ∧ ∀ d ∈ (RunTask p t inputs tgt).st.calls, d.step = pre.length →
          d = ⟨pre.length, false, impl, args, .ok res⟩ := by
  unfold RunTask at hok ⊢
  rw [hsteps] at hok ⊢
  obtain ⟨hpre, h2⟩ := runSteps_err_append t inputs pre (step :: post) 0 _ hok
  obtain ⟨later, hl1, hl2⟩ := run_calls_decomp t inputs pre post step 0 (RunState.init tgt) hpre
  obtain ⟨before, hb1, hb2⟩ := runSteps_calls t inputs pre 0 (RunState.init tgt)
  rw [h2] at hok
  obtain ⟨h3, _⟩ := runSteps_cons_err t inputs step post (0 + pre.length) _ hok
  obtain ⟨args, res, h5, _, _, _, h7⟩ :=
    runStep_command_ok t inputs (0 + pre.length) step _ impl hrun h3
  simp only [Nat.zero_add] at hl1 hl2 hb2 h7
  refine ⟨args, res, h5, ?_, fun d hd hstep => ?_⟩
  · rw [hl1, h7]; simp
  · rw [hl1, h7] at hd
    simp only [List.mem_append, List.mem_singleton] at hd
    rcases hd with (hd | hd) | hd
    · rw [hb1] at hd
      simp only [RunState.init, List.nil_append] at hd
      have := (hb2 d hd).2
      omega
    · exact hd
    · have := hl2 d hd
      omega

/-- C5 as stated fails on `chainTask`: both backends complete, `RunTask` hands the second
step the standard output of the first (`echo hello` and a newline), and the line that
`WriteBashScript` emits for the second step has the text `example stdout of first` in
its place. -/
theorem script_line_differs_from_call :
    (RunTask chainTask echoTarget seedInputs 0).err = none
    ∧ (WriteBashScript GoLib.ascii "acc.test" chainTask seedInputs).err = none
    ∧ (∃ c ∈ (RunTask chainTask echoTarget seedInputs 0).st.calls,
        c.step = 1 ∧ c.nested = false ∧ c.cmd.Path = "cat"
        ∧ c.args = .mk ["-n", "echo hello\n", "someseed"]
        ∧ (WriteBashScript GoLib.ascii "acc.test" chainTask seedInputs).st.lines[2 + 1 + 1]?
            ≠ some (c.cmd.Path ++ " " ++ Join c.args.toList " "))
    ∧ (WriteBashScript GoLib.ascii "acc.test" chainTask seedInputs).st.lines[2 + 1 + 1]?
        = some "cat -n example stdout of first someseed" := by
  refine ⟨rfl, rfl, ⟨⟨1, false, ⟨"cat", [.str "-n", .ref ⟨"first", "stdout"⟩, .ref ⟨"", "seed"⟩]⟩,
    .mk ["-n", "echo hello\n", "someseed"], .ok ⟨"cat -n echo hello\n someseed\n", "", none⟩⟩,
    ?_, rfl, rfl, rfl, rfl, by decide⟩, by decide⟩
  show _ ∈ [_, _]
  exact List.mem_cons_of_mem _ (List.mem_singleton.mpr rfl)

/-- C5, amended: on a task and input set on which both backends complete, for every
`Command` step none of whose arguments is a `Ref` to a producer step (each is a string or
a `Ref` to an input), the line that `WriteBashScript` emits for the step is
`<path> <args joined by single spaces>` for the one pair `(path, args)` that `RunTask`
hands to `Target.Execute` for that step. -/
theorem script_line_matches_call {σ : Type} (lib : GoLib) (self : String) (p : Task)
    (t : Target σ) (inputs : mapInputs) (tgt : σ) (pre post : List TaskStep) (step : TaskStep)
    (impl : Command)
    (hsteps : p.Steps = pre ++ step :: post) (hrun : step.Run = .command impl)
    (hinput : ∀ r, Arg.ref r ∈ impl.Args → r.Job = "")
    (hok : (RunTask p t inputs tgt).err = none)
    (hscript : (WriteBashScript lib self p inputs).err = none) :
    ∃ c ∈ (RunTask p t inputs tgt).st.calls,
      c.step = pre.length ∧ c.nested = false ∧ c.cmd = impl
      ∧ (∀ d ∈ (RunTask p t inputs tgt).st.calls, d.step = pre.length → d = c)
      ∧ (WriteBashScript lib self p inputs).st.lines[2 + inputs.m.length + pre.length]?
          = some (c.cmd.Path ++ " " ++ Join c.args.toList " ") := by
  obtain ⟨args, res, h1, h2, h3⟩ := RunTask_step_call p t inputs tgt pre post step impl hsteps hrun hok
  obtain ⟨_, k2, line, k3, k4⟩ := script_line_of_step lib self p inputs pre post step hsteps hscript
  obtain ⟨args1, k5, k6⟩ := scriptStep_command_ok lib self inputs step _ impl hrun k2
  refine ⟨_, h2, rfl, rfl, rfl, h3, ?_⟩
  rw [k4]
  have hsame : args1 = args := by
    unfold resolveArgs at k5 h1
    rw [resolveLoop_of_inputs inputs _ (runSteps t inputs 0 pre (RunState.init tgt)).st.state
      true false step.Name impl.Args .nil hinput, h1] at k5
    exact (Except.ok.inj k5).symm
  rw [k6] at k3
  simp only [List.append_cancel_left_eq, List.cons.injEq, and_true] at k3
  rw [← k3, hsame]

/-- C5, amended, on `chainTask`: the line for its first step, `echo hello`, is the pair
that `RunTask` hands to `Execute` for that step. -/
theorem script_line_matches_call_witness :
    ∃ c ∈ (RunTask chainTask echoTarget seedInputs 0).st.calls,
      c.step = 0 ∧ c.nested = false ∧ c.cmd = ⟨"echo", [.str "hello"]⟩
      ∧ (∀ d ∈ (RunTask chainTask echoTarget seedInputs 0).st.calls, d.step = 0 → d = c)
      ∧ (WriteBashScript GoLib.ascii "acc.test" chainTask seedInputs).st.lines[2 + 1 + 0]?
          = some (c.cmd.Path ++ " " ++ Join c.args.toList " ") :=
  script_line_matches_call GoLib.ascii "acc.test" chainTask echoTarget seedInputs 0 []
    [⟨"second", .command ⟨"cat", [.str "-n", .ref ⟨"first", "stdout"⟩, .ref ⟨"", "seed"⟩]⟩,
      ⟨"second", none⟩⟩]
    ⟨"first", .command ⟨"echo", [.str "hello"]⟩, ⟨"first", none⟩⟩ ⟨"echo", [.str "hello"]⟩
    rfl rfl (fun r hr => by simp at hr) rfl rfl

theorem resolveLoop_supplied (inputs : mapInputs) (state : StepState) (c : Bool) (name : String)
    (as : List Arg) (acc : StrSlice)
    (has : ∀ a ∈ as, (∃ s, a = .str s)
      ∨ ∃ key v, a = .ref ⟨"", key⟩ ∧ List.lookup key inputs.m = some v) :
    ∃ r, resolveLoop inputs state c name as acc = .ok r
      ∧ r.toList = acc.toList ++ as.map (suppliedArg inputs) := by
  induction as generalizing acc with
  | nil => exact ⟨acc, rfl, by simp⟩
  | cons a rest ih =>
    have ha : resolveArg inputs state c name a = .ok (suppliedArg inputs a) := by
      rcases has a (List.mem_cons_self _ _) with ⟨s, rfl⟩ | ⟨key, v, rfl, hv⟩
      · rfl
      · simp [resolveArg, mapInputs.get, suppliedArg, hv]
    obtain ⟨r, h1, h2⟩ := ih (acc.append (suppliedArg inputs a))
      (fun b hb => has b (List.mem_cons_of_mem _ hb))
    refine ⟨r, ?_, ?_⟩
    · simp only [resolveLoop, ha]; exact h1
    · rw [h2]; cases acc <;> simp [StrSlice.append, StrSlice.toList]

theorem scriptSteps_supplied (lib : GoLib) (self : String) (inputs : mapInputs)
    (l : List TaskStep) (s : ScriptState)
    (hl : ∀ q ∈ l, ∃ impl, q.Run = .command impl ∧ ∀ a ∈ impl.Args, (∃ s, a = .str s)
      ∨ ∃ key v, a = .ref ⟨"", key⟩ ∧ List.lookup key inputs.m = some v) :
    (scriptSteps lib self inputs l s).err = none
    ∧ (scriptSteps lib self inputs l s).st.lines = s.lines ++ l.map (fun q =>
        match q.Run with
        | .command impl => impl.Path ++ " " ++ Join (impl.Args.map (suppliedArg inputs)) " "
        | _ => "") := by
  induction l generalizing s with
  | nil => simp [scriptSteps]
  | cons q rest ih =>
    obtain ⟨impl, hq, hargs⟩ := hl q (List.mem_cons_self _ _)
    obtain ⟨r, h1, h2⟩ := resolveLoop_supplied inputs s.state true q.Name impl.Args .nil hargs
    have hstep : scriptStep lib self inputs q s =
        ⟨{ lines := s.lines ++ [impl.Path ++ " " ++ Join r.toList " "],
           state := GoMap.set s.state q.Name [("stdout", "example stdout of " ++ q.Name)] }, none⟩ := by
      unfold scriptStep resolveArgs
      rw [hq]
      simp only [h1]
    obtain ⟨i1, i2⟩ := ih _ (fun x hx => hl x (List.mem_cons_of_mem _ hx))
    simp only [scriptSteps, hstep]
    refine ⟨i1, ?_⟩
    rw [i2, h2]
    simp [StrSlice.toList, hq]

/-- C6 as stated fails on `kindTask` with no input supplied: the steps are commands whose
arguments are strings or `Ref`s to inputs, yet `WriteBashScript` panics on the missing
input `seed` after the two opening lines, so no line is written for the step. -/
theorem WriteBashScript_stops_on_missing_input :
    (∀ q ∈ kindTask.Steps, ∃ impl, q.Run = .command impl
        ∧ ∀ a ∈ impl.Args, (∃ s, a = .str s) ∨ ∃ key, a = .ref ⟨"", key⟩)
    ∧ (WriteBashScript GoLib.ascii "acc.test" kindTask ⟨[]⟩).err.isSome = true
    ∧ (WriteBashScript GoLib.ascii "acc.test" kindTask ⟨[]⟩).text = "#!/usr/bin/env bash\nset -e\n"
    ∧ (WriteBashScript GoLib.ascii "acc.test" kindTask ⟨[]⟩).st.lines.length
        ≠ 2 + 0 + kindTask.Steps.length := by
  refine ⟨fun q hq => ?_, rfl, by decide, by decide⟩
  rw [List.mem_singleton.mp hq]
  refine ⟨_, rfl, fun a ha => ?_⟩
  simp only [List.mem_cons, List.mem_singleton, List.not_mem_nil, or_false] at ha
  rcases ha with rfl | rfl | rfl | rfl
  · exact Or.inl ⟨_, rfl⟩
  · exact Or.inl ⟨_, rfl⟩
  · exact Or.inl ⟨_, rfl⟩
  · exact Or.inr ⟨_, rfl⟩

/-- C6, amended: for every task whose steps are `Command`s whose arguments are strings or
`Ref`s to inputs, and every input map that supplies each of the inputs referred to,
`WriteBashScript` completes and writes exactly the line `#!/usr/bin/env bash`, the line
`set -e`, one guard line `if [ -z "<v>" ]; then echo "\<v> is empty.; exit 1; fi"` for the
value `<v>` of each supplied input, and for each step in declaration order the line
`<path> <resolved args joined by single spaces>`, each line ended by a newline. With the
single input `seed` bound to `${SEED}`, `kindTask` compiles to the guard for `${SEED}`
followed by `kind create cluster --name ${SEED}`. -/
theorem WriteBashScript_of_supplied_inputs (lib : GoLib) (self : String) (p : Task)
    (inputs : mapInputs)
    (hsteps : ∀ q ∈ p.Steps, ∃ impl, q.Run = .command impl ∧ ∀ a ∈ impl.Args, (∃ s, a = .str s)
      ∨ ∃ key v, a = .ref ⟨"", key⟩ ∧ List.lookup key inputs.m = some v) :
    (WriteBashScript lib self p inputs).err = none
    ∧ (WriteBashScript lib self p inputs).text = String.join
        ((["#!/usr/bin/env bash", "set -e"]
          ++ inputs.m.map (fun (e : String × String) =>
              "if [ -z \"" ++ e.2 ++ "\" ]; then echo \"\\" ++ e.2 ++ " is empty.; exit 1; fi\"")
          ++ p.Steps.map (fun (q : TaskStep) =>
              match q.Run with
              | .command impl => impl.Path ++ " " ++ Join (impl.Args.map (suppliedArg inputs)) " "
              | _ => ""): List String).map (fun l => l ++ "\n"))
    ∧ (WriteBashScript lib self kindTask ⟨[("seed", "$\x7bSEED\x7d")]⟩).text =
        "#!/usr/bin/env bash\nset -e\n"
          ++ "if [ -z \"$\x7bSEED\x7d\" ]; then echo \"\\$\x7bSEED\x7d is empty.; exit 1; fi\"\n"
          ++ "kind create cluster --name $\x7bSEED\x7d\n" := by
  obtain ⟨h1, h2⟩ := scriptSteps_supplied lib self inputs p.Steps ⟨scriptHeader inputs, []⟩ hsteps
  refine ⟨h1, ?_, rfl⟩
  unfold ScriptResult.text WriteBashScript
  rw [h2]
  rfl

/-- C6, amended, on `kindTask` with the input `seed` bound to `${SEED}`. -/
theorem WriteBashScript_of_supplied_inputs_witness :
    (WriteBashScript GoLib.ascii "acc.test" kindTask ⟨[("seed", "$\x7bSEED\x7d")]⟩).err = none :=
  (WriteBashScript_of_supplied_inputs GoLib.ascii "acc.test" kindTask ⟨[("seed", "$\x7bSEED\x7d")]⟩
    (fun q hq => by
      rw [List.mem_singleton.mp hq]
      refine ⟨_, rfl, fun a ha => ?_⟩
      simp only [List.mem_cons, List.mem_singleton, List.not_mem_nil, or_false] at ha
      rcases ha with rfl | rfl | rfl | rfl
      · exact Or.inl ⟨_, rfl⟩
      · exact Or.inl ⟨_, rfl⟩
      · exact Or.inl ⟨_, rfl⟩
      · exact Or.inr ⟨"seed", "$\x7bSEED\x7d", rfl, rfl⟩)).1

theorem lookup_foldl_set (outs : List String) (f : String → String) (init : GoMap String)
    (k : String) :
    List.lookup k (outs.foldl (fun m o => GoMap.set m o (f o)) init) =
      if k ∈ outs then some (f k) else List.lookup k init := by
  induction outs generalizing init with
  | nil => simp
  | cons o os ih =>
    rw [List.foldl_cons, ih, lookup_set]
    by_cases h1 : k ∈ os
    · simp [h1]
    · by_cases h2 : k = o
      · simp [h2]
      · simp [h1, h2]

theorem Quote_plain (lib : GoLib) (s : String)
    (h : ∀ c ∈ s.data, IsPrint lib c = true ∧ c.toNat ≠ 34 ∧ c.toNat ≠ 92) :
    Quote lib s = "\"" ++ s ++ "\"" := by
  have hflat : ∀ l : List Char, (∀ c ∈ l, IsPrint lib c = true ∧ c.toNat ≠ 34 ∧ c.toNat ≠ 92) →
      (l.map (quoteRune lib)).flatten = l := by
    intro l
    induction l with
    | nil => intro _; rfl
    | cons c cs ih =>
      intro hl
      obtain ⟨h1, h2, h3⟩ := hl c (List.mem_cons_self _ _)
      have hc : quoteRune lib c = [c] := by simp [quoteRune, h1, h2, h3]
      simp only [List.map_cons, List.flatten_cons, hc, List.singleton_append, List.cons.injEq,
        true_and]
      exact ih (fun d hd => hl d (List.mem_cons_of_mem _ hd))
  unfold Quote
  rw [hflat s.data h]
  apply String.ext
  simp [String.data_append]

theorem scriptStep_func (lib : GoLib) (self : String) (inputs : mapInputs) (q : TaskStep)
    (s : ScriptState) (f : Func) (hq : q.Run = .func f) :
    scriptStep lib self inputs q s =
      ⟨{ lines := s.lines ++ [self ++ " run-task-step " ++ Quote lib q.Name],
         state := GoMap.set s.state q.Name
           (f.Outputs.foldl (fun outputs o => GoMap.set outputs o (placeholder lib f.Name o)) []) },
        none⟩ := by
  unfold scriptStep
  rw [hq]

/-- C7 as stated fails on `quotedNameTask`: the name of its `Func` step holds a double
quote, the verb `%q` escapes it, and the emitted line is not the name between two double
quotes. It also fails where the `Ref` does not single out the step: on `unnamedFuncTask`
the `Ref` to the output of the step without a name is read as a `Ref` to the input
`yamlPath`, and on `shadowedFuncTask` the later step of the same name has taken the place
of the outputs, so that the compilation panics. -/
theorem WriteBashScript_escapes_step_name :
    ((WriteBashScript GoLib.ascii "acc.test" quotedNameTask ⟨[]⟩).st.lines =
        ["#!/usr/bin/env bash", "set -e", "acc.test run-task-step \"say \\\"hi\\\"\""]
      ∧ (WriteBashScript GoLib.ascii "acc.test" quotedNameTask ⟨[]⟩).st.lines[2]?
          ≠ some ("acc.test" ++ " run-task-step \"" ++ "say \"hi\"" ++ "\""))
    ∧ ((unnamedFuncTask.Steps.head?.bind fun q => (q.Get "yamlPath").toOption)
          = some ⟨"", "yamlPath"⟩
      ∧ (WriteBashScript GoLib.ascii "acc.test" unnamedFuncTask ⟨[("yamlPath", "from-input")]⟩).st.lines[4]?
          = some "cat from-input")
    ∧ ((shadowedFuncTask.Steps.head?.bind fun q => (q.Get "yamlPath").toOption)
          = some ⟨"gen", "yamlPath"⟩
      ∧ (WriteBashScript GoLib.ascii "acc.test" shadowedFuncTask ⟨[]⟩).err.isSome = true) := by
  refine ⟨⟨by decide, by decide⟩, ⟨by decide, by decide⟩, ⟨by decide, rfl⟩⟩

/-- C7, amended: let a `Func` step with step name `n`, function name `f` and declared
output keys `O` be reached by `WriteBashScript`. The step always compiles, to the single
line `<argv0> run-task-step ` followed by `n` as the verb `%q` quotes it, which is
`"<n>"` when `n` holds only printable characters other than the double quote and the
backslash. The function body is not called: the script is the same whatever the body is.
And when `n` is not empty and no step in between bears the same name, every argument of a
later `Command` that is a `Ref` to an output `k` in `O` of that step is rendered as
`${F_K}`, where `F` and `K` are `f` and `k` upper-cased; `gen` and `yamlPath` give
`${GEN_YAMLPATH}`. -/
theorem WriteBashScript_func_step (lib : GoLib) (self : String) (p : Task) (inputs : mapInputs)
    (pre post : List TaskStep) (step : TaskStep) (f : Func)
    (hsteps : p.Steps = pre ++ step :: post) (hrun : step.Run = .func f)
    (hpre : (scriptSteps lib self inputs pre ⟨scriptHeader inputs, []⟩).err = none) :
    (scriptStep lib self inputs step
        (scriptSteps lib self inputs pre ⟨scriptHeader inputs, []⟩).st).err = none
    ∧ (scriptStep lib self inputs step
        (scriptSteps lib self inputs pre ⟨scriptHeader inputs, []⟩).st).st.lines =
          (scriptSteps lib self inputs pre ⟨scriptHeader inputs, []⟩).st.lines
            ++ [self ++ " run-task-step " ++ Quote lib step.Name]
    ∧ (WriteBashScript lib self p inputs).st.lines[2 + inputs.m.length + pre.length]?
        = some (self ++ " run-task-step " ++ Quote lib step.Name)
    ∧ ((∀ c ∈ step.Name.data, IsPrint lib c = true ∧ c.toNat ≠ 34 ∧ c.toNat ≠ 92) →
        Quote lib step.Name = "\"" ++ step.Name ++ "\"")
    ∧ (∀ body : FuncBody,
        WriteBashScript lib self
          { Steps := pre ++ { step with Run := .func { f with F := body } } :: post,
            Cleanup := p.Cleanup } inputs
          = WriteBashScript lib self p inputs)
    ∧ (∀ (mid rest : List TaskStep) (cstep : TaskStep) (impl : Command) (k : String) (j : Nat),
        post = mid ++ cstep :: rest → cstep.Run = .command impl → step.Name ≠ "" →
        (∀ x ∈ mid, x.Name ≠ step.Name) → k ∈ f.Outputs →
        impl.Args[j]? = some (.ref ⟨step.Name, k⟩) →
        (scriptSteps lib self inputs (pre ++ step :: mid) ⟨scriptHeader inputs, []⟩).err = none →
        resolveArg inputs
            (scriptSteps lib self inputs (pre ++ step :: mid) ⟨scriptHeader inputs, []⟩).st.state
            true cstep.Name (.ref ⟨step.Name, k⟩)
          = .ok ("$\x7b" ++ ToUpper lib f.Name ++ "_" ++ ToUpper lib k ++ "\x7d")
        ∧ ∀ args, resolveArgs inputs
            (scriptSteps lib self inputs (pre ++ step :: mid) ⟨scriptHeader inputs, []⟩).st.state
            true cstep.Name impl.Args = .ok args →
          args.toList[j]? = some ("$\x7b" ++ ToUpper lib f.Name ++ "_" ++ ToUpper lib k ++ "\x7d"))
    ∧ "$\x7b" ++ ToUpper lib "gen" ++ "_" ++ ToUpper lib "yamlPath" ++ "\x7d" = "$\x7bGEN_YAMLPATH\x7d" := by
  have hstep := scriptStep_func lib self inputs step
    (scriptSteps lib self inputs pre ⟨scriptHeader inputs, []⟩).st f hrun
  refine ⟨by rw [hstep], by rw [hstep], ?_, Quote_plain lib step.Name, fun body => ?_,
    fun mid rest cstep impl k j hpost hc hne hmid hk hj hok => ?_, rfl⟩
  · obtain ⟨e1, k1, k2⟩ := scriptSteps_lines lib self inputs pre ⟨scriptHeader inputs, []⟩
    obtain ⟨e3, k5, _⟩ := scriptSteps_lines lib self inputs post
      (scriptStep lib self inputs step (scriptSteps lib self inputs pre ⟨scriptHeader inputs, []⟩).st).st
    have hlen := k2 hpre
    have hw : (WriteBashScript lib self p inputs).st.lines =
        (scriptHeader inputs ++ e1) ++ [self ++ " run-task-step " ++ Quote lib step.Name] ++ e3 := by
      unfold WriteBashScript
      rw [hsteps, scriptSteps_append]
      rcases h1 : scriptSteps lib self inputs pre ⟨scriptHeader inputs, []⟩ with ⟨s1, _ | e⟩
      · rw [h1] at k1 k5 hstep
        simp only [scriptSteps, hstep]
        simp only [hstep] at k5
        rw [k5, k1]
      · rw [h1] at hpre; simp at hpre
    have hidx : 2 + inputs.m.length + pre.length = (scriptHeader inputs ++ e1).length := by
      simp [scriptHeader, hlen]; omega
    rw [hw, hidx, List.append_assoc (scriptHeader inputs ++ e1),
      List.getElem?_append_right (le_refl _)]
    simp
  · unfold WriteBashScript
    simp only [hsteps, scriptSteps_append]
    rcases h1 : scriptSteps lib self inputs pre ⟨scriptHeader inputs, []⟩ with ⟨s1, _ | e⟩
    · simp only [scriptSteps]
      rw [scriptStep_func lib self inputs step s1 f hrun,
        scriptStep_func lib self inputs { step with Run := .func { f with F := body } } s1
          { f with F := body } rfl]
    · rfl
  · have hmain : List.lookup step.Name
        (scriptSteps lib self inputs (pre ++ step :: mid) ⟨scriptHeader inputs, []⟩).st.state =
        some (f.Outputs.foldl (fun outputs o => GoMap.set outputs o (placeholder lib f.Name o)) []) := by
      obtain ⟨_, h2⟩ := scriptSteps_err_append lib self inputs pre (step :: mid) _ hok
      rw [h2] at hok ⊢
      obtain ⟨_, h4⟩ := scriptSteps_cons_err lib self inputs step mid _ hok
      rw [h4, scriptSteps_lookup lib self inputs mid _ step.Name hmid, hstep]
      simp [lookup_set]
    have hres : resolveArg inputs
        (scriptSteps lib self inputs (pre ++ step :: mid) ⟨scriptHeader inputs, []⟩).st.state
        true cstep.Name (.ref ⟨step.Name, k⟩)
        = .ok ("$\x7b" ++ ToUpper lib f.Name ++ "_" ++ ToUpper lib k ++ "\x7d") := by
      simp only [resolveArg, hne, if_false, hmain, lookup_foldl_set, hk, if_true, placeholder]
    refine ⟨hres, fun args hargs => ?_⟩
    obtain ⟨vs, hv1, hv2⟩ := resolveLoop_ok _ _ _ _ _ _ _ hargs
    have hnil : StrSlice.nil.toList = [] := rfl
    rw [hnil, List.nil_append] at hv1
    have hj1 : j < impl.Args.length := by
      by_contra hcon
      rw [List.getElem?_eq_none (by omega)] at hj
      simp at hj
    have hjv : j < vs.length := by rw [← hv2.length_eq]; exact hj1
    have hget := hv2.get hj1 hjv
    simp only [List.get_eq_getElem] at hget
    have harg : impl.Args[j] = .ref ⟨step.Name, k⟩ := by
      rw [List.getElem?_eq_getElem hj1] at hj
      exact Option.some.inj hj
    rw [harg, hres] at hget
    rw [hv1, List.getElem?_eq_getElem hjv, ← Except.ok.inj hget]

/-- C7, amended, on `myScriptTask`: its step `generate workflow` is reached and compiles
to one line. -/
theorem WriteBashScript_func_step_witness :
    (WriteBashScript GoLib.ascii "acc.test" myScriptTask seedInputs).st.lines[2 + 1 + 5]?
      = some ("acc.test" ++ " run-task-step " ++ "\"generate workflow\"") :=
  (WriteBashScript_func_step GoLib.ascii "acc.test" myScriptTask seedInputs
    (myScriptTask.Steps.take 5) (myScriptTask.Steps.drop 6)
    ⟨"generate workflow", .func ⟨"gen", genWorkflowBody, ["yamlPath"]⟩,
      (Values.mk "generate workflow" none).Def "yamlPath"⟩
    ⟨"gen", genWorkflowBody, ["yamlPath"]⟩ rfl rfl rfl).2.2.1

theorem runSteps_snoc {σ : Type} (t : Target σ) (inputs : mapInputs) (pre : List TaskStep)
    (q : TaskStep) (i : Nat) (s : RunState σ) (hpre : (runSteps t inputs i pre s).err = none) :
    runSteps t inputs i (pre ++ [q]) s =
      runStep t inputs (i + pre.length) q (runSteps t inputs i pre s).st := by
  rw [runSteps_append]
  rcases h1 : runSteps t inputs i pre s with ⟨s1, _ | e⟩
  · simp only [runSteps]
    rcases runStep t inputs (i + pre.length) q s1 with ⟨s2, _ | e⟩ <;> rfl
  · rw [h1] at hpre; simp at hpre

theorem scriptSteps_snoc (lib : GoLib) (self : String) (inputs : mapInputs)
    (pre : List TaskStep) (q : TaskStep) (s : ScriptState)
    (hpre : (scriptSteps lib self inputs pre s).err = none) :
    scriptSteps lib self inputs (pre ++ [q]) s =
      scriptStep lib self inputs q (scriptSteps lib self inputs pre s).st := by
  rw [scriptSteps_append]
  rcases h1 : scriptSteps lib self inputs pre s with ⟨s1, _ | e⟩
  · simp only [scriptSteps]
    rcases scriptStep lib self inputs q s1 with ⟨s2, _ | e⟩ <;> rfl
  · rw [h1] at hpre; simp at hpre

theorem runStep_func_ok {σ : Type} (t : Target σ) (inputs : mapInputs) (i : Nat)
    (q : TaskStep) (s : RunState σ) (f : Func) (hq : q.Run = .func f)
    (h : (runStep t inputs i q s).err = none) :
    (runStep t inputs i q s).st.state =
      GoMap.set s.state q.Name (runBody t inputs q.Name i f.F [] s.calls s.tgt).outputs := by
  unfold runStep at h ⊢
  rw [hq] at h ⊢
  simp only at h ⊢
  cases hb : (runBody t inputs q.Name i f.F [] s.calls s.tgt).err with
  | some e => rw [hb] at h; simp at h
  | none => rfl

/-- C8 as stated fails on the task of `MyScript`: both backends complete, and for the step
`generate workflow`, which declares the output `yamlPath` alone, `RunTask` records the
keys `echoTest` and `yamlPath` that the body sets, `WriteBashScript` the key
`yamlPath`. -/
theorem output_keys_differ_on_MyScript :
    (RunTask myScriptTask echoTarget seedInputs 0).err = none
    ∧ (WriteBashScript GoLib.ascii "acc.test" myScriptTask seedInputs).err = none
    ∧ (List.lookup "generate workflow" (RunTask myScriptTask echoTarget seedInputs 0).st.state).map
        (fun outs => outs.map Prod.fst) = some ["echoTest", "yamlPath"]
    ∧ (List.lookup "generate workflow"
        (WriteBashScript GoLib.ascii "acc.test" myScriptTask seedInputs).st.state).map
        (fun outs => outs.map Prod.fst) = some ["yamlPath"] := by
  refine ⟨rfl, rfl, by decide, by decide⟩

theorem lookup_append_orElse {β : Type} (a b : List (String × β)) (k : String) :
    List.lookup k (a ++ b) = (List.lookup k a).orElse (fun _ => List.lookup k b) := by
  induction a with
  | nil => simp
  | cons e es ih =>
    obtain ⟨x, y⟩ := e
    rw [List.cons_append, lookup_cons_ite, lookup_cons_ite]
    by_cases h : k = x
    · simp [h]
    · simp only [h, if_false]
      exact ih

theorem lookup_some_iff_mem_keys {β : Type} (l : List (String × β)) (k : String) :
    (∃ v, List.lookup k l = some v) ↔ k ∈ l.map Prod.fst := by
  induction l with
  | nil => simp
  | cons e es ih =>
    obtain ⟨x, y⟩ := e
    rw [lookup_cons_ite]
    by_cases h : k = x
    · simp [h]
    · simp only [h, if_false, List.map_cons, List.mem_cons, false_or]
      exact ih

theorem lookup_foldl_pairs (l : List (String × String)) (m : GoMap String) (k : String) :
    List.lookup k (l.foldl (fun m kv => GoMap.set m kv.1 kv.2) m) =
      (List.lookup k l.reverse).orElse (fun _ => List.lookup k m) := by
  induction l generalizing m with
  | nil => simp
  | cons e es ih =>
    rw [List.foldl_cons, ih, List.reverse_cons, lookup_append_orElse, lookup_set]
    obtain ⟨x, y⟩ := e
    cases List.lookup k es.reverse with
    | some v => rfl
    | none =>
      simp only [Option.orElse, lookup_cons_ite]
      by_cases h : k = x
      · simp [h]
      · simp [h]

theorem runBody_outputs {σ : Type} (t : Target σ) (inputs : mapInputs) (name : String) (i : Nat)
    (body : FuncBody) (outputs : GoMap String) (calls : List Call) (tgt : σ) :
    (runBody t inputs name i body outputs calls tgt).outputs =
      (setCalls t inputs body tgt).foldl (fun m kv => GoMap.set m kv.1 kv.2) outputs := by
  induction body generalizing outputs calls tgt with
  | ret err => rfl
  | fault e => rfl
  | set key val next ih =>
    simp only [runBody, setCalls, List.foldl_cons]
    exact ih _ _ _
  | get key next ih =>
    simp only [runBody, setCalls, mapInputs.get]
    cases List.lookup key inputs.m with
    | none => rfl
    | some v => exact ih v _ _ _
  | exec cmd next ih =>
    simp only [runBody, setCalls]
    rcases h : t.Execute tgt cmd (sprintArgs cmd.Args) with ⟨_ | _, tgt1⟩
    · exact ih _ _ _ _
    · exact ih _ _ _ _

/-- C8, amended: on a task and input set on which both backends complete, each backend
records a set of outputs for every step. For a `Command` step both record the one key
`stdout`. For a `Func` step `WriteBashScript` records exactly the declared output keys,
and `RunTask` records exactly the keys that the body has passed to `ctx.Set`, each with
the value of the last such call; so the two sets of keys are equal whenever the keys
that the body has set are exactly its declared output keys. -/
theorem output_keys_agree {σ : Type} (lib : GoLib) (self : String) (p : Task) (t : Target σ)
    (inputs : mapInputs) (tgt : σ) (pre post : List TaskStep) (step : TaskStep)
    (hsteps : p.Steps = pre ++ step :: post)
    (hok : (RunTask p t inputs tgt).err = none)
    (hscript : (WriteBashScript lib self p inputs).err = none) :
    ∃ ran compiled : GoMap String,
      List.lookup step.Name (runSteps t inputs 0 (pre ++ [step]) (RunState.init tgt)).st.state
        = some ran
      ∧ List.lookup step.Name
          (scriptSteps lib self inputs (pre ++ [step]) ⟨scriptHeader inputs, []⟩).st.state
        = some compiled
      ∧ (∀ impl, step.Run = .command impl →
          ran.map Prod.fst = ["stdout"] ∧ compiled.map Prod.fst = ["stdout"])
      ∧ (∀ f, step.Run = .func f →
          (∀ k, (∃ v, List.lookup k compiled = some v) ↔ k ∈ f.Outputs)
          ∧ (∀ k, (∃ v, List.lookup k ran = some v) ↔
              k ∈ (setCalls t inputs f.F
                (runSteps t inputs 0 pre (RunState.init tgt)).st.tgt).map Prod.fst)
          ∧ (∀ k, List.lookup k ran =
              List.lookup k (setCalls t inputs f.F
                (runSteps t inputs 0 pre (RunState.init tgt)).st.tgt).reverse)
          ∧ ((∀ k, k ∈ (setCalls t inputs f.F
                (runSteps t inputs 0 pre (RunState.init tgt)).st.tgt).map Prod.fst
                ↔ k ∈ f.Outputs) →
              ∀ k, (∃ v, List.lookup k ran = some v) ↔ ∃ v, List.lookup k compiled = some v)) := by
  unfold RunTask at hok
  unfold WriteBashScript at hscript
  rw [hsteps] at hok hscript
  obtain ⟨hpre, h2⟩ := runSteps_err_append t inputs pre (step :: post) 0 _ hok
  rw [h2] at hok
  obtain ⟨h3, _⟩ := runSteps_cons_err t inputs step post (0 + pre.length) _ hok
  obtain ⟨kpre, k2⟩ := scriptSteps_err_append lib self inputs pre (step :: post) _ hscript
  rw [k2] at hscript
  obtain ⟨k3, _⟩ := scriptSteps_cons_err lib self inputs step post _ hscript
  rw [runSteps_snoc t inputs pre step 0 _ hpre, scriptSteps_snoc lib self inputs pre step _ kpre]
  cases hrun : step.Run with
  | command impl =>
    obtain ⟨args, res, _, _, _, _, h7⟩ :=
      runStep_command_ok t inputs (0 + pre.length) step _ impl hrun h3
    obtain ⟨args1, _, k6⟩ := scriptStep_command_ok lib self inputs step _ impl hrun k3
    refine ⟨[("stdout", (t.CopyOut
          (t.Execute (runSteps t inputs 0 pre (RunState.init tgt)).st.tgt impl args).2
          res.Stdout).captured res.Stdout)],
      [("stdout", "example stdout of " ++ step.Name)],
      by rw [h7]; simp [lookup_set], by rw [k6]; simp [lookup_set],
      fun _ _ => ⟨rfl, rfl⟩, fun f hf => by simp at hf⟩
  | func f =>
    have h7 := runStep_func_ok t inputs (0 + pre.length) step _ f hrun h3
    rw [Nat.zero_add] at h7
    have k6 := scriptStep_func lib self inputs step
      (scriptSteps lib self inputs pre ⟨scriptHeader inputs, []⟩).st f hrun
    have hdecl : ∀ k, (∃ v, List.lookup k
        (f.Outputs.foldl (fun outputs o => GoMap.set outputs o (placeholder lib f.Name o)) [])
          = some v) ↔ k ∈ f.Outputs := by
      intro k
      rw [lookup_foldl_set]
      by_cases hk : k ∈ f.Outputs <;> simp [hk]
    have hval : ∀ k, List.lookup k (runBody t inputs step.Name pre.length f.F []
        (runSteps t inputs 0 pre (RunState.init tgt)).st.calls
        (runSteps t inputs 0 pre (RunState.init tgt)).st.tgt).outputs =
        List.lookup k (setCalls t inputs f.F
          (runSteps t inputs 0 pre (RunState.init tgt)).st.tgt).reverse := by
      intro k
      rw [runBody_outputs, lookup_foldl_pairs]
      cases List.lookup k (setCalls t inputs f.F
        (runSteps t inputs 0 pre (RunState.init tgt)).st.tgt).reverse <;> rfl
    have hkeys : ∀ k, (∃ v, List.lookup k (runBody t inputs step.Name pre.length f.F []
        (runSteps t inputs 0 pre (RunState.init tgt)).st.calls
        (runSteps t inputs 0 pre (RunState.init tgt)).st.tgt).outputs = some v) ↔
        k ∈ (setCalls t inputs f.F
          (runSteps t inputs 0 pre (RunState.init tgt)).st.tgt).map Prod.fst := by
      intro k
      rw [hval k, lookup_some_iff_mem_keys, List.map_reverse, List.mem_reverse]
    refine ⟨(runBody t inputs step.Name pre.length f.F []
        (runSteps t inputs 0 pre (RunState.init tgt)).st.calls
        (runSteps t inputs 0 pre (RunState.init tgt)).st.tgt).outputs,
      f.Outputs.foldl (fun outputs o => GoMap.set outputs o (placeholder lib f.Name o)) [],
      by rw [Nat.zero_add, h7]; simp [lookup_set], by rw [k6]; simp [lookup_set],
      fun impl hi => by simp at hi, fun g hg => ?_⟩
    have hfg : f = g := by
      simp only [TaskStepRun.func.injEq] at hg
      exact hg
    subst hfg
    exact ⟨hdecl, hkeys, hval, fun hbody k => by rw [hkeys k, hbody k, hdecl k]⟩
  | other =>
    unfold runStep at h3
    rw [hrun] at h3
    simp at h3

/-- C8, amended, on `seedPathTask`: the body of its `Func` step sets `yamlPath`, the one
output that the step declares, and both backends record that key and no other. -/
theorem output_keys_agree_witness :
    ∃ ran compiled : GoMap String,
      List.lookup "gen" (runSteps echoTarget seedInputs 0 seedPathTask.Steps (RunState.init 0)).st.state
        = some ran
      ∧ List.lookup "gen" (scriptSteps GoLib.ascii "acc.test" seedInputs seedPathTask.Steps
          ⟨scriptHeader seedInputs, []⟩).st.state = some compiled
      ∧ (∀ k, (∃ v, List.lookup k ran = some v) ↔ k ∈ ["yamlPath"])
      ∧ (∀ k, List.lookup k ran = List.lookup k [("yamlPath", "someseed.yaml")])
      ∧ (∀ k, (∃ v, List.lookup k ran = some v) ↔ ∃ v, List.lookup k compiled = some v) :=
  match output_keys_agree GoLib.ascii "acc.test" seedPathTask echoTarget seedInputs 0 [] []
    ⟨"gen", .func ⟨"gen", .get "seed" (fun v => .set "yamlPath" (v ++ ".yaml") (.ret none)),
        ["yamlPath"]⟩,
      (Values.mk "gen" none).Def "yamlPath"⟩ rfl rfl rfl with
  | ⟨ran, compiled, h1, h2, _, h4⟩ =>
    ⟨ran, compiled, h1, h2, (h4 _ rfl).2.1, (h4 _ rfl).2.2.1,
      (h4 _ rfl).2.2.2 (fun _ => Iff.rfl)⟩

theorem Def_foldl_Job (keys : List String) (v : Values) :
    (keys.foldl (fun vals key => vals.Def key) v).Job = v.Job := by
  induction keys generalizing v with
  | nil => rfl
  | cons k ks ih => rw [List.foldl_cons, ih]; rfl

theorem Get_eq_of_declared (v : Values) (key : String) (h : ∃ ref, v.Get key = .ok ref) :
    v.Get key = .ok ⟨v.Job, key⟩ := by
  rw [declares_iff] at h
  unfold Values.Get
  cases hl : List.lookup key (v.exprs.getD []) with
  | none => exact absurd hl h
  | some u => rfl

theorem Get_eq_of_not_declared (v : Values) (key : String) (h : ¬ ∃ ref, v.Get key = .ok ref) :
    v.Get key = .error ⟨v.Job, key⟩ := by
  rw [declares_iff, not_not] at h
  unfold Values.Get
  rw [h]

/-- C11: let a registry be the outcome of any number of calls of `Def` on a registry `v`.
For a key `k` that one of the calls declared, `Get` succeeds and returns the `Ref` of the
registry's `Job` and `k`, with the empty producer on the input registry of a builder. For
a key that none of the calls declared, `Get` answers as it does on `v`, and on a registry
on which `Def` was never called it returns no `Ref` and fails with the
`ValueNotDefinedError` of the registry's `Job` and `k`. `Get` leaves the registry it is
called on as it was. -/
theorem Values_Get_after_Def (v : Values) (keys : List String) (k : String) :
    (k ∈ keys →
      (keys.foldl (fun (vals : Values) key => vals.Def key) v).Get k = .ok ⟨v.Job, k⟩)
    ∧ (k ∈ keys → ∀ jobs cleanupJobs,
      TaskBuilder.Get
        ⟨jobs, cleanupJobs, keys.foldl (fun (vals : Values) key => vals.Def key) (Values.mk "" none)⟩ k
        = .ok ⟨"", k⟩)
    ∧ (k ∉ keys →
      (keys.foldl (fun (vals : Values) key => vals.Def key) v).Get k = v.Get k)
    ∧ (∀ job, (Values.mk job none).Get k = .error ⟨job, k⟩)
    ∧ (∀ w : Values, (w.GetRecv k).2 = w ∧ (w.GetRecv k).1 = w.Get k) := by
  have hdecl : ∀ w : Values, (∃ ref, (keys.foldl (fun (vals : Values) key => vals.Def key) w).Get k
      = .ok ref) ↔ k ∈ keys ∨ ∃ ref, w.Get k = .ok ref := fun w => declares_foldl keys w k
  refine ⟨fun hk => ?_, fun hk jobs cleanupJobs => ?_, fun hk => ?_, fun job => rfl, fun w => ?_⟩
  · rw [Get_eq_of_declared _ _ ((hdecl v).mpr (Or.inl hk)), Def_foldl_Job]
  · unfold TaskBuilder.Get
    simp only
    rw [Get_eq_of_declared _ _ ((hdecl _).mpr (Or.inl hk)), Def_foldl_Job]
  · by_cases hv : ∃ ref, v.Get k = .ok ref
    · rw [Get_eq_of_declared _ _ ((hdecl v).mpr (Or.inr hv)), Def_foldl_Job,
        Get_eq_of_declared _ _ hv]
    · have hn : ¬ ∃ ref, (keys.foldl (fun (vals : Values) key => vals.Def key) v).Get k = .ok ref :=
        fun h => ((hdecl v).mp h).elim hk hv
      rw [Get_eq_of_not_declared _ _ hn, Def_foldl_Job, Get_eq_of_not_declared _ _ hv]
  · unfold Values.GetRecv Values.Get
    cases List.lookup k (w.exprs.getD []) <;> exact ⟨rfl, rfl⟩

/-- C11, on the registry of a step `generate workflow` that declares `yamlPath`: `Get`
returns the `Ref` for `yamlPath` and fails for `echoTest`. -/
theorem Values_Get_after_Def_witness :
    ((["yamlPath"].foldl (fun (vals : Values) key => vals.Def key)
        (Values.mk "generate workflow" none)).Get "yamlPath"
        = .ok ⟨"generate workflow", "yamlPath"⟩)
    ∧ ((["yamlPath"].foldl (fun (vals : Values) key => vals.Def key)
        (Values.mk "generate workflow" none)).Get "echoTest"
        = .error ⟨"generate workflow", "echoTest"⟩) :=
  ⟨(Values_Get_after_Def (Values.mk "generate workflow" none) ["yamlPath"] "yamlPath").1 (by decide),
   ((Values_Get_after_Def (Values.mk "generate workflow" none) ["yamlPath"] "echoTest").2.2.1
      (by decide)).trans
    ((Values_Get_after_Def (Values.mk "generate workflow" none) ["yamlPath"] "echoTest").2.2.2.1
      "generate workflow")⟩

/-- C12: `Defer` with a runnable that is neither a `Command` nor a `Func` does not fail: it
appends the step to the end of the cleanup list, where `Do` on the same runnable panics
and leaves the builder as it was. `Defer` appends whatever runnable it is given. -/
theorem Defer_appends_unsupported (p : TaskBuilder) (name : String) :
    (p.Defer name .other).cleanupJobs = p.cleanupJobs ++ [⟨name, .other, (Values.mk "" none)⟩]
    ∧ (p.Defer name .other).jobs = p.jobs
    ∧ p.Do name .other = (.error .unsupportedTask, p)
    ∧ (∀ task, (p.Defer name task).cleanupJobs = p.cleanupJobs ++ [⟨name, task, (Values.mk "" none)⟩]) :=
  ⟨rfl, rfl, rfl, fun _ => rfl⟩

theorem runStep_func_eq {σ : Type} (t : Target σ) (inputs : mapInputs) (i : Nat)
    (q : TaskStep) (s : RunState σ) (f : Func) (hq : q.Run = .func f) :
    runStep t inputs i q s =
      match (runBody t inputs q.Name i f.F [] s.calls s.tgt).err with
      | some e => ⟨{ s with calls := (runBody t inputs q.Name i f.F [] s.calls s.tgt).calls,
                            tgt := (runBody t inputs q.Name i f.F [] s.calls s.tgt).tgt }, some e⟩
      | none => ⟨{ s with state := GoMap.set s.state q.Name
                            (runBody t inputs q.Name i f.F [] s.calls s.tgt).outputs,
                          calls := (runBody t inputs q.Name i f.F [] s.calls s.tgt).calls,
                          tgt := (runBody t inputs q.Name i f.F [] s.calls s.tgt).tgt }, none⟩ := by
  unfold runStep
  rw [hq]

/-- C13 as stated fails on `getStdoutTask`: when its `Func` step is reached, a reference to
the output `stdout` of the first step resolves under the command rules, yet `ctx.Get` on
`stdout` aborts the run, because no input of that name is supplied. -/
theorem ctx_Get_ignores_step_outputs :
    (runSteps echoTarget seedInputs 0 (getStdoutTask.Steps.take 1) (RunState.init 0)).err = none
    ∧ (resolveArg seedInputs
        (runSteps echoTarget seedInputs 0 (getStdoutTask.Steps.take 1) (RunState.init 0)).st.state
        false "second" (.ref ⟨"first", "stdout"⟩)).toOption = some "echo hello\n"
    ∧ (RunTask getStdoutTask echoTarget seedInputs 0).err.isSome = true
    ∧ List.lookup "second" (RunTask getStdoutTask echoTarget seedInputs 0).st.state = none := by
  refine ⟨rfl, by decide, rfl, by decide⟩

theorem runBody_eq_specBody {σ : Type} (t : Target σ) (inputs : mapInputs) (state : StepState)
    (name : String) (i : Nat) (body : FuncBody) (outputs : GoMap String) (calls : List Call)
    (tgt : σ) :
    runBody t inputs name i body outputs calls tgt =
      specBody t (fun key => resolveArg inputs state false name (.ref ⟨"", key⟩)) i body
        outputs calls tgt := by
  induction body generalizing outputs calls tgt with
  | ret err => rfl
  | fault e => rfl
  | set key val next ih =>
    simp only [runBody, specBody]
    exact ih _ _ _
  | get key next ih =>
    simp only [runBody, specBody, resolveArg, if_true, mapInputs.get]
    cases List.lookup key inputs.m with
    | none => rfl
    | some v => exact ih v _ _ _
  | exec cmd next ih =>
    rcases h : t.Execute tgt cmd (sprintArgs cmd.Args) with ⟨_ | _, tgt1⟩
    · simp only [runBody, specBody, h]
      exact ih _ _ _ _
    · simp only [runBody, specBody, h]
      exact ih _ _ _ _

theorem runBody_firstMissingGet {σ : Type} (t : Target σ) (inputs : mapInputs) (name : String)
    (i : Nat) (body : FuncBody) (key : String) (outputs : GoMap String) (calls : List Call)
    (tgt : σ) (h : firstMissingGet t inputs body tgt = some key) :
    (runBody t inputs name i body outputs calls tgt).err
      = some (.unhandledInFunc (.noInput name key)) := by
  induction body generalizing outputs calls tgt with
  | ret err => simp [firstMissingGet] at h
  | fault e => simp [firstMissingGet] at h
  | set k val next ih =>
    simp only [firstMissingGet] at h
    simp only [runBody]
    exact ih _ _ _ h
  | get k next ih =>
    simp only [firstMissingGet] at h
    simp only [runBody, mapInputs.get]
    cases hl : List.lookup k inputs.m with
    | none =>
      rw [hl] at h
      simp only [Option.some.injEq] at h
      rw [h]
    | some v =>
      rw [hl] at h
      exact ih v _ _ _ h
  | exec cmd next ih =>
    simp only [firstMissingGet] at h
    simp only [runBody]
    rcases hx : t.Execute tgt cmd (sprintArgs cmd.Args) with ⟨_ | _, tgt1⟩
    · rw [hx] at h
      exact ih _ _ _ _ h
    · rw [hx] at h
      exact ih _ _ _ _ h

/-- C13, amended: in a `Func` step run by `RunTask`, the body runs as on a context whose
`Get` is bound to the resolution, under the command rules, of the `Ref` with the empty
producer and the key asked for, whatever state the earlier steps have recorded: a call
`ctx.Get(key)`, at any point of the body, goes on with the input supplied for `key`,
and ends the body with the panic of the command rules, wrapped as an unhandled error,
when no input is supplied for it. So a body that comes to ask for a key with no input,
after whatever other calls, ends with that error, and the step, once reached, aborts the
run with it. -/
theorem ctx_Get_reads_inputs {σ : Type} (t : Target σ) (inputs : mapInputs) (instruction : String)
    (i : Nat) :
    (∀ (state : StepState) (body : FuncBody) (outputs : GoMap String) (calls : List Call)
        (tgt : σ),
      runBody t inputs instruction i body outputs calls tgt =
        specBody t (fun key => resolveArg inputs state false instruction (.ref ⟨"", key⟩)) i
          body outputs calls tgt)
    ∧ (∀ (key : String) (state : StepState),
        (List.lookup key inputs.m = none →
          resolveArg inputs state false instruction (.ref ⟨"", key⟩)
            = .error (.noInput instruction key))
        ∧ (∀ v, List.lookup key inputs.m = some v →
          resolveArg inputs state false instruction (.ref ⟨"", key⟩) = .ok v))
    ∧ (∀ (key : String) (next : String → FuncBody) (state : StepState) (outputs : GoMap String)
        (calls : List Call) (tgt : σ),
      runBody t inputs instruction i (.get key next) outputs calls tgt =
        match resolveArg inputs state false instruction (.ref ⟨"", key⟩) with
        | .ok v => runBody t inputs instruction i (next v) outputs calls tgt
        | .error e => ⟨outputs, calls, tgt, some (.unhandledInFunc e)⟩)
    ∧ (∀ (key : String) (next : String → FuncBody) v (outputs : GoMap String)
        (calls : List Call) (tgt : σ),
      List.lookup key inputs.m = some v →
      runBody t inputs instruction i (.get key next) outputs calls tgt =
        runBody t inputs instruction i (next v) outputs calls tgt)
    ∧ (∀ (body : FuncBody) (key : String) (outputs : GoMap String) (calls : List Call) (tgt : σ),
      firstMissingGet t inputs body tgt = some key →
      (runBody t inputs instruction i body outputs calls tgt).err
        = some (.unhandledInFunc (.noInput instruction key)))
    ∧ (∀ (p : Task) (tgt : σ) (pre post : List TaskStep) (step : TaskStep) (f : Func)
        (key : String),
      p.Steps = pre ++ step :: post → step.Run = .func f → step.Name = instruction →
      (runSteps t inputs 0 pre (RunState.init tgt)).err = none →
      firstMissingGet t inputs f.F (runSteps t inputs 0 pre (RunState.init tgt)).st.tgt
        = some key →
      (RunTask p t inputs tgt).err = some (.unhandledInFunc (.noInput instruction key))) := by
  refine ⟨fun state body outputs calls tgt =>
      runBody_eq_specBody t inputs state instruction i body outputs calls tgt,
    fun key state => ⟨fun hk => ?_, fun v hv => ?_⟩,
    fun key next state outputs calls tgt => ?_, fun key next v outputs calls tgt hv => ?_,
    fun body key outputs calls tgt h =>
      runBody_firstMissingGet t inputs instruction i body key outputs calls tgt h,
    fun p tgt pre post step f key hsteps hrun hname hpre hk => ?_⟩
  · simp only [resolveArg, if_true, mapInputs.get, hk]
  · simp only [resolveArg, if_true, mapInputs.get, hv]
  · simp only [runBody, resolveArg, if_true, mapInputs.get]
    cases List.lookup key inputs.m <;> rfl
  · simp only [runBody, mapInputs.get, hv]
  · unfold RunTask
    rw [hsteps, runSteps_append]
    rcases h1 : runSteps t inputs 0 pre (RunState.init tgt) with ⟨s1, _ | e⟩
    · rw [h1] at hk
      simp only [runSteps]
      rw [runStep_func_eq t inputs (0 + pre.length) step s1 f hrun, hname,
        runBody_firstMissingGet t inputs instruction (0 + pre.length) f.F key [] s1.calls
          s1.tgt hk]
    · rw [h1] at hpre; simp at hpre

/-- C13, amended, on `lateGetTask`: the body of its `Func` step sets an output, reads the
supplied input `seed`, runs a command and then asks for `stdout`; no input of that name
is supplied, and the run aborts with the unhandled error. -/
theorem ctx_Get_reads_inputs_witness :
    (RunTask lateGetTask echoTarget seedInputs 0).err
      = some (.unhandledInFunc (.noInput "second" "stdout")) :=
  (ctx_Get_reads_inputs echoTarget seedInputs "second" 1).2.2.2.2.2 lateGetTask 0
    [⟨"first", .command ⟨"echo", [.str "hello"]⟩, ⟨"first", none⟩⟩] []
    ⟨"second",
      .func ⟨"f",
        .set "out" "x" (.get "seed" (fun v =>
          .exec ⟨"echo", [.str v]⟩ (fun _ =>
            .get "stdout" (fun w => .set "copy" w (.ret none))))),
        ["out"]⟩,
      ⟨"second", none⟩⟩
    ⟨"f",
      .set "out" "x" (.get "seed" (fun v =>
        .exec ⟨"echo", [.str v]⟩ (fun _ =>
          .get "stdout" (fun w => .set "copy" w (.ret none))))),
      ["out"]⟩
    "stdout" rfl rfl rfl rfl rfl

/-- C14 as stated fails on `unsetOutputTask`: the `Func` step returns without a panic and
has set nothing, its declared output `yamlPath` included; the `Ref` of the later command
to that output then does not resolve, to the empty string or to anything else, and the
run aborts before `Execute` is called. -/
theorem RunTask_unset_output_aborts :
    (runSteps echoTarget seedInputs 0 (unsetOutputTask.Steps.take 1) (RunState.init 0)).err = none
    ∧ List.lookup "gen"
        (runSteps echoTarget seedInputs 0 (unsetOutputTask.Steps.take 1) (RunState.init 0)).st.state
        = some []
    ∧ (resolveArg seedInputs
        (runSteps echoTarget seedInputs 0 (unsetOutputTask.Steps.take 1) (RunState.init 0)).st.state
        false "use" (.ref ⟨"gen", "yamlPath"⟩)).toOption = none
    ∧ (RunTask unsetOutputTask echoTarget seedInputs 0).err.isSome = true
    ∧ (RunTask unsetOutputTask echoTarget seedInputs 0).st.calls.length = 0 := by
  refine ⟨rfl, by decide, by decide, rfl, rfl⟩

/-- C14, amended: let the body of a `Func` step with a name that is not empty return without
having set the key `k` (one of its declared outputs, say), and let a later `Command` step
have an argument that is a `Ref` to that step and `k`, no step in between bearing the
name of the `Func` step. Then `RunTask` aborts: the `Ref` does not resolve, the panic
being that the step does not have an output named `k` when the `Command` step is
reached, and no call of `Target.Execute` is made for the `Command` step or a later
one. -/
theorem RunTask_aborts_on_unset_output {σ : Type} (p : Task) (t : Target σ) (inputs : mapInputs)
    (tgt : σ) (pre mid post : List TaskStep) (fstep cstep : TaskStep) (f : Func)
    (impl : Command) (k : String)
    (hsteps : p.Steps = pre ++ fstep :: (mid ++ cstep :: post))
    (hf : fstep.Run = .func f) (hname : fstep.Name ≠ "")
    (hmid : ∀ x ∈ mid, x.Name ≠ fstep.Name)
    (hc : cstep.Run = .command impl) (hmem : Arg.ref ⟨fstep.Name, k⟩ ∈ impl.Args)
    (hunset : List.lookup k (runBody t inputs fstep.Name pre.length f.F []
        (runSteps t inputs 0 pre (RunState.init tgt)).st.calls
        (runSteps t inputs 0 pre (RunState.init tgt)).st.tgt).outputs = none) :
    (RunTask p t inputs tgt).err ≠ none
    ∧ (∀ c ∈ (RunTask p t inputs tgt).st.calls, c.step < pre.length + 1 + mid.length)
    ∧ ((runSteps t inputs 0 (pre ++ fstep :: mid) (RunState.init tgt)).err = none →
        resolveArg inputs (runSteps t inputs 0 (pre ++ fstep :: mid) (RunState.init tgt)).st.state
          false cstep.Name (.ref ⟨fstep.Name, k⟩) = .error (.noOutput none fstep.Name k)) := by
  have hassoc : pre ++ fstep :: (mid ++ cstep :: post) = (pre ++ fstep :: mid) ++ cstep :: post := by
    simp
  obtain ⟨before, hb1, hb2⟩ := runSteps_calls t inputs (pre ++ fstep :: mid) 0 (RunState.init tgt)
  have hbefore : ∀ c ∈ (runSteps t inputs 0 (pre ++ fstep :: mid) (RunState.init tgt)).st.calls,
      c.step < pre.length + 1 + mid.length := by
    intro c hc
    rw [hb1] at hc
    simp only [RunState.init, List.nil_append] at hc
    have := (hb2 c hc).2
    simp only [List.length_append, List.length_cons] at this
    omega
  have hres : (runSteps t inputs 0 (pre ++ fstep :: mid) (RunState.init tgt)).err = none →
      resolveArg inputs (runSteps t inputs 0 (pre ++ fstep :: mid) (RunState.init tgt)).st.state
        false cstep.Name (.ref ⟨fstep.Name, k⟩) = .error (.noOutput none fstep.Name k) := by
    intro hok
    obtain ⟨hpre, h2⟩ := runSteps_err_append t inputs pre (fstep :: mid) 0 _ hok
    rw [h2] at hok ⊢
    obtain ⟨h3, h4⟩ := runSteps_cons_err t inputs fstep mid (0 + pre.length) _ hok
    have h7 := runStep_func_ok t inputs (0 + pre.length) fstep _ f hf h3
    rw [Nat.zero_add] at h7
    have hlook : List.lookup fstep.Name (runSteps t inputs (0 + pre.length) (fstep :: mid)
        (runSteps t inputs 0 pre (RunState.init tgt)).st).st.state
        = some (runBody t inputs fstep.Name pre.length f.F []
            (runSteps t inputs 0 pre (RunState.init tgt)).st.calls
            (runSteps t inputs 0 pre (RunState.init tgt)).st.tgt).outputs := by
      rw [h4, runSteps_lookup t inputs mid _ _ fstep.Name hmid]
      simp only [Nat.zero_add]
      rw [h7]
      simp [lookup_set]
    simp only [resolveArg, hname, if_false, hlook, hunset]
    rfl
  refine ⟨?_, ?_, hres⟩
  · unfold RunTask
    rw [hsteps, hassoc, runSteps_append]
    rcases h1 : runSteps t inputs 0 (pre ++ fstep :: mid) (RunState.init tgt) with ⟨s1, _ | e⟩
    · rw [h1] at hres
      obtain ⟨e, he⟩ := resolveLoop_error_of_mem inputs s1.state false cstep.Name impl.Args .nil
        (.ref ⟨fstep.Name, k⟩) hmem (fun v hv => by rw [hres rfl] at hv; simp at hv)
      have hstep := runStep_command_err t inputs (0 + (pre ++ fstep :: mid).length) cstep s1 impl
        hc e he
      simp only [runSteps, hstep]
      simp
    · simp
  · unfold RunTask
    rw [hsteps, hassoc, runSteps_append]
    rcases h1 : runSteps t inputs 0 (pre ++ fstep :: mid) (RunState.init tgt) with ⟨s1, _ | e⟩
    · rw [h1] at hres hbefore
      obtain ⟨e, he⟩ := resolveLoop_error_of_mem inputs s1.state false cstep.Name impl.Args .nil
        (.ref ⟨fstep.Name, k⟩) hmem (fun v hv => by rw [hres rfl] at hv; simp at hv)
      have hstep := runStep_command_err t inputs (0 + (pre ++ fstep :: mid).length) cstep s1 impl
        hc e he
      simp only [runSteps, hstep]
      exact hbefore
    · rw [h1] at hbefore
      exact hbefore

/-- C14, amended, on `unsetOutputTask`: the run aborts without a call of `Execute`. -/
theorem RunTask_aborts_on_unset_output_witness :
    (RunTask unsetOutputTask echoTarget seedInputs 0).err ≠ none
    ∧ ∀ c ∈ (RunTask unsetOutputTask echoTarget seedInputs 0).st.calls, c.step < 0 + 1 + 0 :=
  ⟨(RunTask_aborts_on_unset_output unsetOutputTask echoTarget seedInputs 0 [] [] []
      ⟨"gen", .func ⟨"gen", .ret none, ["yamlPath"]⟩, (Values.mk "gen" none).Def "yamlPath"⟩
      ⟨"use", .command ⟨"cat", [.ref ⟨"gen", "yamlPath"⟩]⟩, ⟨"use", none⟩⟩
      ⟨"gen", .ret none, ["yamlPath"]⟩ ⟨"cat", [.ref ⟨"gen", "yamlPath"⟩]⟩ "yamlPath"
      rfl rfl (by decide) (fun x hx => by simp at hx) rfl (List.mem_singleton.mpr rfl) rfl).1,
   (RunTask_aborts_on_unset_output unsetOutputTask echoTarget seedInputs 0 [] [] []
      ⟨"gen", .func ⟨"gen", .ret none, ["yamlPath"]⟩, (Values.mk "gen" none).Def "yamlPath"⟩
      ⟨"use", .command ⟨"cat", [.ref ⟨"gen", "yamlPath"⟩]⟩, ⟨"use", none⟩⟩
      ⟨"gen", .ret none, ["yamlPath"]⟩ ⟨"cat", [.ref ⟨"gen", "yamlPath"⟩]⟩ "yamlPath"
      rfl rfl (by decide) (fun x hx => by simp at hx) rfl (List.mem_singleton.mpr rfl) rfl).2.1⟩

theorem splitChars_length_pos (sep : List Char) (l : List Char) (skip : Nat) (cur : List Char) :
    0 < (splitChars sep l skip cur).length := by
  induction l generalizing skip cur with
  | nil => simp [splitChars]
  | cons c cs ih =>
    cases skip with
    | succ n => simp only [splitChars]; exact ih n cur
    | zero =>
      simp only [splitChars]
      split
      · simp
      · exact ih 0 _

theorem splitChars_single (sep : List Char) (l : List Char) (cur : List Char)
    (h : (splitChars sep l 0 cur).length = 1) :
    splitChars sep l 0 cur = [cur.reverse ++ l] := by
  induction l generalizing cur with
  | nil => simp [splitChars]
  | cons c cs ih =>
    simp only [splitChars] at h ⊢
    split at h
    · rename_i hp
      simp only [List.length_cons] at h
      have := splitChars_length_pos sep cs (sep.length - 1) []
      omega
    · rename_i hp
      simp only [hp]
      rw [ih (c :: cur) h]
      simp

theorem Split_single (s sep : String) (h : (Split s sep).length ≤ 1) : Split s sep = [s] := by
  unfold Split at h ⊢
  have hpos := splitChars_length_pos sep.data s.data 0 []
  have h1 : (splitChars sep.data s.data 0 []).length = 1 := by
    simp only [List.length_map] at h; omega
  rw [splitChars_single _ _ _ h1]
  rfl

theorem matchLine_ok (line matched : String) : ∃ r, matchLine line matched = .ok r := by
  unfold matchLine
  split
  · exact ⟨_, rfl⟩
  · rename_i hc
    simp only [Bool.not_eq_true, Bool.not_eq_false'] at hc
    have hsecond : ∀ last : String, (Split line ": ").getLastD "" = last →
        Contains last LogPrefix = false → ∃ tok, (Split line ": ").reverse.get? 1 = some tok := by
      intro last hlast hno
      cases hg : (Split line ": ").reverse.get? 1 with
      | some tok => exact ⟨tok, rfl⟩
      | none =>
        exfalso
        rw [List.get?_eq_none] at hg
        simp only [List.length_reverse] at hg
        have hs := Split_single line ": " (by omega)
        rw [hs] at hlast
        simp only [List.getLastD_cons, List.getLastD_nil] at hlast
        rw [hlast] at hc
        rw [hc] at hno
        exact Bool.noConfusion hno
    simp only
    split
    · rename_i h1
      obtain ⟨tok, htok⟩ := hsecond _ h1 (by decide)
      rw [htok]
      exact ⟨_, rfl⟩
    · split
      · rename_i h2
        obtain ⟨tok, htok⟩ := hsecond _ h2 (by decide)
        rw [htok]
        exact ⟨_, rfl⟩
      · exact ⟨_, rfl⟩

theorem matchLines_ok (lines : List String) (matched : String) :
    ∃ r, matchLines lines matched = .ok r := by
  induction lines generalizing matched with
  | nil => exact ⟨matched, rfl⟩
  | cons l rest ih =>
    obtain ⟨⟨m, b⟩, hr⟩ := matchLine_ok l matched
    simp only [matchLines, hr]
    cases b with
    | true => exact ⟨m, rfl⟩
    | false => exact ih m

theorem containsChars_append_left (sub a l : List Char) (h : containsChars sub l = true) :
    containsChars sub (a ++ l) = true := by
  induction a with
  | nil => exact h
  | cons c cs ih => simp [containsChars, ih]

theorem containsChars_self_append (sub b : List Char) : containsChars sub (sub ++ b) = true := by
  cases hl : sub ++ b with
  | nil =>
    have : sub = [] := (List.append_eq_nil.mp hl).1
    simp [containsChars, this]
  | cons c cs =>
    simp only [containsChars, Bool.or_eq_true]
    left
    rw [← hl, List.isPrefixOf_iff_prefix]
    exact List.prefix_append sub b

theorem Contains_wrappedExit (exitErr : String) (exitCode : Int) (combined : String) :
    Contains (ExecErr.wrappedExit exitErr exitCode combined).Error LogPrefix = true := by
  unfold Contains ExecErr.Error
  simp only [String.data_append, List.append_assoc]
  exact containsChars_append_left _ _ _
    (containsChars_append_left _ _ _ (containsChars_self_append _ _))

theorem matchLine_inert (line matched : String)
    (h : Contains line LogPrefix = false
      ∨ ((Split line ": ").getLastD "" ≠ "command not found"
        ∧ (Split line ": ").getLastD "" ≠ "executable file not found in $PATH")) :
    matchLine line matched = .ok (matched, false) := by
  unfold matchLine
  rcases h with h | ⟨h1, h2⟩
  · simp [h]
  · split
    · rfl
    · simp only [h1, h2, if_false]

theorem matchLine_break (line matched m : String) (h : matchLine line matched = .ok (m, true)) :
    Contains line LogPrefix = true ∧ (Split line ": ").getLastD "" = "command not found" := by
  unfold matchLine at h
  split at h
  · simp at h
  · rename_i hc
    simp only at h
    split at h
    · rename_i h1
      exact ⟨by simpa using hc, h1⟩
    · split at h
      · split at h <;> simp at h
      · simp at h

theorem matchLine_command_not_found (line matched tok : String) (toks : List String)
    (hc : Contains line LogPrefix = true)
    (ht : Split line ": " = toks ++ [tok, "command not found"]) :
    matchLine line matched = .ok (tok, true) := by
  unfold matchLine
  simp [hc, ht]

theorem matchLine_not_in_path (line matched tok : String) (toks : List String)
    (hc : Contains line LogPrefix = true)
    (ht : Split line ": " = toks ++ [tok, "executable file not found in $PATH"]) :
    matchLine line matched = .ok (TrimLeftQuote (TrimRightQuote tok), false) := by
  unfold matchLine
  simp [hc, ht]

theorem matchLines_skip (pre : List String) (matched : String)
    (hpre : ∀ l ∈ pre, Contains l LogPrefix = false
      ∨ (Split l ": ").getLastD "" ≠ "command not found") :
    ∃ m1, ∀ rest, matchLines (pre ++ rest) matched = matchLines rest m1 := by
  induction pre generalizing matched with
  | nil => exact ⟨matched, fun _ => rfl⟩
  | cons l ls ih =>
    obtain ⟨⟨m, b⟩, hr⟩ := matchLine_ok l matched
    cases b with
    | true =>
      exfalso
      obtain ⟨h1, h2⟩ := matchLine_break l matched m hr
      rcases hpre l (List.mem_cons_self _ _) with h | h
      · rw [h1] at h
        exact Bool.noConfusion h
      · exact h h2
    | false =>
      obtain ⟨m1, h1⟩ := ih m (fun x hx => hpre x (List.mem_cons_of_mem _ hx))
      exact ⟨m1, fun rest => by
        simp only [List.cons_append, matchLines, hr]
        exact h1 rest⟩

theorem matchLines_inert (lines : List String) (matched : String)
    (h : ∀ l ∈ lines, Contains l LogPrefix = false
      ∨ ((Split l ": ").getLastD "" ≠ "command not found"
        ∧ (Split l ": ").getLastD "" ≠ "executable file not found in $PATH")) :
    matchLines lines matched = .ok matched := by
  induction lines with
  | nil => rfl
  | cons l rest ih =>
    simp only [matchLines, matchLine_inert l matched (h l (List.mem_cons_self _ _))]
    exact ih (fun x hx => h x (List.mem_cons_of_mem _ hx))

theorem matchLines_command_not_found (pre post : List String) (line matched tok : String)
    (toks : List String)
    (hpre : ∀ l ∈ pre, Contains l LogPrefix = false
      ∨ (Split l ": ").getLastD "" ≠ "command not found")
    (hc : Contains line LogPrefix = true)
    (ht : Split line ": " = toks ++ [tok, "command not found"]) :
    matchLines (pre ++ line :: post) matched = .ok tok := by
  obtain ⟨m1, h1⟩ := matchLines_skip pre matched hpre
  rw [h1]
  simp only [matchLines, matchLine_command_not_found line m1 tok toks hc ht]

theorem matchLines_not_in_path (pre post : List String) (line matched tok : String)
    (toks : List String)
    (hpre : ∀ l ∈ pre, Contains l LogPrefix = false
      ∨ (Split l ": ").getLastD "" ≠ "command not found")
    (hpost : ∀ l ∈ post, Contains l LogPrefix = false
      ∨ ((Split l ": ").getLastD "" ≠ "command not found"
        ∧ (Split l ": ").getLastD "" ≠ "executable file not found in $PATH"))
    (hc : Contains line LogPrefix = true)
    (ht : Split line ": " = toks ++ [tok, "executable file not found in $PATH"]) :
    matchLines (pre ++ line :: post) matched = .ok (TrimLeftQuote (TrimRightQuote tok)) := by
  obtain ⟨m1, h1⟩ := matchLines_skip pre matched hpre
  rw [h1]
  simp only [matchLines, matchLine_not_in_path line m1 tok toks hc ht]
  exact matchLines_inert post _ hpost

theorem translate_cases (path : String) (err : ExecErr) :
    translate path err = .exec err ∨ (∃ m, translate path err = .notFoundVia m path)
      ∨ translate path err = .executableNotFound path := by
  unfold translate
  simp only
  split
  · obtain ⟨r, hr⟩ := matchLines_ok (Split err.Error "\n") ""
    rw [hr]
    simp only
    split
    · exact Or.inl rfl
    · exact Or.inr (Or.inl ⟨r, rfl⟩)
  · split
    · exact Or.inr (Or.inr rfl)
    · exact Or.inl rfl

/-- C15 as stated fails on `bash -c "echo starting; foo"`, run on the harness that allows
`bash`: the process exits with status 127, the message of the failure reports
`command not found` on the second line of the combined output, a line that does not
hold the log prefix, and `Execute` re-raises the error as it is. -/
theorem Execute_reraises_late_not_found :
    RunExecCmd shellOS () ⟨"bash", ["-c", "echo starting; foo"], ["PATH=/tmp/bin"]⟩
      = (.error lateNotFoundErr, ())
    ∧ Contains lateNotFoundErr.Error "command not found" = true
    ∧ translate "bash" lateNotFoundErr = .exec lateNotFoundErr
    ∧ (Runtime.Execute GoLib.ascii (RunExecCmd shellOS) kubectlRuntime ()
        ⟨"bash", [.str "-c", .str "echo starting; foo"]⟩ (.mk ["-c", "echo starting; foo"])).1
      = .error (.exec lateNotFoundErr) := by
  refine ⟨rfl, by decide, rfl, rfl⟩

/-- C15, amended: when the process runner returns a failure, `Execute` raises its
translation, and the translation never faults (the second-to-last token is there
whenever it is read). When the message holds the log prefix, the lines that hold the
prefix are read in order. The first of them that ends, after its last `: `, in
`command not found` decides: the token before it names the binary, and the translated
diagnostic is raised when that token is not empty. When no such line ends in
`command not found`, the last of them that ends in `executable file not found in $PATH`
decides: the token before it, without the double quotes around it, names the binary,
and the translated diagnostic is raised when that name is not empty. When the message
does not hold the log prefix and contains `executable file not found`, the translated
diagnostic names the path of the process. The message of a `WrappedExitErr` always
holds the prefix, and in it only the lines that hold the prefix are read: a failure
none of whose lines with the prefix ends in one of the two phrases is re-raised as it
is. -/
theorem Execute_translates_tagged_lines {σ : Type} (lib : GoLib)
    (run : σ → ExecCmd → Except ExecErr ExecResult × σ) (t : Runtime) (w w1 : σ)
    (cmd : Command) (args : StrSlice) (c : ExecCmd) (err : ExecErr)
    (hcmd : Runtime.command lib t cmd args = .ok c) (hrun : run w c = (.error err, w1)) :
    Runtime.Execute lib run t w cmd args = (.error (translate c.Path err), w1)
    ∧ (∀ lines matched, ∃ r, matchLines lines matched = .ok r)
    ∧ (translate c.Path err = .exec err ∨ (∃ m, translate c.Path err = .notFoundVia m c.Path)
        ∨ translate c.Path err = .executableNotFound c.Path)
    ∧ (∀ (pre post toks : List String) (line tok : String),
        Contains err.Error LogPrefix = true →
        Split err.Error "\n" = pre ++ line :: post →
        (∀ l ∈ pre, Contains l LogPrefix = false
          ∨ (Split l ": ").getLastD "" ≠ "command not found") →
        Contains line LogPrefix = true →
        Split line ": " = toks ++ [tok, "command not found"] → tok ≠ "" →
        translate c.Path err = .notFoundVia tok c.Path)
    ∧ (∀ (pre post toks : List String) (line tok : String),
        Contains err.Error LogPrefix = true →
        Split err.Error "\n" = pre ++ line :: post →
        (∀ l ∈ pre, Contains l LogPrefix = false
          ∨ (Split l ": ").getLastD "" ≠ "command not found") →
        (∀ l ∈ post, Contains l LogPrefix = false
          ∨ ((Split l ": ").getLastD "" ≠ "command not found"
            ∧ (Split l ": ").getLastD "" ≠ "executable file not found in $PATH")) →
        Contains line LogPrefix = true →
        Split line ": " = toks ++ [tok, "executable file not found in $PATH"] →
        TrimLeftQuote (TrimRightQuote tok) ≠ "" →
        translate c.Path err = .notFoundVia (TrimLeftQuote (TrimRightQuote tok)) c.Path)
    ∧ (Contains err.Error LogPrefix = false →
        Contains err.Error "executable file not found" = true →
        translate c.Path err = .executableNotFound c.Path)
    ∧ (∀ exitErr exitCode combined,
        Contains (ExecErr.wrappedExit exitErr exitCode combined).Error LogPrefix = true)
    ∧ (Contains err.Error LogPrefix = true →
        (∀ l ∈ Split err.Error "\n", Contains l LogPrefix = false
          ∨ ((Split l ": ").getLastD "" ≠ "command not found"
            ∧ (Split l ": ").getLastD "" ≠ "executable file not found in $PATH")) →
        translate c.Path err = .exec err) := by
  refine ⟨?_, matchLines_ok, translate_cases c.Path err, ?_, ?_, ?_, Contains_wrappedExit, ?_⟩
  · simp only [Runtime.Execute, hcmd, hrun]
  · intro pre post toks line tok hp hs hpre hc ht hne
    unfold translate
    simp only [hp, if_true, hs, matchLines_command_not_found pre post line "" tok toks hpre hc ht,
      hne, if_false]
  · intro pre post toks line tok hp hs hpre hpost hc ht hne
    unfold translate
    simp only [hp, if_true, hs,
      matchLines_not_in_path pre post line "" tok toks hpre hpost hc ht, hne, if_false]
  · intro hp hc
    unfold translate
    simp [hp, hc]
  · intro hp hall
    unfold translate
    simp only [hp, if_true, matchLines_inert _ "" hall]

/-- C15, amended, on the harness that allows `bash`, over `RunExecCmd`. For `bash -c foo`
the one line of the combined output follows the log prefix and ends in
`command not found`, and `Execute` raises the diagnostic that names `foo`. For
`bash -c ./tool` that line ends in `executable file not found in $PATH` after the quoted
name, and `Execute` raises the diagnostic that names `foo`. On the harness that allows
every command, the program `nosuch` cannot be started, the message does not hold the
log prefix, and `Execute` raises the diagnostic that names `nosuch`. -/
theorem Execute_translates_tagged_lines_witness :
    (Runtime.Execute GoLib.ascii (RunExecCmd shellOS) kubectlRuntime ()
        ⟨"bash", [.str "-c", .str "foo"]⟩ (.mk ["-c", "foo"])
      = (.error (translate "bash" notFoundErr), ())
      ∧ translate "bash" notFoundErr = .notFoundVia "foo" "bash")
    ∧ (Runtime.Execute GoLib.ascii (RunExecCmd shellOS) kubectlRuntime ()
        ⟨"bash", [.str "-c", .str "./tool"]⟩ (.mk ["-c", "./tool"])
      = (.error (translate "bash" notInPathErr), ())
      ∧ translate "bash" notInPathErr = .notFoundVia "foo" "bash")
    ∧ (Runtime.Execute GoLib.ascii (RunExecCmd shellOS) allowAllRuntime ()
        ⟨"nosuch", []⟩ .nil
      = (.error (translate "nosuch"
          (.plain "exec: \"nosuch\": executable file not found in $PATH")), ())
      ∧ translate "nosuch" (.plain "exec: \"nosuch\": executable file not found in $PATH")
        = .executableNotFound "nosuch") :=
  ⟨⟨(Execute_translates_tagged_lines GoLib.ascii (RunExecCmd shellOS) kubectlRuntime () ()
        ⟨"bash", [.str "-c", .str "foo"]⟩ (.mk ["-c", "foo"])
        ⟨"bash", ["-c", "foo"], ["PATH=/tmp/bin"]⟩ notFoundErr rfl rfl).1,
     (Execute_translates_tagged_lines GoLib.ascii (RunExecCmd shellOS) kubectlRuntime () ()
        ⟨"bash", [.str "-c", .str "foo"]⟩ (.mk ["-c", "foo"])
        ⟨"bash", ["-c", "foo"], ["PATH=/tmp/bin"]⟩ notFoundErr rfl rfl).2.2.2.1
        ["exit status 127", "AcctestInvocation exit code: 127", ""] ["", ""]
        ["AcctestInvocation combined output", "bash", "line 1"]
        "AcctestInvocation combined output: bash: line 1: foo: command not found" "foo"
        (by decide) (by decide)
        (fun l hl => by
          simp only [List.mem_cons, List.mem_singleton, List.not_mem_nil, or_false] at hl
          rcases hl with rfl | rfl | rfl
          · exact Or.inl (by decide)
          · exact Or.inr (by decide)
          · exact Or.inl (by decide))
        (by decide) (by decide) (by decide)⟩,
   ⟨(Execute_translates_tagged_lines GoLib.ascii (RunExecCmd shellOS) kubectlRuntime () ()
        ⟨"bash", [.str "-c", .str "./tool"]⟩ (.mk ["-c", "./tool"])
        ⟨"bash", ["-c", "./tool"], ["PATH=/tmp/bin"]⟩ notInPathErr rfl rfl).1,
     (Execute_translates_tagged_lines GoLib.ascii (RunExecCmd shellOS) kubectlRuntime () ()
        ⟨"bash", [.str "-c", .str "./tool"]⟩ (.mk ["-c", "./tool"])
        ⟨"bash", ["-c", "./tool"], ["PATH=/tmp/bin"]⟩ notInPathErr rfl rfl).2.2.2.2.1
        ["exit status 1", "AcctestInvocation exit code: 1", ""] ["", ""]
        ["AcctestInvocation combined output", "exec"]
        "AcctestInvocation combined output: exec: \"foo\": executable file not found in $PATH"
        "\"foo\""
        (by decide) (by decide)
        (fun l hl => by
          simp only [List.mem_cons, List.mem_singleton, List.not_mem_nil, or_false] at hl
          rcases hl with rfl | rfl | rfl
          · exact Or.inl (by decide)
          · exact Or.inr (by decide)
          · exact Or.inl (by decide))
        (fun l hl => by
          simp only [List.mem_cons, List.mem_singleton, List.not_mem_nil, or_false] at hl
          rcases hl with rfl | rfl
          · exact Or.inl (by decide)
          · exact Or.inl (by decide))
        (by decide) (by decide) (by decide)⟩,
   ⟨(Execute_translates_tagged_lines GoLib.ascii (RunExecCmd shellOS) allowAllRuntime () ()
        ⟨"nosuch", []⟩ .nil ⟨"nosuch", [], ["PATH="]⟩
        (.plain "exec: \"nosuch\": executable file not found in $PATH") rfl rfl).1,
     (Execute_translates_tagged_lines GoLib.ascii (RunExecCmd shellOS) allowAllRuntime () ()
        ⟨"nosuch", []⟩ .nil ⟨"nosuch", [], ["PATH="]⟩
        (.plain "exec: \"nosuch\": executable file not found in $PATH") rfl rfl).2.2.2.2.2.1
        (by decide) (by decide)⟩⟩

theorem wrapperArgs_spawn (f : WrapperFile) (args : List String) :
    wrapperArgs (f.spawn args).2 = .ok (.mk args) := by
  unfold WrapperFile.spawn wrapperArgs
  by_cases h : f.goTestName = ""
  · simp [h]
  · simp [h]

/-- C16: on a harness whose stub is `kubectl` with no arguments, `Execute` matches the
call of `kubectl` without arguments (the nil slice that `RunTask` builds) to the stub, and
`Start` has written the wrapper `kubectl`; yet the process that the wrapper starts rebuilds
the empty non-nil slice, finds no stub for it, and ends as not expected. On a harness with
two stubs of different paths and the base name `kubectl`, the one wrapper file names the
path of the second stub, and the call that `Execute` matches to the first stub ends as
not expected in wrapper mode too. -/
theorem wrapper_mode_misses_matched_stub :
    ((bareKubectlRuntime.findExpected "kubectl" .nil).isSome = true
      ∧ (match Runtime.Start GoLib.ascii (some "/bin/bash") "" ["/tmp/acc.test"] []
            bareKubectlRuntime with
          | .setup files none => files.map (fun e => (e.1, e.2.text))
          | _ => [])
          = [("/tmp/bin/kubectl",
              "#!/bin/bash -e\nACCTEST_INVOCATION=kubectl /tmp/acc.test -test.run ^TestGoRuntime$ -- \"$@\"\n")]
      ∧ wrapperArgs ["/tmp/acc.test", "-test.run", "^TestGoRuntime$", "--"] = .ok (.mk [])
      ∧ wrapperRoundTrip GoLib.ascii (some "/bin/bash") ["/tmp/acc.test"] bareKubectlRuntime
          ⟨"kubectl", []⟩ .nil = some (.notExpected "kubectl" (.mk [])))
    ∧ ((twoKubectlRuntime.findExpected "/usr/bin/kubectl" (.mk ["get"])).isSome = true
      ∧ (match Runtime.Start GoLib.ascii (some "/bin/bash") "" ["/tmp/acc.test"] []
            twoKubectlRuntime with
          | .setup files none => files.map (fun e => (e.1, e.2.text))
          | _ => [])
          = [("/tmp/bin/kubectl",
              "#!/bin/bash -e\nACCTEST_INVOCATION=/usr/local/bin/kubectl /tmp/acc.test -- \"$@\"\n")]
      ∧ wrapperRoundTrip GoLib.ascii (some "/bin/bash") ["/tmp/acc.test"] twoKubectlRuntime
          ⟨"/usr/bin/kubectl", [.str "get"]⟩ (.mk ["get"])
          = some (.notExpected "/usr/local/bin/kubectl" (.mk ["get"]))) := by
  refine ⟨⟨by decide, by decide, rfl, rfl⟩, ⟨by decide, by decide, rfl⟩⟩

theorem setupLoop_lookup (lib : GoLib) (bashPath self : String) (more : List String) (t : Runtime)
    (stubs : List ExecutionStub) (files : GoMap WrapperFile) (p P : String)
    (hpaths : ∀ ex ∈ stubs, ex.Command.Path ≠ "")
    (hbase : ∀ ex ∈ stubs, lib.filepathJoin t.binDir (Base ex.Command.Path) = p →
      ex.Command.Path = P)
    (hsome : (∃ ex ∈ stubs, lib.filepathJoin t.binDir (Base ex.Command.Path) = p)
      ∨ List.lookup p files = some ⟨bashPath, P, self, t.GoTestName⟩) :
    (setupLoop lib (some bashPath) (self :: more) t stubs files).2 = none
    ∧ List.lookup p (setupLoop lib (some bashPath) (self :: more) t stubs files).1
        = some ⟨bashPath, P, self, t.GoTestName⟩ := by
  induction stubs generalizing files with
  | nil =>
    rcases hsome with ⟨ex, hex, _⟩ | h
    · simp at hex
    · exact ⟨rfl, h⟩
  | cons ex rest ih =>
    have hne := hpaths ex (List.mem_cons_self _ _)
    simp only [setupLoop, hne, if_false, List.head?_cons]
    apply ih _ (fun x hx => hpaths x (List.mem_cons_of_mem _ hx))
      (fun x hx => hbase x (List.mem_cons_of_mem _ hx))
    by_cases hp : lib.filepathJoin t.binDir (Base ex.Command.Path) = p
    · right
      rw [lookup_set, hp, hbase ex (List.mem_cons_self _ _) hp]
      simp
    · rcases hsome with ⟨x, hx, hxp⟩ | h
      · rcases List.mem_cons.mp hx with rfl | hx
        · exact absurd hxp hp
        · exact Or.inl ⟨x, hx, hxp⟩
      · right
        rw [lookup_set]
        have : ¬ p = lib.filepathJoin t.binDir (Base ex.Command.Path) := fun h => hp h.symm
        simp [this, h]

/-- Where the three modes do agree: for a call with a non-nil argument slice that `Execute`
matches to a stub, on a harness none of whose stubs has an empty path or shares the
wrapper file of the matched stub under a different path, the process that the wrapper
starts rebuilds the same arguments and runs the handler of the same stub. -/
theorem wrapperRoundTrip_agrees (lib : GoLib) (bashPath self : String) (more : List String)
    (t : Runtime) (cmd : Command) (l : List String) (ex : ExecutionStub)
    (hmatch : t.findExpected cmd.Path (.mk l) = some ex)
    (hpaths : ∀ x ∈ t.ExecutionStubs, x.Command.Path ≠ "")
    (hbase : ∀ x ∈ t.ExecutionStubs,
      lib.filepathJoin t.binDir (Base x.Command.Path)
        = lib.filepathJoin t.binDir (Base ex.Command.Path) →
      x.Command.Path = ex.Command.Path) :
    wrapperRoundTrip lib (some bashPath) (self :: more) t cmd (.mk l) = some (.ran ex) := by
  have hmem : ex ∈ t.ExecutionStubs := by
    unfold Runtime.findExpected at hmatch
    exact List.mem_of_find?_eq_some hmatch
  have hpath : cmd.Path = ex.Command.Path := by
    unfold Runtime.findExpected at hmatch
    have hp := List.find?_some hmatch
    by_cases h1 : cmd.Path = ex.Command.Path
    · exact h1
    · simp [h1] at hp
  obtain ⟨h1, h2⟩ := setupLoop_lookup lib bashPath self more t t.ExecutionStubs []
    (lib.filepathJoin t.binDir (Base ex.Command.Path)) ex.Command.Path hpaths hbase
    (Or.inl ⟨ex, hmem, rfl⟩)
  unfold wrapperRoundTrip Runtime.Start
  rw [hmatch]
  simp only [ne_eq, not_true_eq_false, if_false]
  rcases hs : setupLoop lib (some bashPath) (self :: more) t t.ExecutionStubs [] with ⟨files, e⟩
  rw [hs] at h1 h2
  simp only at h1 h2
  subst h1
  simp only [h2]
  unfold Runtime.StartWrapper
  rw [wrapperArgs_spawn]
  simp only [WrapperFile.spawn, StrSlice.toList, ← hpath, hmatch]

end Acc
